import Mathlib

/-!
# A shallow embedding of `pkg/datastructures/bplus_tree.go`

The Go implementation is a pointer-based B+ tree: nodes hold slices of keys,
leaf entries and child pointers, plus `next` (leaf-chain) and `parent`
back-references.  We model the pointer heap explicitly: node pointers become
`Nat` indices into a list of nodes, and `nil` pointers become `none`.
Every mutating Go method becomes a function from tree state to tree state,
translated statement by statement.

Modelling conventions:
* Keys and values are the Go `any`; we model them by type parameters `K`, `V`.
  The comparator, fixed at construction in Go, is passed as an explicit
  function parameter `cmp : K → K → Int` (Go returns -1/0/1 as `int`).
* Go loops that walk `parent` / `next` / child pointers terminate because the
  heap built by the tree is acyclic; we make this explicit with a fuel
  argument always instantiated with `nodes.length + 1`, which exceeds any
  simple pointer path in the heap.
* Out-of-range slice reads (which would panic in Go) return `default`
  values here, and the "not found in parent" branches (Go `panic`) return
  the state unchanged; both are unreachable on states the tree itself builds.
* Go's `count` field is `int64`; we use `Int`.
-/

namespace BPlus

/-- `KeyValue` from the Go source: one leaf entry, a key together with the
stored value. -/
structure KeyValue (K V : Type) where
  Key : K
  Value : V
deriving Repr, DecidableEq, Inhabited

/-- `TreeNode` from the Go source.  `children`, `next` and `parent` are
pointers in Go; here they are indices into the heap (`Option Nat` where the
Go pointer may be `nil`). -/
structure TreeNode (K V : Type) where
  keys : List K
  values : List (KeyValue K V)
  children : List Nat
  isLeaf : Bool
  next : Option Nat
  parent : Option Nat
deriving Repr, DecidableEq

instance {K V : Type} : Inhabited (TreeNode K V) :=
  ⟨{ keys := [], values := [], children := [], isLeaf := false, next := none, parent := none }⟩

/-- `BPlusTree` from the Go source.  `nodes` is the heap of all nodes ever
allocated; `root` is the index of the current root.  The `sync.RWMutex` has
no observable effect on single-threaded executions and is not modelled; the
comparator is passed to each operation instead of being stored. -/
structure BPlusTree (K V : Type) where
  nodes : List (TreeNode K V)
  root : Nat
  order : Nat
  minKeys : Nat
  minChildren : Nat
  count : Int
deriving Repr, DecidableEq

variable {K V : Type}

/-- Dereference a node pointer (out of range yields `default`, a state the
Go code would have crashed on instead of producing). -/
def getN (nodes : List (TreeNode K V)) (i : Nat) : TreeNode K V :=
  nodes.getD i default

/-- Write a node back through its pointer. -/
def setN (nodes : List (TreeNode K V)) (i : Nat) (n : TreeNode K V) :
    List (TreeNode K V) :=
  nodes.set i n

/-- Insert an element at a position of a list: the `append`/`copy`/assign
idiom used throughout the Go code for slice insertion. -/
def insertAt : List α → Nat → α → List α
  | l, 0, a => a :: l
  | [], _ + 1, a => [a]
  | x :: xs, n + 1, a => x :: insertAt xs n a

/-- `leaf.values[i].Value = value`: overwrite the `Value` field of the entry
at index `i`, keeping its `Key` field. -/
def setValueAt : List (KeyValue K V) → Nat → V → List (KeyValue K V)
  | [], _, _ => []
  | e :: rest, 0, v => { e with Value := v } :: rest
  | e :: rest, n + 1, v => e :: setValueAt rest n v

/-- Update the `parent` field of every node in `ids` (the Go
`for _, child := range ... { child.parent = ... }` loops). -/
def setParents (nodes : List (TreeNode K V)) (ids : List Nat) (p : Option Nat) :
    List (TreeNode K V) :=
  ids.foldl (fun ns c => setN ns c { getN ns c with parent := p }) nodes

/-- The scan in `findLeafNode`: the first index `idx` with
`comparator(key, keys[idx]) < 0`, i.e. the number of leading keys with
`comparator(key, k) >= 0`. -/
def childIndex (cmp : K → K → Int) (key : K) : List K → Nat
  | [] => 0
  | k :: ks => if cmp key k ≥ 0 then childIndex cmp key ks + 1 else 0

/-- The common loop of `Insert`/`Search`/`Delete` that scans a leaf's keys
for the first `i` with `comparator(keys[i], key) == 0`. -/
def findEq (cmp : K → K → Int) (key : K) : List K → Option Nat
  | [] => none
  | k :: ks => if cmp k key = 0 then some 0 else (findEq cmp key ks).map (· + 1)

/-- The scan in `insertIntoLeaf`: number of leading keys with
`comparator(k, key) < 0`, the sorted insertion position. -/
def insertPos (cmp : K → K → Int) (key : K) : List K → Nat
  | [] => 0
  | k :: ks => if cmp k key < 0 then insertPos cmp key ks + 1 else 0

/-- The descent loop of `findLeafNode`. -/
def findLeafLoop (cmp : K → K → Int) (nodes : List (TreeNode K V)) (key : K) :
    Nat → Nat → Nat
  | 0, i => i
  | fuel + 1, i =>
    let n := getN nodes i
    if n.isLeaf then i
    else
      let idx := childIndex cmp key n.keys
      let idx := if idx ≥ n.children.length then n.children.length - 1 else idx
      findLeafLoop cmp nodes key fuel (n.children.getD idx 0)

/-- `findLeafNode`: descend from the root to the leaf that would contain
`key`. -/
def findLeafNode (cmp : K → K → Int) (t : BPlusTree K V) (key : K) : Nat :=
  findLeafLoop cmp t.nodes key (t.nodes.length + 1) t.root

/-- `splitInternalNode`, recursing up the ancestor chain on overflow. -/
def splitInternalNode (cmp : K → K → Int) [Inhabited K] :
    Nat → BPlusTree K V → Nat → BPlusTree K V
  | 0, t, _ => t
  | fuel + 1, t, ni =>
    let node := getN t.nodes ni
    let splitPos := node.keys.length / 2
    let newId := t.nodes.length
    let midKey := node.keys.getD splitPos default
    let newNode : TreeNode K V :=
      { keys := node.keys.drop (splitPos + 1), values := [],
        children := node.children.drop (splitPos + 1), isLeaf := false,
        next := none, parent := node.parent }
    let node' := { node with keys := node.keys.take splitPos,
                             children := node.children.take (splitPos + 1) }
    let nodes1 := setN t.nodes ni node' ++ [newNode]
    let nodes2 := setParents nodes1 newNode.children (some newId)
    match node.parent with
    | none =>
      let rootId := nodes2.length
      let newRoot : TreeNode K V :=
        { keys := [midKey], values := [], children := [ni, newId],
          isLeaf := false, next := none, parent := none }
      let nodes3 := nodes2 ++ [newRoot]
      let nodes4 := setN nodes3 ni { getN nodes3 ni with parent := some rootId }
      let nodes5 := setN nodes4 newId { getN nodes4 newId with parent := some rootId }
      { t with nodes := nodes5, root := rootId }
    | some pid =>
      let parent := getN nodes2 pid
      match parent.children.findIdx? (· = ni) with
      | none => { t with nodes := nodes2 }
      | some nodePos =>
        let parent' := { parent with
          keys := insertAt parent.keys nodePos midKey,
          children := insertAt parent.children (nodePos + 1) newId }
        let nodes3 := setN nodes2 pid parent'
        let nodes4 := setN nodes3 newId { getN nodes3 newId with parent := some pid }
        let t' := { t with nodes := nodes4 }
        if parent'.keys.length > t.order - 1 then splitInternalNode cmp fuel t' pid
        else t'

/-- `splitLeafNode`: split an overflowing leaf, splice the new leaf into the
chain and push the separator into the parent. -/
def splitLeafNode (cmp : K → K → Int) [Inhabited K] (fuel : Nat)
    (t : BPlusTree K V) (li : Nat) : BPlusTree K V :=
  let leaf := getN t.nodes li
  let splitPos := leaf.keys.length / 2
  let newId := t.nodes.length
  let newLeaf : TreeNode K V :=
    { keys := leaf.keys.drop splitPos, values := leaf.values.drop splitPos,
      children := [], isLeaf := true, next := leaf.next, parent := leaf.parent }
  let leaf' := { leaf with keys := leaf.keys.take splitPos,
                           values := leaf.values.take splitPos,
                           next := some newId }
  let nodes1 := setN t.nodes li leaf' ++ [newLeaf]
  match leaf.parent with
  | none =>
    let rootId := nodes1.length
    let newRoot : TreeNode K V :=
      { keys := [newLeaf.keys.headD default], values := [],
        children := [li, newId], isLeaf := false, next := none, parent := none }
    let nodes2 := nodes1 ++ [newRoot]
    let nodes3 := setN nodes2 li { getN nodes2 li with parent := some rootId }
    let nodes4 := setN nodes3 newId { getN nodes3 newId with parent := some rootId }
    { t with nodes := nodes4, root := rootId }
  | some pid =>
    let parent := getN nodes1 pid
    match parent.children.findIdx? (· = li) with
    | none => { t with nodes := nodes1 }
    | some leafPos =>
      let parent' := { parent with
        keys := insertAt parent.keys leafPos (newLeaf.keys.headD default),
        children := insertAt parent.children (leafPos + 1) newId }
      let nodes2 := setN nodes1 pid parent'
      let nodes3 := setN nodes2 newId { getN nodes2 newId with parent := some pid }
      let t' := { t with nodes := nodes3 }
      if parent'.keys.length > t.order - 1 then splitInternalNode cmp fuel t' pid
      else t'

/-- `insertIntoLeaf`: insert the entry at its sorted position and split if
the leaf now exceeds `order-1` entries. -/
def insertIntoLeaf (cmp : K → K → Int) [Inhabited K] (fuel : Nat)
    (t : BPlusTree K V) (li : Nat) (key : K) (value : V) : BPlusTree K V :=
  let leaf := getN t.nodes li
  let pos := insertPos cmp key leaf.keys
  let leaf' := { leaf with
    keys := insertAt leaf.keys pos key,
    values := insertAt leaf.values pos { Key := key, Value := value } }
  let t1 := { t with nodes := setN t.nodes li leaf' }
  if leaf'.keys.length > t.order - 1 then splitLeafNode cmp fuel t1 li else t1

/-- `Insert`: nil key is an error; an existing key gets its value
overwritten in place; otherwise the entry is inserted and `count` bumped. -/
def Insert (cmp : K → K → Int) [Inhabited K] (t : BPlusTree K V)
    (key : Option K) (value : V) : BPlusTree K V × Option String :=
  match key with
  | none => (t, some "key cannot be nil")
  | some k =>
    let li := findLeafNode cmp t k
    let leaf := getN t.nodes li
    match findEq cmp k leaf.keys with
    | some i =>
      ({ t with nodes := setN t.nodes li { leaf with values := setValueAt leaf.values i value } },
       none)
    | none =>
      let t1 := insertIntoLeaf cmp (t.nodes.length + 1) t li k value
      ({ t1 with count := t1.count + 1 }, none)

/-- `Search`: descend to the leaf, scan for an exact comparator match. -/
def Search (cmp : K → K → Int) [Inhabited K] [Inhabited V] (t : BPlusTree K V)
    (key : Option K) : Option V × Bool :=
  match key with
  | none => (none, false)
  | some k =>
    let leaf := getN t.nodes (findLeafNode cmp t k)
    match findEq cmp k leaf.keys with
    | some i => (some (leaf.values.getD i default).Value, true)
    | none => (none, false)

mutual

/-- `deleteFromInternalNode`: drop separator `pos` and child `pos+1` from
`parent`, rebalance the parent if it underflowed, and collapse the root if
it is an internal node left with no separators. -/
def deleteFromInternalNode (cmp : K → K → Int) [Inhabited K] :
    Nat → BPlusTree K V → Nat → Nat → BPlusTree K V
  | 0, t, _, _ => t
  | fuel + 1, t, pid, pos =>
    let parent := getN t.nodes pid
    let parent' := { parent with keys := parent.keys.eraseIdx pos,
                                 children := parent.children.eraseIdx (pos + 1) }
    let t1 : BPlusTree K V := { t with nodes := setN t.nodes pid parent' }
    let t2 := if parent'.keys.length < t1.minKeys ∧ parent'.parent ≠ none then
                rebalanceInternalNode cmp fuel t1 pid
              else t1
    let parent2 := getN t2.nodes pid
    if parent2.keys.length = 0 ∧ parent2.parent = none then
      let newRootId := parent2.children.getD 0 0
      let nodes' := setN t2.nodes newRootId { getN t2.nodes newRootId with parent := none }
      { t2 with nodes := nodes', root := newRootId }
    else t2

/-- `rebalanceInternalNode`: borrow a separator-plus-child from the left or
right sibling, else merge with a sibling and recurse into the parent.  The
separator updates after a borrow reproduce the Go code exactly (the parent
separator is set to the sibling's new boundary key). -/
def rebalanceInternalNode (cmp : K → K → Int) [Inhabited K] :
    Nat → BPlusTree K V → Nat → BPlusTree K V
  | 0, t, _ => t
  | fuel + 1, t, ni =>
    let node := getN t.nodes ni
    match node.parent with
    | none => t
    | some pid =>
      let parent := getN t.nodes pid
      let pos := (parent.children.findIdx? (· = ni)).getD parent.children.length
      if pos > 0 ∧
          (getN t.nodes (parent.children.getD (pos - 1) 0)).keys.length > t.minKeys then
        let lid := parent.children.getD (pos - 1) 0
        let left := getN t.nodes lid
        let borrowedKey := parent.keys.getD (pos - 1) default
        let lastChild := left.children.getD (left.children.length - 1) 0
        let nodes1 := setN t.nodes ni { node with keys := borrowedKey :: node.keys }
        let nodes2 := setN nodes1 lastChild { getN nodes1 lastChild with parent := some ni }
        let nodes3 := setN nodes2 ni
          { getN nodes2 ni with children := lastChild :: (getN nodes2 ni).children }
        let left' := { getN nodes3 lid with
          keys := (getN nodes3 lid).keys.dropLast,
          children := (getN nodes3 lid).children.dropLast }
        let nodes4 := setN nodes3 lid left'
        let nodes5 := setN nodes4 pid { getN nodes4 pid with
          keys := (getN nodes4 pid).keys.set (pos - 1)
            (left'.keys.getD (left'.keys.length - 1) default) }
        { t with nodes := nodes5 }
      else if pos < parent.children.length - 1 ∧
          (getN t.nodes (parent.children.getD (pos + 1) 0)).keys.length > t.minKeys then
        let rid := parent.children.getD (pos + 1) 0
        let right := getN t.nodes rid
        let borrowedKey := parent.keys.getD pos default
        let firstChild := right.children.getD 0 0
        let nodes1 := setN t.nodes ni { node with keys := node.keys ++ [borrowedKey] }
        let nodes2 := setN nodes1 firstChild { getN nodes1 firstChild with parent := some ni }
        let nodes3 := setN nodes2 ni
          { getN nodes2 ni with children := (getN nodes2 ni).children ++ [firstChild] }
        let right' := { getN nodes3 rid with
          keys := (getN nodes3 rid).keys.drop 1,
          children := (getN nodes3 rid).children.drop 1 }
        let nodes4 := setN nodes3 rid right'
        let nodes5 := setN nodes4 pid { getN nodes4 pid with
          keys := (getN nodes4 pid).keys.set pos (right'.keys.headD default) }
        { t with nodes := nodes5 }
      else if pos > 0 then
        let lid := parent.children.getD (pos - 1) 0
        let left := getN t.nodes lid
        let parentKey := parent.keys.getD (pos - 1) default
        let left' := { left with keys := left.keys ++ [parentKey] ++ node.keys,
                                 children := left.children ++ node.children }
        let nodes1 := setN t.nodes lid left'
        let nodes2 := setParents nodes1 node.children (some lid)
        deleteFromInternalNode cmp fuel { t with nodes := nodes2 } pid (pos - 1)
      else
        let rid := parent.children.getD (pos + 1) 0
        let right := getN t.nodes rid
        let parentKey := parent.keys.getD pos default
        let node' := { node with keys := node.keys ++ [parentKey] ++ right.keys,
                                 children := node.children ++ right.children }
        let nodes1 := setN t.nodes ni node'
        let nodes2 := setParents nodes1 right.children (some ni)
        deleteFromInternalNode cmp fuel { t with nodes := nodes2 } pid pos

end

/-- `rebalanceLeafNode`: borrow an entry from the left or right sibling
(updating the parent separator), else merge with a sibling, relink the leaf
chain and delete the separator from the parent. -/
def rebalanceLeafNode (cmp : K → K → Int) [Inhabited K] [Inhabited V]
    (fuel : Nat) (t : BPlusTree K V) (li : Nat) : BPlusTree K V :=
  let leaf := getN t.nodes li
  match leaf.parent with
  | none => t
  | some pid =>
    let parent := getN t.nodes pid
    let pos := (parent.children.findIdx? (· = li)).getD parent.children.length
    if pos > 0 ∧
        (getN t.nodes (parent.children.getD (pos - 1) 0)).keys.length > t.minKeys then
      let lid := parent.children.getD (pos - 1) 0
      let left := getN t.nodes lid
      let borrowedKey := left.keys.getD (left.keys.length - 1) default
      let borrowedValue := left.values.getD (left.values.length - 1) default
      let leaf' := { leaf with keys := borrowedKey :: leaf.keys,
                               values := borrowedValue :: leaf.values }
      let nodes1 := setN t.nodes li leaf'
      let nodes2 := setN nodes1 lid { getN nodes1 lid with
        keys := (getN nodes1 lid).keys.dropLast,
        values := (getN nodes1 lid).values.dropLast }
      let nodes3 := setN nodes2 pid { getN nodes2 pid with
        keys := (getN nodes2 pid).keys.set (pos - 1) (leaf'.keys.headD default) }
      { t with nodes := nodes3 }
    else if pos < parent.children.length - 1 ∧
        (getN t.nodes (parent.children.getD (pos + 1) 0)).keys.length > t.minKeys then
      let rid := parent.children.getD (pos + 1) 0
      let right := getN t.nodes rid
      let borrowedKey := right.keys.headD default
      let borrowedValue := right.values.getD 0 default
      let leaf' := { leaf with keys := leaf.keys ++ [borrowedKey],
                               values := leaf.values ++ [borrowedValue] }
      let nodes1 := setN t.nodes li leaf'
      let right' := { right with keys := right.keys.drop 1, values := right.values.drop 1 }
      let nodes2 := setN nodes1 rid right'
      let nodes3 := setN nodes2 pid { getN nodes2 pid with
        keys := (getN nodes2 pid).keys.set pos (right'.keys.headD default) }
      { t with nodes := nodes3 }
    else if pos > 0 then
      let lid := parent.children.getD (pos - 1) 0
      let left := getN t.nodes lid
      let left' := { left with keys := left.keys ++ leaf.keys,
                               values := left.values ++ leaf.values,
                               next := leaf.next }
      let nodes1 := setN t.nodes lid left'
      deleteFromInternalNode cmp fuel { t with nodes := nodes1 } pid (pos - 1)
    else
      let rid := parent.children.getD (pos + 1) 0
      let right := getN t.nodes rid
      let leaf' := { leaf with keys := leaf.keys ++ right.keys,
                               values := leaf.values ++ right.values,
                               next := right.next }
      let nodes1 := setN t.nodes li leaf'
      deleteFromInternalNode cmp fuel { t with nodes := nodes1 } pid pos

/-- `deleteFromLeaf`: remove the entry at `idx`; rebalance if the leaf is
not the root and underflowed. -/
def deleteFromLeaf (cmp : K → K → Int) [Inhabited K] [Inhabited V]
    (fuel : Nat) (t : BPlusTree K V) (li : Nat) (idx : Nat) : BPlusTree K V :=
  let leaf := getN t.nodes li
  let leaf' := { leaf with keys := leaf.keys.eraseIdx idx,
                           values := leaf.values.eraseIdx idx }
  let t1 : BPlusTree K V := { t with nodes := setN t.nodes li leaf' }
  if leaf'.keys.length < t1.minKeys ∧ leaf'.parent ≠ none then
    rebalanceLeafNode cmp fuel t1 li
  else t1

/-- `Delete`: nil or absent key returns `false` with no side effects;
otherwise remove the entry, rebalance, and decrement `count`. -/
def Delete (cmp : K → K → Int) [Inhabited K] [Inhabited V] (t : BPlusTree K V)
    (key : Option K) : BPlusTree K V × Bool :=
  match key with
  | none => (t, false)
  | some k =>
    let li := findLeafNode cmp t k
    let leaf := getN t.nodes li
    match findEq cmp k leaf.keys with
    | none => (t, false)
    | some idx =>
      let t1 := deleteFromLeaf cmp (t.nodes.length + 1) t li idx
      ({ t1 with count := t1.count - 1 }, true)

/-- The filtering loop in `RangeQuery`: emit `values[i]` for every `i` with
`start ≤ keys[i] < end` under the comparator. -/
def filterEntries (cmp : K → K → Int) (startK endK : K) :
    List K → List (KeyValue K V) → List (KeyValue K V)
  | k :: ks, v :: vs =>
    (if cmp k startK ≥ 0 ∧ cmp k endK < 0 then [v] else []) ++
      filterEntries cmp startK endK ks vs
  | _, _ => []

/-- The leaf-chain walk in `RangeQuery`, from the starting leaf to the end
of the chain. -/
def chainCollect (cmp : K → K → Int) (nodes : List (TreeNode K V))
    (startK endK : K) : Nat → Option Nat → List (KeyValue K V)
  | 0, _ => []
  | _, none => []
  | fuel + 1, some li =>
    let leaf := getN nodes li
    filterEntries cmp startK endK leaf.keys leaf.values ++
      chainCollect cmp nodes startK endK fuel leaf.next

/-- `RangeQuery` over the half-open interval `[start, end)`: validates the
arguments, then walks the leaf chain from the leaf that would contain
`start`. -/
def RangeQuery (cmp : K → K → Int) [Inhabited K] (t : BPlusTree K V)
    (startK endK : Option K) : Option (List (KeyValue K V)) × Option String :=
  match startK, endK with
  | none, _ => (none, some "start and end cannot be nil")
  | _, none => (none, some "start and end cannot be nil")
  | some s, some e =>
    if cmp s e ≥ 0 then (none, some "start must be less than end")
    else
      (some (chainCollect cmp t.nodes s e (t.nodes.length + 1)
        (some (findLeafNode cmp t s))), none)

/-- The left-most descent in `ScanAll` and `Height`. -/
def leftmostLeaf (nodes : List (TreeNode K V)) : Nat → Nat → Nat
  | 0, i => i
  | fuel + 1, i =>
    let n := getN nodes i
    if n.isLeaf then i else leftmostLeaf nodes fuel (n.children.getD 0 0)

/-- The chain walk in `ScanAll`, concatenating every leaf's entries. -/
def chainValues (nodes : List (TreeNode K V)) : Nat → Option Nat → List (KeyValue K V)
  | 0, _ => []
  | _, none => []
  | fuel + 1, some li =>
    (getN nodes li).values ++ chainValues nodes fuel (getN nodes li).next

/-- `ScanAll`: all entries in leaf-chain order, starting from the left-most
leaf. -/
def ScanAll (t : BPlusTree K V) : List (KeyValue K V) :=
  chainValues t.nodes (t.nodes.length + 1)
    (some (leftmostLeaf t.nodes (t.nodes.length + 1) t.root))

/-- `Size`: the `count` field. -/
def Size (t : BPlusTree K V) : Int :=
  t.count

/-- `Height`: length of the left-most root-to-leaf path, 1 for a leaf
root. -/
def heightLoop (nodes : List (TreeNode K V)) : Nat → Nat → Nat → Nat
  | 0, _, h => h
  | fuel + 1, i, h =>
    let n := getN nodes i
    if n.isLeaf then h else heightLoop nodes fuel (n.children.getD 0 0) (h + 1)

/-- `Height` of the tree. -/
def Height (t : BPlusTree K V) : Nat :=
  heightLoop t.nodes (t.nodes.length + 1) t.root 1

/-- `NewBPlusTree`: a fresh tree whose root is a single empty leaf.  (Go
panics for `order < 3` or a nil comparator; theorems below only use valid
orders.) -/
def NewBPlusTree (order : Nat) : BPlusTree K V :=
  { nodes := [{ keys := [], values := [], children := [], isLeaf := true,
                next := none, parent := none }],
    root := 0, order := order, minKeys := order / 2 - 1,
    minChildren := order / 2, count := 0 }

/-- The integer comparator used by the repository's tests and examples. -/
def intCmp (a b : Int) : Int :=
  if a < b then -1 else if a > b then 1 else 0

/-- A public-API operation: insert a key/value pair or delete a key. -/
inductive Op
  | ins : Int → Int → Op
  | del : Int → Op
deriving Repr, DecidableEq

/-- Apply one operation to an integer-keyed tree. -/
def applyOp (t : BPlusTree Int Int) : Op → BPlusTree Int Int
  | .ins k v => (Insert intCmp t (some k) v).1
  | .del k => (Delete intCmp t (some k)).1

/-- Run a sequence of operations against a freshly constructed tree of the
given order. -/
def runOps (order : Nat) (ops : List Op) : BPlusTree Int Int :=
  ops.foldl applyOp (NewBPlusTree order)


/-- All keys stored in the subtree below node `i` (spec §3: "keys in
subtree"), collected leaf-first through the child lists. -/
def collectSubtreeKeys (nodes : List (TreeNode K V)) : Nat → Nat → List K
  | 0, _ => []
  | fuel + 1, i =>
    let n := getN nodes i
    if n.isLeaf then n.keys
    else (n.children.map (collectSubtreeKeys nodes fuel)).flatten

/-- The separator bound the spec imposes on a key `k` lying in child `j` of
an internal node with separators `ks` (`m = ks.length`): child 0 keys are
below `ks[0]`, child `j` (0 < j < m) keys lie in `[ks[j-1], ks[j])`, and
child `m` keys are at least `ks[m-1]`. -/
def sepBoundOk (cmp : K → K → Int) [Inhabited K] (ks : List K) (m j : Nat)
    (k : K) : Bool :=
  if j = 0 then decide (cmp k (ks.headD default) < 0)
  else if j < m then
    decide (0 ≤ cmp k (ks.getD (j - 1) default)) && decide (cmp k (ks.getD j default) < 0)
  else decide (0 ≤ cmp k (ks.getD (m - 1) default))

/-- Check the separator-ordering invariant (spec §3, invariant 2) at node
`i` and, recursively, at every node below it. -/
def sepOkNode (cmp : K → K → Int) [Inhabited K] (nodes : List (TreeNode K V)) :
    Nat → Nat → Bool
  | 0, _ => true
  | fuel + 1, i =>
    let n := getN nodes i
    if n.isLeaf then true
    else
      (List.range n.children.length).all (fun j =>
        (collectSubtreeKeys nodes fuel (n.children.getD j 0)).all
          (fun k => sepBoundOk cmp n.keys n.keys.length j k)) &&
      n.children.all (fun c => sepOkNode cmp nodes fuel c)

/-- The separator-ordering invariant of the whole tree. -/
def sepInvariant (cmp : K → K → Int) [Inhabited K] (t : BPlusTree K V) : Bool :=
  sepOkNode cmp t.nodes (t.nodes.length + 1) t.root

/-- A list of keys is strictly increasing under the comparator. -/
def strictlyAscending (cmp : K → K → Int) : List K → Bool
  | [] => true
  | [_] => true
  | a :: b :: rest => decide (cmp a b < 0) && strictlyAscending cmp (b :: rest)


/-- The operation sequence of the c1 counterexample trace. -/
def c1ops : List Op :=
  [.ins 17 1700,
   .ins 11 1100,
   .ins 7 700,
   .ins 22 2200,
   .ins 15 1500,
   .ins 8 800,
   .ins 10 1000,
   .ins 9 900,
   .del 15,
   .del 11,
   .ins 4 400,
   .ins 1 100,
   .del 22,
   .del 10]

/-- The tree state after the first 1 operations of `c1ops` (order 4). -/
def c1s1 : BPlusTree Int Int :=
  { nodes := [{ keys := [17],
                values := [{ Key := 17, Value := 1700 }],
                children := [],
                isLeaf := true,
                next := none,
                parent := none }],
    root := 0,
    order := 4,
    minKeys := 1,
    minChildren := 2,
    count := 1 }

/-- The tree state after the first 2 operations of `c1ops` (order 4). -/
def c1s2 : BPlusTree Int Int :=
  { nodes := [{ keys := [11, 17],
                values := [{ Key := 11, Value := 1100 }, { Key := 17, Value := 1700 }],
                children := [],
                isLeaf := true,
                next := none,
                parent := none }],
    root := 0,
    order := 4,
    minKeys := 1,
    minChildren := 2,
    count := 2 }

/-- The tree state after the first 3 operations of `c1ops` (order 4). -/
def c1s3 : BPlusTree Int Int :=
  { nodes := [{ keys := [7, 11, 17],
                values := [{ Key := 7, Value := 700 }, { Key := 11, Value := 1100 }, { Key := 17, Value := 1700 }],
                children := [],
                isLeaf := true,
                next := none,
                parent := none }],
    root := 0,
    order := 4,
    minKeys := 1,
    minChildren := 2,
    count := 3 }

/-- The tree state after the first 4 operations of `c1ops` (order 4). -/
def c1s4 : BPlusTree Int Int :=
  { nodes := [{ keys := [7, 11],
                values := [{ Key := 7, Value := 700 }, { Key := 11, Value := 1100 }],
                children := [],
                isLeaf := true,
                next := some 1,
                parent := some 2 },
              { keys := [17, 22],
                values := [{ Key := 17, Value := 1700 }, { Key := 22, Value := 2200 }],
                children := [],
                isLeaf := true,
                next := none,
                parent := some 2 },
              { keys := [17], values := [], children := [0, 1], isLeaf := false, next := none, parent := none }],
    root := 2,
    order := 4,
    minKeys := 1,
    minChildren := 2,
    count := 4 }

/-- The tree state after the first 5 operations of `c1ops` (order 4). -/
def c1s5 : BPlusTree Int Int :=
  { nodes := [{ keys := [7, 11, 15],
                values := [{ Key := 7, Value := 700 }, { Key := 11, Value := 1100 }, { Key := 15, Value := 1500 }],
                children := [],
                isLeaf := true,
                next := some 1,
                parent := some 2 },
              { keys := [17, 22],
                values := [{ Key := 17, Value := 1700 }, { Key := 22, Value := 2200 }],
                children := [],
                isLeaf := true,
                next := none,
                parent := some 2 },
              { keys := [17], values := [], children := [0, 1], isLeaf := false, next := none, parent := none }],
    root := 2,
    order := 4,
    minKeys := 1,
    minChildren := 2,
    count := 5 }

/-- The tree state after the first 6 operations of `c1ops` (order 4). -/
def c1s6 : BPlusTree Int Int :=
  { nodes := [{ keys := [7, 8],
                values := [{ Key := 7, Value := 700 }, { Key := 8, Value := 800 }],
                children := [],
                isLeaf := true,
                next := some 3,
                parent := some 2 },
              { keys := [17, 22],
                values := [{ Key := 17, Value := 1700 }, { Key := 22, Value := 2200 }],
                children := [],
                isLeaf := true,
                next := none,
                parent := some 2 },
              { keys := [11, 17], values := [], children := [0, 3, 1], isLeaf := false, next := none, parent := none },
              { keys := [11, 15],
                values := [{ Key := 11, Value := 1100 }, { Key := 15, Value := 1500 }],
                children := [],
                isLeaf := true,
                next := some 1,
                parent := some 2 }],
    root := 2,
    order := 4,
    minKeys := 1,
    minChildren := 2,
    count := 6 }

/-- The tree state after the first 7 operations of `c1ops` (order 4). -/
def c1s7 : BPlusTree Int Int :=
  { nodes := [{ keys := [7, 8, 10],
                values := [{ Key := 7, Value := 700 }, { Key := 8, Value := 800 }, { Key := 10, Value := 1000 }],
                children := [],
                isLeaf := true,
                next := some 3,
                parent := some 2 },
              { keys := [17, 22],
                values := [{ Key := 17, Value := 1700 }, { Key := 22, Value := 2200 }],
                children := [],
                isLeaf := true,
                next := none,
                parent := some 2 },
              { keys := [11, 17], values := [], children := [0, 3, 1], isLeaf := false, next := none, parent := none },
              { keys := [11, 15],
                values := [{ Key := 11, Value := 1100 }, { Key := 15, Value := 1500 }],
                children := [],
                isLeaf := true,
                next := some 1,
                parent := some 2 }],
    root := 2,
    order := 4,
    minKeys := 1,
    minChildren := 2,
    count := 7 }

/-- The tree state after the first 8 operations of `c1ops` (order 4). -/
def c1s8 : BPlusTree Int Int :=
  { nodes := [{ keys := [7, 8],
                values := [{ Key := 7, Value := 700 }, { Key := 8, Value := 800 }],
                children := [],
                isLeaf := true,
                next := some 4,
                parent := some 2 },
              { keys := [17, 22],
                values := [{ Key := 17, Value := 1700 }, { Key := 22, Value := 2200 }],
                children := [],
                isLeaf := true,
                next := none,
                parent := some 2 },
              { keys := [9, 11, 17],
                values := [],
                children := [0, 4, 3, 1],
                isLeaf := false,
                next := none,
                parent := none },
              { keys := [11, 15],
                values := [{ Key := 11, Value := 1100 }, { Key := 15, Value := 1500 }],
                children := [],
                isLeaf := true,
                next := some 1,
                parent := some 2 },
              { keys := [9, 10],
                values := [{ Key := 9, Value := 900 }, { Key := 10, Value := 1000 }],
                children := [],
                isLeaf := true,
                next := some 3,
                parent := some 2 }],
    root := 2,
    order := 4,
    minKeys := 1,
    minChildren := 2,
    count := 8 }

/-- The tree state after the first 9 operations of `c1ops` (order 4). -/
def c1s9 : BPlusTree Int Int :=
  { nodes := [{ keys := [7, 8],
                values := [{ Key := 7, Value := 700 }, { Key := 8, Value := 800 }],
                children := [],
                isLeaf := true,
                next := some 4,
                parent := some 2 },
              { keys := [17, 22],
                values := [{ Key := 17, Value := 1700 }, { Key := 22, Value := 2200 }],
                children := [],
                isLeaf := true,
                next := none,
                parent := some 2 },
              { keys := [9, 11, 17],
                values := [],
                children := [0, 4, 3, 1],
                isLeaf := false,
                next := none,
                parent := none },
              { keys := [11],
                values := [{ Key := 11, Value := 1100 }],
                children := [],
                isLeaf := true,
                next := some 1,
                parent := some 2 },
              { keys := [9, 10],
                values := [{ Key := 9, Value := 900 }, { Key := 10, Value := 1000 }],
                children := [],
                isLeaf := true,
                next := some 3,
                parent := some 2 }],
    root := 2,
    order := 4,
    minKeys := 1,
    minChildren := 2,
    count := 7 }

/-- The tree state after the first 10 operations of `c1ops` (order 4). -/
def c1s10 : BPlusTree Int Int :=
  { nodes := [{ keys := [7, 8],
                values := [{ Key := 7, Value := 700 }, { Key := 8, Value := 800 }],
                children := [],
                isLeaf := true,
                next := some 4,
                parent := some 2 },
              { keys := [17, 22],
                values := [{ Key := 17, Value := 1700 }, { Key := 22, Value := 2200 }],
                children := [],
                isLeaf := true,
                next := none,
                parent := some 2 },
              { keys := [9, 10, 17],
                values := [],
                children := [0, 4, 3, 1],
                isLeaf := false,
                next := none,
                parent := none },
              { keys := [10],
                values := [{ Key := 10, Value := 1000 }],
                children := [],
                isLeaf := true,
                next := some 1,
                parent := some 2 },
              { keys := [9],
                values := [{ Key := 9, Value := 900 }],
                children := [],
                isLeaf := true,
                next := some 3,
                parent := some 2 }],
    root := 2,
    order := 4,
    minKeys := 1,
    minChildren := 2,
    count := 6 }

/-- The tree state after the first 11 operations of `c1ops` (order 4). -/
def c1s11 : BPlusTree Int Int :=
  { nodes := [{ keys := [4, 7, 8],
                values := [{ Key := 4, Value := 400 }, { Key := 7, Value := 700 }, { Key := 8, Value := 800 }],
                children := [],
                isLeaf := true,
                next := some 4,
                parent := some 2 },
              { keys := [17, 22],
                values := [{ Key := 17, Value := 1700 }, { Key := 22, Value := 2200 }],
                children := [],
                isLeaf := true,
                next := none,
                parent := some 2 },
              { keys := [9, 10, 17],
                values := [],
                children := [0, 4, 3, 1],
                isLeaf := false,
                next := none,
                parent := none },
              { keys := [10],
                values := [{ Key := 10, Value := 1000 }],
                children := [],
                isLeaf := true,
                next := some 1,
                parent := some 2 },
              { keys := [9],
                values := [{ Key := 9, Value := 900 }],
                children := [],
                isLeaf := true,
                next := some 3,
                parent := some 2 }],
    root := 2,
    order := 4,
    minKeys := 1,
    minChildren := 2,
    count := 7 }

/-- The tree state after the first 12 operations of `c1ops` (order 4). -/
def c1s12 : BPlusTree Int Int :=
  { nodes := [{ keys := [1, 4],
                values := [{ Key := 1, Value := 100 }, { Key := 4, Value := 400 }],
                children := [],
                isLeaf := true,
                next := some 5,
                parent := some 2 },
              { keys := [17, 22],
                values := [{ Key := 17, Value := 1700 }, { Key := 22, Value := 2200 }],
                children := [],
                isLeaf := true,
                next := none,
                parent := some 6 },
              { keys := [7, 9], values := [], children := [0, 5, 4], isLeaf := false, next := none, parent := some 7 },
              { keys := [10],
                values := [{ Key := 10, Value := 1000 }],
                children := [],
                isLeaf := true,
                next := some 1,
                parent := some 6 },
              { keys := [9],
                values := [{ Key := 9, Value := 900 }],
                children := [],
                isLeaf := true,
                next := some 3,
                parent := some 2 },
              { keys := [7, 8],
                values := [{ Key := 7, Value := 700 }, { Key := 8, Value := 800 }],
                children := [],
                isLeaf := true,
                next := some 4,
                parent := some 2 },
              { keys := [17], values := [], children := [3, 1], isLeaf := false, next := none, parent := some 7 },
              { keys := [10], values := [], children := [2, 6], isLeaf := false, next := none, parent := none }],
    root := 7,
    order := 4,
    minKeys := 1,
    minChildren := 2,
    count := 8 }

/-- The tree state after the first 13 operations of `c1ops` (order 4). -/
def c1s13 : BPlusTree Int Int :=
  { nodes := [{ keys := [1, 4],
                values := [{ Key := 1, Value := 100 }, { Key := 4, Value := 400 }],
                children := [],
                isLeaf := true,
                next := some 5,
                parent := some 2 },
              { keys := [17],
                values := [{ Key := 17, Value := 1700 }],
                children := [],
                isLeaf := true,
                next := none,
                parent := some 6 },
              { keys := [7, 9], values := [], children := [0, 5, 4], isLeaf := false, next := none, parent := some 7 },
              { keys := [10],
                values := [{ Key := 10, Value := 1000 }],
                children := [],
                isLeaf := true,
                next := some 1,
                parent := some 6 },
              { keys := [9],
                values := [{ Key := 9, Value := 900 }],
                children := [],
                isLeaf := true,
                next := some 3,
                parent := some 2 },
              { keys := [7, 8],
                values := [{ Key := 7, Value := 700 }, { Key := 8, Value := 800 }],
                children := [],
                isLeaf := true,
                next := some 4,
                parent := some 2 },
              { keys := [17], values := [], children := [3, 1], isLeaf := false, next := none, parent := some 7 },
              { keys := [10], values := [], children := [2, 6], isLeaf := false, next := none, parent := none }],
    root := 7,
    order := 4,
    minKeys := 1,
    minChildren := 2,
    count := 7 }

/-- The tree state after the first 14 operations of `c1ops` (order 4). -/
def c1s14 : BPlusTree Int Int :=
  { nodes := [{ keys := [1, 4],
                values := [{ Key := 1, Value := 100 }, { Key := 4, Value := 400 }],
                children := [],
                isLeaf := true,
                next := some 5,
                parent := some 2 },
              { keys := [17],
                values := [{ Key := 17, Value := 1700 }],
                children := [],
                isLeaf := true,
                next := none,
                parent := some 6 },
              { keys := [7], values := [], children := [0, 5], isLeaf := false, next := none, parent := some 7 },
              { keys := [17],
                values := [{ Key := 17, Value := 1700 }],
                children := [],
                isLeaf := true,
                next := none,
                parent := some 6 },
              { keys := [9],
                values := [{ Key := 9, Value := 900 }],
                children := [],
                isLeaf := true,
                next := some 3,
                parent := some 6 },
              { keys := [7, 8],
                values := [{ Key := 7, Value := 700 }, { Key := 8, Value := 800 }],
                children := [],
                isLeaf := true,
                next := some 4,
                parent := some 2 },
              { keys := [10], values := [], children := [4, 3], isLeaf := false, next := none, parent := some 7 },
              { keys := [7], values := [], children := [2, 6], isLeaf := false, next := none, parent := none }],
    root := 7,
    order := 4,
    minKeys := 1,
    minChildren := 2,
    count := 6 }

/-- The operation sequence of the c4 counterexample trace. -/
def c4ops : List Op :=
  [.ins 19 1900,
   .ins 6 600,
   .ins 5 500,
   .ins 22 2200,
   .ins 20 2000,
   .ins 21 2100,
   .del 19,
   .del 22,
   .ins 1 100,
   .ins 17 1700,
   .ins 7 700,
   .ins 12 1200,
   .del 21,
   .ins 7 700]

/-- The tree state after the first 1 operations of `c4ops` (order 4). -/
def c4s1 : BPlusTree Int Int :=
  { nodes := [{ keys := [19],
                values := [{ Key := 19, Value := 1900 }],
                children := [],
                isLeaf := true,
                next := none,
                parent := none }],
    root := 0,
    order := 4,
    minKeys := 1,
    minChildren := 2,
    count := 1 }

/-- The tree state after the first 2 operations of `c4ops` (order 4). -/
def c4s2 : BPlusTree Int Int :=
  { nodes := [{ keys := [6, 19],
                values := [{ Key := 6, Value := 600 }, { Key := 19, Value := 1900 }],
                children := [],
                isLeaf := true,
                next := none,
                parent := none }],
    root := 0,
    order := 4,
    minKeys := 1,
    minChildren := 2,
    count := 2 }

/-- The tree state after the first 3 operations of `c4ops` (order 4). -/
def c4s3 : BPlusTree Int Int :=
  { nodes := [{ keys := [5, 6, 19],
                values := [{ Key := 5, Value := 500 }, { Key := 6, Value := 600 }, { Key := 19, Value := 1900 }],
                children := [],
                isLeaf := true,
                next := none,
                parent := none }],
    root := 0,
    order := 4,
    minKeys := 1,
    minChildren := 2,
    count := 3 }

/-- The tree state after the first 4 operations of `c4ops` (order 4). -/
def c4s4 : BPlusTree Int Int :=
  { nodes := [{ keys := [5, 6],
                values := [{ Key := 5, Value := 500 }, { Key := 6, Value := 600 }],
                children := [],
                isLeaf := true,
                next := some 1,
                parent := some 2 },
              { keys := [19, 22],
                values := [{ Key := 19, Value := 1900 }, { Key := 22, Value := 2200 }],
                children := [],
                isLeaf := true,
                next := none,
                parent := some 2 },
              { keys := [19], values := [], children := [0, 1], isLeaf := false, next := none, parent := none }],
    root := 2,
    order := 4,
    minKeys := 1,
    minChildren := 2,
    count := 4 }

/-- The tree state after the first 5 operations of `c4ops` (order 4). -/
def c4s5 : BPlusTree Int Int :=
  { nodes := [{ keys := [5, 6],
                values := [{ Key := 5, Value := 500 }, { Key := 6, Value := 600 }],
                children := [],
                isLeaf := true,
                next := some 1,
                parent := some 2 },
              { keys := [19, 20, 22],
                values := [{ Key := 19, Value := 1900 }, { Key := 20, Value := 2000 }, { Key := 22, Value := 2200 }],
                children := [],
                isLeaf := true,
                next := none,
                parent := some 2 },
              { keys := [19], values := [], children := [0, 1], isLeaf := false, next := none, parent := none }],
    root := 2,
    order := 4,
    minKeys := 1,
    minChildren := 2,
    count := 5 }

/-- The tree state after the first 6 operations of `c4ops` (order 4). -/
def c4s6 : BPlusTree Int Int :=
  { nodes := [{ keys := [5, 6],
                values := [{ Key := 5, Value := 500 }, { Key := 6, Value := 600 }],
                children := [],
                isLeaf := true,
                next := some 1,
                parent := some 2 },
              { keys := [19, 20],
                values := [{ Key := 19, Value := 1900 }, { Key := 20, Value := 2000 }],
                children := [],
                isLeaf := true,
                next := some 3,
                parent := some 2 },
              { keys := [19, 21], values := [], children := [0, 1, 3], isLeaf := false, next := none, parent := none },
              { keys := [21, 22],
                values := [{ Key := 21, Value := 2100 }, { Key := 22, Value := 2200 }],
                children := [],
                isLeaf := true,
                next := none,
                parent := some 2 }],
    root := 2,
    order := 4,
    minKeys := 1,
    minChildren := 2,
    count := 6 }

/-- The tree state after the first 7 operations of `c4ops` (order 4). -/
def c4s7 : BPlusTree Int Int :=
  { nodes := [{ keys := [5, 6],
                values := [{ Key := 5, Value := 500 }, { Key := 6, Value := 600 }],
                children := [],
                isLeaf := true,
                next := some 1,
                parent := some 2 },
              { keys := [20],
                values := [{ Key := 20, Value := 2000 }],
                children := [],
                isLeaf := true,
                next := some 3,
                parent := some 2 },
              { keys := [19, 21], values := [], children := [0, 1, 3], isLeaf := false, next := none, parent := none },
              { keys := [21, 22],
                values := [{ Key := 21, Value := 2100 }, { Key := 22, Value := 2200 }],
                children := [],
                isLeaf := true,
                next := none,
                parent := some 2 }],
    root := 2,
    order := 4,
    minKeys := 1,
    minChildren := 2,
    count := 5 }

/-- The tree state after the first 8 operations of `c4ops` (order 4). -/
def c4s8 : BPlusTree Int Int :=
  { nodes := [{ keys := [5, 6],
                values := [{ Key := 5, Value := 500 }, { Key := 6, Value := 600 }],
                children := [],
                isLeaf := true,
                next := some 1,
                parent := some 2 },
              { keys := [20],
                values := [{ Key := 20, Value := 2000 }],
                children := [],
                isLeaf := true,
                next := some 3,
                parent := some 2 },
              { keys := [19, 21], values := [], children := [0, 1, 3], isLeaf := false, next := none, parent := none },
              { keys := [21],
                values := [{ Key := 21, Value := 2100 }],
                children := [],
                isLeaf := true,
                next := none,
                parent := some 2 }],
    root := 2,
    order := 4,
    minKeys := 1,
    minChildren := 2,
    count := 4 }

/-- The tree state after the first 9 operations of `c4ops` (order 4). -/
def c4s9 : BPlusTree Int Int :=
  { nodes := [{ keys := [1, 5, 6],
                values := [{ Key := 1, Value := 100 }, { Key := 5, Value := 500 }, { Key := 6, Value := 600 }],
                children := [],
                isLeaf := true,
                next := some 1,
                parent := some 2 },
              { keys := [20],
                values := [{ Key := 20, Value := 2000 }],
                children := [],
                isLeaf := true,
                next := some 3,
                parent := some 2 },
              { keys := [19, 21], values := [], children := [0, 1, 3], isLeaf := false, next := none, parent := none },
              { keys := [21],
                values := [{ Key := 21, Value := 2100 }],
                children := [],
                isLeaf := true,
                next := none,
                parent := some 2 }],
    root := 2,
    order := 4,
    minKeys := 1,
    minChildren := 2,
    count := 5 }

/-- The tree state after the first 10 operations of `c4ops` (order 4). -/
def c4s10 : BPlusTree Int Int :=
  { nodes := [{ keys := [1, 5],
                values := [{ Key := 1, Value := 100 }, { Key := 5, Value := 500 }],
                children := [],
                isLeaf := true,
                next := some 4,
                parent := some 2 },
              { keys := [20],
                values := [{ Key := 20, Value := 2000 }],
                children := [],
                isLeaf := true,
                next := some 3,
                parent := some 2 },
              { keys := [6, 19, 21],
                values := [],
                children := [0, 4, 1, 3],
                isLeaf := false,
                next := none,
                parent := none },
              { keys := [21],
                values := [{ Key := 21, Value := 2100 }],
                children := [],
                isLeaf := true,
                next := none,
                parent := some 2 },
              { keys := [6, 17],
                values := [{ Key := 6, Value := 600 }, { Key := 17, Value := 1700 }],
                children := [],
                isLeaf := true,
                next := some 1,
                parent := some 2 }],
    root := 2,
    order := 4,
    minKeys := 1,
    minChildren := 2,
    count := 6 }

/-- The tree state after the first 11 operations of `c4ops` (order 4). -/
def c4s11 : BPlusTree Int Int :=
  { nodes := [{ keys := [1, 5],
                values := [{ Key := 1, Value := 100 }, { Key := 5, Value := 500 }],
                children := [],
                isLeaf := true,
                next := some 4,
                parent := some 2 },
              { keys := [20],
                values := [{ Key := 20, Value := 2000 }],
                children := [],
                isLeaf := true,
                next := some 3,
                parent := some 2 },
              { keys := [6, 19, 21],
                values := [],
                children := [0, 4, 1, 3],
                isLeaf := false,
                next := none,
                parent := none },
              { keys := [21],
                values := [{ Key := 21, Value := 2100 }],
                children := [],
                isLeaf := true,
                next := none,
                parent := some 2 },
              { keys := [6, 7, 17],
                values := [{ Key := 6, Value := 600 }, { Key := 7, Value := 700 }, { Key := 17, Value := 1700 }],
                children := [],
                isLeaf := true,
                next := some 1,
                parent := some 2 }],
    root := 2,
    order := 4,
    minKeys := 1,
    minChildren := 2,
    count := 7 }

/-- The tree state after the first 12 operations of `c4ops` (order 4). -/
def c4s12 : BPlusTree Int Int :=
  { nodes := [{ keys := [1, 5],
                values := [{ Key := 1, Value := 100 }, { Key := 5, Value := 500 }],
                children := [],
                isLeaf := true,
                next := some 4,
                parent := some 2 },
              { keys := [20],
                values := [{ Key := 20, Value := 2000 }],
                children := [],
                isLeaf := true,
                next := some 3,
                parent := some 6 },
              { keys := [6, 12], values := [], children := [0, 4, 5], isLeaf := false, next := none, parent := some 7 },
              { keys := [21],
                values := [{ Key := 21, Value := 2100 }],
                children := [],
                isLeaf := true,
                next := none,
                parent := some 6 },
              { keys := [6, 7],
                values := [{ Key := 6, Value := 600 }, { Key := 7, Value := 700 }],
                children := [],
                isLeaf := true,
                next := some 5,
                parent := some 2 },
              { keys := [12, 17],
                values := [{ Key := 12, Value := 1200 }, { Key := 17, Value := 1700 }],
                children := [],
                isLeaf := true,
                next := some 1,
                parent := some 2 },
              { keys := [21], values := [], children := [1, 3], isLeaf := false, next := none, parent := some 7 },
              { keys := [19], values := [], children := [2, 6], isLeaf := false, next := none, parent := none }],
    root := 7,
    order := 4,
    minKeys := 1,
    minChildren := 2,
    count := 8 }

/-- The tree state after the first 13 operations of `c4ops` (order 4). -/
def c4s13 : BPlusTree Int Int :=
  { nodes := [{ keys := [1, 5],
                values := [{ Key := 1, Value := 100 }, { Key := 5, Value := 500 }],
                children := [],
                isLeaf := true,
                next := some 4,
                parent := some 2 },
              { keys := [20],
                values := [{ Key := 20, Value := 2000 }],
                children := [],
                isLeaf := true,
                next := none,
                parent := some 6 },
              { keys := [6], values := [], children := [0, 4], isLeaf := false, next := none, parent := some 7 },
              { keys := [], values := [], children := [], isLeaf := true, next := none, parent := some 6 },
              { keys := [6, 7],
                values := [{ Key := 6, Value := 600 }, { Key := 7, Value := 700 }],
                children := [],
                isLeaf := true,
                next := some 5,
                parent := some 2 },
              { keys := [12, 17],
                values := [{ Key := 12, Value := 1200 }, { Key := 17, Value := 1700 }],
                children := [],
                isLeaf := true,
                next := some 1,
                parent := some 6 },
              { keys := [19], values := [], children := [5, 1], isLeaf := false, next := none, parent := some 7 },
              { keys := [6], values := [], children := [2, 6], isLeaf := false, next := none, parent := none }],
    root := 7,
    order := 4,
    minKeys := 1,
    minChildren := 2,
    count := 7 }

/-- The tree state after the first 14 operations of `c4ops` (order 4). -/
def c4s14 : BPlusTree Int Int :=
  { nodes := [{ keys := [1, 5],
                values := [{ Key := 1, Value := 100 }, { Key := 5, Value := 500 }],
                children := [],
                isLeaf := true,
                next := some 4,
                parent := some 2 },
              { keys := [20],
                values := [{ Key := 20, Value := 2000 }],
                children := [],
                isLeaf := true,
                next := none,
                parent := some 6 },
              { keys := [6], values := [], children := [0, 4], isLeaf := false, next := none, parent := some 7 },
              { keys := [], values := [], children := [], isLeaf := true, next := none, parent := some 6 },
              { keys := [6, 7],
                values := [{ Key := 6, Value := 600 }, { Key := 7, Value := 700 }],
                children := [],
                isLeaf := true,
                next := some 5,
                parent := some 2 },
              { keys := [7, 12, 17],
                values := [{ Key := 7, Value := 700 }, { Key := 12, Value := 1200 }, { Key := 17, Value := 1700 }],
                children := [],
                isLeaf := true,
                next := some 1,
                parent := some 6 },
              { keys := [19], values := [], children := [5, 1], isLeaf := false, next := none, parent := some 7 },
              { keys := [6], values := [], children := [2, 6], isLeaf := false, next := none, parent := none }],
    root := 7,
    order := 4,
    minKeys := 1,
    minChildren := 2,
    count := 8 }

/-- Two heaps agree on everything an operation's descent and chain walks
can observe except the stored `Value` fields: same length, and pointwise
the same leaf flag, keys, children, chain pointer and entry keys. -/
def SameShape (ns ms : List (TreeNode K V)) : Prop :=
  ns.length = ms.length ∧ ∀ j : Nat,
    (getN ns j).isLeaf = (getN ms j).isLeaf ∧
    (getN ns j).keys = (getN ms j).keys ∧
    (getN ns j).children = (getN ms j).children ∧
    (getN ns j).next = (getN ms j).next ∧
    (getN ns j).values.map KeyValue.Key = (getN ms j).values.map KeyValue.Key

/-- A comparator on pairs that only inspects the first component: two keys
can be comparator-equal without being the same value. -/
def pairCmp (a b : Int × Int) : Int :=
  intCmp a.1 b.1

/-- A small tree used to witness the general theorems below. -/
def wtree : BPlusTree Int Int :=
  runOps 4 [.ins 1 10, .ins 5 50]

/-- A small pair-keyed tree whose single entry was inserted with key
`(7, 0)`. -/
def wptree : BPlusTree (Int × Int) Int :=
  (Insert pairCmp (NewBPlusTree 4) (some (7, 0)) 700).1

/-- A skeleton of the live tree: a rose tree of heap node ids.  The heap
itself stores child pointers, but a skeleton witnesses the finite, acyclic
unfolding that a well-formed heap admits. -/
inductive Skel
  | leaf : Nat → Skel
  | node : Nat → List Skel → Skel

/-- The heap id at the root of a skeleton. -/
def Skel.rootId : Skel → Nat
  | .leaf i => i
  | .node i _ => i

/-- The leaf ids of a skeleton, left to right. -/
def Skel.leavesOf : Skel → List Nat
  | .leaf i => [i]
  | .node _ cs => (cs.attach.map (fun c => Skel.leavesOf c.1)).flatten
decreasing_by
  have := List.sizeOf_lt_of_mem c.2
  simp_wf
  omega

/-- All node ids of a skeleton: the root first, then the children's ids
left to right. -/
def Skel.idsOf : Skel → List Nat
  | .leaf i => [i]
  | .node i cs => i :: (cs.attach.map (fun c => Skel.idsOf c.1)).flatten
decreasing_by
  have := List.sizeOf_lt_of_mem c.2
  simp_wf
  omega

/-- The heap realizes a skeleton at a given height: leaves are leaf
records with entries and keys in parallel; internal nodes have `keys + 1`
children (at least two), their child pointers list exactly the skeleton's
children, every child realizes its skeleton at one level lower (so all
leaves are equidistant from the root), and every child's parent pointer
points back. -/
inductive Fits (nodes : List (TreeNode K V)) : Skel → Nat → Prop
  | leaf {i : Nat} :
      i < nodes.length →
      (getN nodes i).isLeaf = true →
      (getN nodes i).children = [] →
      (getN nodes i).values.length = (getN nodes i).keys.length →
      Fits nodes (.leaf i) 1
  | node {i : Nat} {cs : List Skel} {h : Nat} :
      i < nodes.length →
      (getN nodes i).isLeaf = false →
      (getN nodes i).children = cs.map Skel.rootId →
      (getN nodes i).keys.length + 1 = cs.length →
      1 ≤ (getN nodes i).keys.length →
      (∀ c ∈ cs, Fits nodes c h) →
      (∀ c ∈ cs, (getN nodes (Skel.rootId c)).parent = some i) →
      Fits nodes (.node i cs) (h + 1)

/-- Like `Fits`, but the top node, if internal, may have any number of
separators (including zero, hence possibly a single child): the transient
state of a node that has just lost a separator during delete
rebalancing. -/
def FitsTop (nodes : List (TreeNode K V)) : Skel → Nat → Prop
  | .leaf i, h => Fits nodes (.leaf i) h
  | .node i cs, h =>
      ∃ h', h = h' + 1 ∧
        i < nodes.length ∧
        (getN nodes i).isLeaf = false ∧
        (getN nodes i).children = cs.map Skel.rootId ∧
        (getN nodes i).keys.length + 1 = cs.length ∧
        (∀ c ∈ cs, Fits nodes c h') ∧
        (∀ c ∈ cs, (getN nodes (Skel.rootId c)).parent = some i)

/-- One step of the path from a node up to the root: the parent id and the
skeletons of the siblings to the left and to the right. -/
structure Crumb where
  p : Nat
  ls : List Skel
  rs : List Skel

/-- Rebuild the skeleton of the whole tree from the skeleton of a subtree
and its path to the root. -/
def plugSkel : List Crumb → Skel → Skel
  | [], s => s
  | c :: rest, s => plugSkel rest (.node c.p (c.ls ++ s :: c.rs))

/-- The path of crumbs is realized by the heap, for a hole of the given
height and root id: each level's parent record lists exactly the sibling
pointers around the hole, the hole's parent pointer points at it, the
siblings are realized one level below, and so on up to the root. -/
def CtxOk (nodes : List (TreeNode K V)) : List Crumb → Nat → Nat → Prop
  | [], _, _ => True
  | c :: rest, h, x =>
      c.p < nodes.length ∧
      (getN nodes c.p).isLeaf = false ∧
      (getN nodes c.p).children = c.ls.map Skel.rootId ++ x :: c.rs.map Skel.rootId ∧
      (getN nodes c.p).keys.length + 1 = c.ls.length + c.rs.length + 1 ∧
      1 ≤ (getN nodes c.p).keys.length ∧
      (getN nodes x).parent = some c.p ∧
      (∀ s ∈ c.ls, Fits nodes s h ∧ (getN nodes (Skel.rootId s)).parent = some c.p) ∧
      (∀ s ∈ c.rs, Fits nodes s h ∧ (getN nodes (Skel.rootId s)).parent = some c.p) ∧
      CtxOk nodes rest (h + 1) c.p

/-- Leaf ids contributed by the context strictly to the left of the
hole. -/
def preLeaves : List Crumb → List Nat
  | [] => []
  | c :: rest => preLeaves rest ++ (c.ls.map Skel.leavesOf).flatten

/-- Leaf ids contributed by the context strictly to the right of the
hole. -/
def postLeaves : List Crumb → List Nat
  | [] => []
  | c :: rest => (c.rs.map Skel.leavesOf).flatten ++ postLeaves rest

/-- Node ids contributed by the context, to the left of (and above) the
hole. -/
def preIds : List Crumb → List Nat
  | [] => []
  | c :: rest => preIds rest ++ c.p :: (c.ls.map Skel.idsOf).flatten

/-- Node ids contributed by the context strictly to the right of the
hole. -/
def postIds : List Crumb → List Nat
  | [] => []
  | c :: rest => (c.rs.map Skel.idsOf).flatten ++ postIds rest

/-- The leaf chain: each listed leaf's `next` pointer designates the next
listed leaf, and the last one ends the chain. -/
def ChainOf (nodes : List (TreeNode K V)) : List Nat → Prop
  | [] => True
  | [l] => (getN nodes l).next = none
  | l₁ :: l₂ :: rest => (getN nodes l₁).next = some l₂ ∧ ChainOf nodes (l₂ :: rest)

/-- Number of entries stored across the listed leaves. -/
def entriesTotal (nodes : List (TreeNode K V)) (L : List Nat) : Nat :=
  (L.map (fun l => (getN nodes l).values.length)).sum

/-- Full well-formedness of a tree state: some skeleton of some height is
realized at the root, the root has no parent, node ids are not aliased,
the leaves form one chain, and the order is a legal construction order. -/
def GoodTree (t : BPlusTree K V) (s : Skel) (h : Nat) : Prop :=
  Fits t.nodes s h ∧ Skel.rootId s = t.root ∧
  (getN t.nodes t.root).parent = none ∧
  (Skel.idsOf s).Nodup ∧ ChainOf t.nodes (Skel.leavesOf s) ∧ 3 ≤ t.order

/-- The count invariant coupled with well-formedness: `count` equals the
number of entries reachable through the leaf chain. -/
def Inv (t : BPlusTree K V) : Prop :=
  ∃ s h, GoodTree t s h ∧ t.count = (entriesTotal t.nodes (Skel.leavesOf s) : Int)

/-- The root id of the whole tree described by a context: the topmost
crumb's parent, or the hole itself for an empty context. -/
def ctxRootId : List Crumb → Nat → Nat
  | [], x => x
  | c :: rest, _ => ctxRootId rest c.p

/-- A zipper view of a well-formed tree: the subtree `s` is realized at
height `h`, the context `crumbs` is realized around it, the tree's root is
the context's top, the root has no parent, node ids are unaliased and the
leaves of the reassembled skeleton form one chain. -/
def ZipOk (t : BPlusTree K V) (crumbs : List Crumb) (s : Skel) (h : Nat) : Prop :=
  Fits t.nodes s h ∧ CtxOk t.nodes crumbs h s.rootId ∧
  t.root = ctxRootId crumbs s.rootId ∧
  (getN t.nodes t.root).parent = none ∧
  (Skel.idsOf (plugSkel crumbs s)).Nodup ∧
  ChainOf t.nodes (Skel.leavesOf (plugSkel crumbs s))


/-- Precondition of `deleteFromInternalNode` at `pid` with position
`A.length - 1`: the parent's children are the live subtrees `A ++ B` with
the dead child id `x` between them, one separator per live pair, and the
context above realizes the rest of a well-formed tree. -/
def DfiPre (t : BPlusTree K V) (crumbs : List Crumb) (pid : Nat)
    (A B : List Skel) (x : Nat) (h : Nat) : Prop :=
  pid < t.nodes.length ∧
  (getN t.nodes pid).isLeaf = false ∧
  (getN t.nodes pid).children = A.map Skel.rootId ++ x :: B.map Skel.rootId ∧
  (getN t.nodes pid).keys.length = A.length + B.length ∧
  A ≠ [] ∧
  (∀ c ∈ A, Fits t.nodes c h ∧ (getN t.nodes c.rootId).parent = some pid) ∧
  (∀ c ∈ B, Fits t.nodes c h ∧ (getN t.nodes c.rootId).parent = some pid) ∧
  CtxOk t.nodes crumbs (h + 1) pid ∧
  t.root = ctxRootId crumbs pid ∧
  (getN t.nodes t.root).parent = none ∧
  (Skel.idsOf (plugSkel crumbs (.node pid (A ++ B)))).Nodup ∧
  ChainOf t.nodes (Skel.leavesOf (plugSkel crumbs (.node pid (A ++ B)))) ∧
  3 ≤ t.order ∧ 1 ≤ t.minKeys

/-- Precondition of `rebalanceInternalNode` at `ni`: the node realizes the
hole of a zipper one key short of the minimum. -/
def RebalPre (t : BPlusTree K V) (c : Crumb) (rest : List Crumb) (ni : Nat)
    (cs : List Skel) (h : Nat) : Prop :=
  ni < t.nodes.length ∧
  (getN t.nodes ni).isLeaf = false ∧
  (getN t.nodes ni).children = cs.map Skel.rootId ∧
  (getN t.nodes ni).keys.length + 1 = cs.length ∧
  (∀ d ∈ cs, Fits t.nodes d h ∧ (getN t.nodes d.rootId).parent = some ni) ∧
  CtxOk t.nodes (c :: rest) (h + 1) ni ∧
  t.root = ctxRootId (c :: rest) ni ∧
  (getN t.nodes t.root).parent = none ∧
  (Skel.idsOf (plugSkel (c :: rest) (.node ni cs))).Nodup ∧
  ChainOf t.nodes (Skel.leavesOf (plugSkel (c :: rest) (.node ni cs))) ∧
  3 ≤ t.order ∧
  (getN t.nodes ni).keys.length < t.minKeys

/-- Postcondition shared by the delete-side rebalancing operations: the
result is a well-formed tree whose leaves are exactly the pre-state's live
leaves `L0`, no node's entries or chain pointer moved, the bookkeeping
fields are untouched, no node was allocated, and ids outside the pre-state's
live set `I0` are untouched. -/
def DelPost (t t' : BPlusTree K V) (L0 : List Nat) (I0 : List Nat)
    (KS : List Nat) : Prop :=
  (∃ s2 h2, GoodTree t' s2 h2 ∧ Skel.leavesOf s2 = L0) ∧
  (∀ j : Nat, (getN t'.nodes j).values = (getN t.nodes j).values ∧
    (getN t'.nodes j).next = (getN t.nodes j).next) ∧
  t'.count = t.count ∧ t'.order = t.order ∧ t'.minKeys = t.minKeys ∧
  t'.nodes.length = t.nodes.length ∧
  (∀ j : Nat, j ∉ I0 → getN t'.nodes j = getN t.nodes j) ∧
  (∀ j : Nat, j ∉ KS →
    (getN t'.nodes j).keys.length = (getN t.nodes j).keys.length)

/-- Step 1 of the `c1ops` trace. -/
theorem c1step1 : applyOp (NewBPlusTree 4) (Op.ins 17 1700) = c1s1 := rfl

/-- Step 2 of the `c1ops` trace. -/
theorem c1step2 : applyOp (c1s1) (Op.ins 11 1100) = c1s2 := rfl

/-- Step 3 of the `c1ops` trace. -/
theorem c1step3 : applyOp (c1s2) (Op.ins 7 700) = c1s3 := rfl

/-- Step 4 of the `c1ops` trace. -/
theorem c1step4 : applyOp (c1s3) (Op.ins 22 2200) = c1s4 := rfl

/-- Step 5 of the `c1ops` trace. -/
theorem c1step5 : applyOp (c1s4) (Op.ins 15 1500) = c1s5 := rfl

/-- Step 6 of the `c1ops` trace. -/
theorem c1step6 : applyOp (c1s5) (Op.ins 8 800) = c1s6 := rfl

/-- Step 7 of the `c1ops` trace. -/
theorem c1step7 : applyOp (c1s6) (Op.ins 10 1000) = c1s7 := rfl

/-- Step 8 of the `c1ops` trace. -/
theorem c1step8 : applyOp (c1s7) (Op.ins 9 900) = c1s8 := rfl

/-- Step 9 of the `c1ops` trace. -/
theorem c1step9 : applyOp (c1s8) (Op.del 15) = c1s9 := rfl

/-- Step 10 of the `c1ops` trace. -/
theorem c1step10 : applyOp (c1s9) (Op.del 11) = c1s10 := rfl

/-- Step 11 of the `c1ops` trace. -/
theorem c1step11 : applyOp (c1s10) (Op.ins 4 400) = c1s11 := rfl

/-- Step 12 of the `c1ops` trace. -/
theorem c1step12 : applyOp (c1s11) (Op.ins 1 100) = c1s12 := rfl

/-- Step 13 of the `c1ops` trace. -/
theorem c1step13 : applyOp (c1s12) (Op.del 22) = c1s13 := rfl

/-- Step 14 of the `c1ops` trace. -/
theorem c1step14 : applyOp (c1s13) (Op.del 10) = c1s14 := rfl

/-- Running the `c1ops` trace from a fresh order-4 tree ends in `c1s14`. -/
theorem runOps_c1 : runOps 4 c1ops = c1s14 := by
  simp only [runOps, c1ops, List.foldl_cons, List.foldl_nil, c1step1, c1step2, c1step3, c1step4, c1step5, c1step6, c1step7, c1step8, c1step9, c1step10, c1step11, c1step12, c1step13, c1step14]

/-- Step 1 of the `c4ops` trace. -/
theorem c4step1 : applyOp (NewBPlusTree 4) (Op.ins 19 1900) = c4s1 := rfl

/-- Step 2 of the `c4ops` trace. -/
theorem c4step2 : applyOp (c4s1) (Op.ins 6 600) = c4s2 := rfl

/-- Step 3 of the `c4ops` trace. -/
theorem c4step3 : applyOp (c4s2) (Op.ins 5 500) = c4s3 := rfl

/-- Step 4 of the `c4ops` trace. -/
theorem c4step4 : applyOp (c4s3) (Op.ins 22 2200) = c4s4 := rfl

/-- Step 5 of the `c4ops` trace. -/
theorem c4step5 : applyOp (c4s4) (Op.ins 20 2000) = c4s5 := rfl

/-- Step 6 of the `c4ops` trace. -/
theorem c4step6 : applyOp (c4s5) (Op.ins 21 2100) = c4s6 := rfl

/-- Step 7 of the `c4ops` trace. -/
theorem c4step7 : applyOp (c4s6) (Op.del 19) = c4s7 := rfl

/-- Step 8 of the `c4ops` trace. -/
theorem c4step8 : applyOp (c4s7) (Op.del 22) = c4s8 := rfl

/-- Step 9 of the `c4ops` trace. -/
theorem c4step9 : applyOp (c4s8) (Op.ins 1 100) = c4s9 := rfl

/-- Step 10 of the `c4ops` trace. -/
theorem c4step10 : applyOp (c4s9) (Op.ins 17 1700) = c4s10 := rfl

/-- Step 11 of the `c4ops` trace. -/
theorem c4step11 : applyOp (c4s10) (Op.ins 7 700) = c4s11 := rfl

/-- Step 12 of the `c4ops` trace. -/
theorem c4step12 : applyOp (c4s11) (Op.ins 12 1200) = c4s12 := rfl

/-- Step 13 of the `c4ops` trace. -/
theorem c4step13 : applyOp (c4s12) (Op.del 21) = c4s13 := rfl

/-- Step 14 of the `c4ops` trace. -/
theorem c4step14 : applyOp (c4s13) (Op.ins 7 700) = c4s14 := rfl

/-- Running the `c4ops` trace from a fresh order-4 tree ends in `c4s14`. -/
theorem runOps_c4 : runOps 4 c4ops = c4s14 := by
  simp only [runOps, c4ops, List.foldl_cons, List.foldl_nil, c4step1, c4step2, c4step3, c4step4, c4step5, c4step6, c4step7, c4step8, c4step9, c4step10, c4step11, c4step12, c4step13, c4step14]

/-- **C1.** Round-trip: the spec demands that a key whose most recent
insertion carried `v` and which has not since been deleted satisfies
`Search(k) = (v, true)`.  The code violates this: after the 14 operations
of `c1ops` (order 4), key 7 was inserted with value 700 and never deleted —
it is still emitted by `ScanAll` — yet `Search(7)` returns `(nil, false)`,
because the borrow branches of `rebalanceInternalNode` discard a routing
key and leave a stale parent separator. -/
theorem C1_roundtrip_violated :
    Search intCmp (runOps 4 c1ops) (some 7) = (none, false) ∧
    (ScanAll (runOps 4 c1ops)).map KeyValue.Key = [1, 4, 7, 8, 9, 17] ∧
    Size (runOps 4 c1ops) = 6 := by
  rw [runOps_c1]
  exact ⟨by decide, by decide, by decide⟩

/-- **C2.** Separator-ordering invariant: after the completed `Delete` that
ends the `c1ops` trace, the tree has an internal node whose left subtree
contains keys `7` and `8` although its first separator is `7` — the spec
requires all keys of subtree `c₀` to be *less than* `k₀`.  The recursive
checker `sepInvariant`, a direct transcription of spec invariant 2,
evaluates to `false` on the resulting state. -/
theorem C2_separator_invariant_violated :
    sepInvariant intCmp (runOps 4 c1ops) = false := by
  rw [runOps_c1]
  decide

/-- **C4.** Ordering: the spec demands that `ScanAll` yield keys in strictly
increasing comparator order after every sequence of operations.  After the
14 operations of `c4ops` (order 4) the scan emits key 7 twice — the final
`Insert 7` ran after a borrow in `rebalanceInternalNode` had corrupted the
separators, so the descent missed the existing entry for 7 and created a
duplicate in another leaf. -/
theorem C4_scan_order_violated :
    strictlyAscending intCmp ((ScanAll (runOps 4 c4ops)).map KeyValue.Key) = false ∧
    (ScanAll (runOps 4 c4ops)).map KeyValue.Key = [1, 5, 6, 7, 7, 12, 17, 20] := by
  rw [runOps_c4]
  exact ⟨by decide, by decide⟩

/-- **C5.** Range correctness: the spec demands that for `a < b`,
`RangeQuery(a, b)` return exactly the subsequence of `ScanAll()` with
`a ≤ key < b`.  On the state reached by `c1ops`, `RangeQuery(7, 8)`
succeeds but returns the empty list, while the corresponding subsequence
of `ScanAll()` is `[(7, 700)]`: the query descends past the leaf that
holds key 7 because of the stale separator left by
`rebalanceInternalNode`. -/
theorem C5_range_correctness_violated :
    RangeQuery intCmp (runOps 4 c1ops) (some 7) (some 8) = (some [], none) ∧
    (ScanAll (runOps 4 c1ops)).filter
        (fun e => decide (0 ≤ intCmp e.Key 7) && decide (intCmp e.Key 8 < 0)) =
      [{ Key := 7, Value := 700 }] := by
  rw [runOps_c1]
  exact ⟨by decide, by decide⟩


theorem getN_oob {nodes : List (TreeNode K V)} {i : Nat}
    (h : nodes.length ≤ i) : getN nodes i = default := by
  simp [getN, List.getD_eq_getElem?_getD, List.getElem?_eq_none h]

theorem getN_setN_self {nodes : List (TreeNode K V)} {i : Nat}
    (n : TreeNode K V) (h : i < nodes.length) :
    getN (setN nodes i n) i = n := by
  simp [getN, setN, List.getD_eq_getElem?_getD, List.getElem?_set_self, h]

theorem getN_setN_ne {nodes : List (TreeNode K V)} {i j : Nat}
    (n : TreeNode K V) (h : i ≠ j) :
    getN (setN nodes i n) j = getN nodes j := by
  simp [getN, setN, List.getD_eq_getElem?_getD, List.getElem?_set_ne h]

theorem length_setN (nodes : List (TreeNode K V)) (i : Nat) (n : TreeNode K V) :
    (setN nodes i n).length = nodes.length := by
  simp [setN]

theorem findEq_lt_length {cmp : K → K → Int} {k : K} {ks : List K} {i : Nat}
    (h : findEq cmp k ks = some i) : i < ks.length := by
  induction ks generalizing i with
  | nil => simp [findEq] at h
  | cons a as ih =>
    by_cases hc : cmp a k = 0
    · simp only [findEq, hc, if_pos, Option.some.injEq] at h
      simp [← h]
    · simp only [findEq, hc, if_neg, Option.map_eq_some', not_false_iff] at h
      obtain ⟨j, hj, rfl⟩ := h
      have := ih hj
      simp only [List.length_cons]
      omega

theorem setValueAt_keys (vs : List (KeyValue K V)) (i : Nat) (v : V) :
    (setValueAt vs i v).map KeyValue.Key = vs.map KeyValue.Key := by
  induction vs generalizing i with
  | nil => simp [setValueAt]
  | cons e es ih =>
    cases i with
    | zero => simp [setValueAt]
    | succ n => simp [setValueAt, ih]

theorem setValueAt_length (vs : List (KeyValue K V)) (i : Nat) (v : V) :
    (setValueAt vs i v).length = vs.length := by
  induction vs generalizing i with
  | nil => simp [setValueAt]
  | cons e es ih =>
    cases i with
    | zero => simp [setValueAt]
    | succ n => simp [setValueAt, ih]

theorem setValueAt_setValueAt (vs : List (KeyValue K V)) (i : Nat) (v1 v2 : V) :
    setValueAt (setValueAt vs i v1) i v2 = setValueAt vs i v2 := by
  induction vs generalizing i with
  | nil => simp [setValueAt]
  | cons e es ih =>
    cases i with
    | zero => simp [setValueAt]
    | succ n => simp [setValueAt, ih]

theorem getD_setValueAt_self {vs : List (KeyValue K V)} {i : Nat} (v : V)
    (d : KeyValue K V) (h : i < vs.length) :
    (setValueAt vs i v).getD i d = { vs.getD i d with Value := v } := by
  induction vs generalizing i with
  | nil => simp at h
  | cons e es ih =>
    cases i with
    | zero => simp [setValueAt]
    | succ n =>
      simp only [setValueAt, List.getD_cons_succ]
      exact ih (by simpa using h)

theorem SameShape.refl (ns : List (TreeNode K V)) : SameShape ns ns :=
  ⟨rfl, fun _ => ⟨rfl, rfl, rfl, rfl, rfl⟩⟩

theorem sameShape_setValueAt (nodes : List (TreeNode K V)) (li i : Nat) (v : V) :
    SameShape
      (setN nodes li
        { getN nodes li with values := setValueAt (getN nodes li).values i v })
      nodes := by
  refine ⟨length_setN _ _ _, fun j => ?_⟩
  by_cases hj : li = j
  · subst hj
    by_cases hlt : li < nodes.length
    · rw [getN_setN_self _ hlt]
      exact ⟨rfl, rfl, rfl, rfl, setValueAt_keys _ _ _⟩
    · rw [setN, List.set_eq_of_length_le (Nat.le_of_not_lt hlt)]
      exact ⟨rfl, rfl, rfl, rfl, rfl⟩
  · rw [getN_setN_ne _ hj]
    exact ⟨rfl, rfl, rfl, rfl, rfl⟩

theorem findLeafLoop_congr {cmp : K → K → Int} {ns ms : List (TreeNode K V)}
    (h : SameShape ns ms) (key : K) :
    ∀ fuel i, findLeafLoop cmp ns key fuel i = findLeafLoop cmp ms key fuel i := by
  intro fuel
  induction fuel with
  | zero => intro i; rfl
  | succ fuel ih =>
    intro i
    obtain ⟨hleaf, hkeys, hchild, -, -⟩ := h.2 i
    simp only [findLeafLoop, hleaf, hkeys, hchild]
    split
    · rfl
    · exact ih _

theorem findLeafNode_congr {cmp : K → K → Int} {t t' : BPlusTree K V}
    (h : SameShape t'.nodes t.nodes) (hr : t'.root = t.root) (k : K) :
    findLeafNode cmp t' k = findLeafNode cmp t k := by
  unfold findLeafNode
  rw [h.1, hr]
  exact findLeafLoop_congr h k _ _

theorem search_found {cmp : K → K → Int} [Inhabited K] [Inhabited V]
    {t : BPlusTree K V} {k : K} {i : Nat}
    (hE : findEq cmp k (getN t.nodes (findLeafNode cmp t k)).keys = some i) :
    Search cmp t (some k) =
      (some ((getN t.nodes (findLeafNode cmp t k)).values.getD i default).Value,
       true) := by
  simp only [Search, hE]

theorem search_missing {cmp : K → K → Int} [Inhabited K] [Inhabited V]
    {t : BPlusTree K V} {k : K}
    (hE : findEq cmp k (getN t.nodes (findLeafNode cmp t k)).keys = none) :
    Search cmp t (some k) = (none, false) := by
  simp only [Search, hE]

theorem delete_missing {cmp : K → K → Int} [Inhabited K] [Inhabited V]
    {t : BPlusTree K V} {k : K}
    (hE : findEq cmp k (getN t.nodes (findLeafNode cmp t k)).keys = none) :
    Delete cmp t (some k) = (t, false) := by
  simp only [Delete, hE]

theorem insert_found {cmp : K → K → Int} [Inhabited K] {t : BPlusTree K V}
    {k : K} {i : Nat} (v : V)
    (hE : findEq cmp k (getN t.nodes (findLeafNode cmp t k)).keys = some i) :
    Insert cmp t (some k) v =
      ({ t with nodes := setN t.nodes (findLeafNode cmp t k) ({ getN t.nodes (findLeafNode cmp t k) with values := setValueAt (getN t.nodes (findLeafNode cmp t k)).values i v }) }, none) := by
  simp only [Insert, hE]

/-- **C6.** `RangeQuery(start, end)` returns an `InvalidArgument` error
exactly when `start` is nil, `end` is nil, or `start ≥ end` under the
comparator; in particular `RangeQuery(7, 3)` on an integer-keyed tree
errors and returns no result list.  (`RangeQuery` is modelled as a pure
read: it takes the tree and returns only the result pair, so a rejected
call cannot change the tree.) -/
theorem C6_rangequery_error_contract :
    (∀ (K V : Type) [Inhabited K] (cmp : K → K → Int) (t : BPlusTree K V)
        (s e : Option K),
      (RangeQuery cmp t s e).2.isSome = true ↔
        (s = none ∨ e = none ∨ ∃ a b, s = some a ∧ e = some b ∧ 0 ≤ cmp a b)) ∧
    RangeQuery intCmp wtree (some 7) (some 3) =
      (none, some "start must be less than end") := by
  constructor
  · intro K V _ cmp t s e
    match s, e with
    | none, e => simp [RangeQuery]
    | some a, none => simp [RangeQuery]
    | some a, some b =>
      by_cases hc : 0 ≤ cmp a b
      · simp [RangeQuery, hc, ge_iff_le]
      · simp [RangeQuery, hc, ge_iff_le]
  · decide

/-- **C7.** `Delete` on a nil key, or on a key the tree does not contain
(operationally: a key `Search` does not find), returns `false` and leaves
the tree — hence `Size()` and `ScanAll()` — unchanged. -/
theorem C7_delete_absent_noop :
    (∀ (K V : Type) [Inhabited K] [Inhabited V] (cmp : K → K → Int)
        (t : BPlusTree K V) (k : K),
      (Search cmp t (some k)).2 = false →
        Delete cmp t (some k) = (t, false) ∧
        Size (Delete cmp t (some k)).1 = Size t ∧
        ScanAll (Delete cmp t (some k)).1 = ScanAll t) ∧
    (∀ (K V : Type) [Inhabited K] [Inhabited V] (cmp : K → K → Int)
        (t : BPlusTree K V), Delete cmp t none = (t, false)) := by
  constructor
  · intro K V _ _ cmp t k h
    cases hE : findEq cmp k (getN t.nodes (findLeafNode cmp t k)).keys with
    | none =>
      have hD := delete_missing (t := t) hE
      exact ⟨hD, by rw [hD], by rw [hD]⟩
    | some i =>
      rw [search_found hE] at h
      simp at h
  · intro K V _ _ cmp t
    rfl

/-- Witness for C7 at a concrete input: `wtree` holds keys 1 and 5 only,
so key 7 is absent; deleting it returns the tree unchanged with
`false`. -/
theorem C7_delete_absent_noop_witness :
    (Search intCmp wtree (some 7)).2 = false ∧
    Delete intCmp wtree (some 7) = (wtree, false) :=
  ⟨by decide,
   ((C7_delete_absent_noop.1 Int Int intCmp wtree 7 (by decide)).1)⟩


theorem setN_setN (nodes : List (TreeNode K V)) (i : Nat) (a b : TreeNode K V) :
    setN (setN nodes i a) i b = setN nodes i b :=
  List.set_set a b nodes i

theorem default_keys_nil : (default : TreeNode K V).keys = [] := rfl

theorem findLeaf_lt_of_findEq {cmp : K → K → Int} {t : BPlusTree K V} {k : K}
    {i : Nat}
    (hE : findEq cmp k (getN t.nodes (findLeafNode cmp t k)).keys = some i) :
    findLeafNode cmp t k < t.nodes.length := by
  by_contra hcon
  rw [getN_oob (Nat.le_of_not_lt hcon), default_keys_nil] at hE
  simp [findEq] at hE

/-- **C8.** Idempotent update: if key `k` is already present (operationally:
`Search` finds it) and the leaf holding it stores its keys and entries in
parallel, then inserting `v1` and then `v2` under `k` succeeds both times,
never changes `Size()`, and a subsequent `Search(k)` returns
`(v2, true)`. -/
theorem C8_idempotent_update :
    ∀ (K V : Type) [Inhabited K] [Inhabited V] (cmp : K → K → Int)
      (t : BPlusTree K V) (k : K) (v1 v2 : V),
      (Search cmp t (some k)).2 = true →
      (getN t.nodes (findLeafNode cmp t k)).values.length =
        (getN t.nodes (findLeafNode cmp t k)).keys.length →
      (Insert cmp t (some k) v1).2 = none ∧
      (Insert cmp ((Insert cmp t (some k) v1).1) (some k) v2).2 = none ∧
      Size ((Insert cmp ((Insert cmp t (some k) v1).1) (some k) v2).1) =
        Size ((Insert cmp t (some k) v1).1) ∧
      Size ((Insert cmp ((Insert cmp t (some k) v1).1) (some k) v2).1) = Size t ∧
      Search cmp ((Insert cmp ((Insert cmp t (some k) v1).1) (some k) v2).1) (some k) =
        (some v2, true) := by
  intro K V _ _ cmp t k v1 v2 hS hLen
  cases hE : findEq cmp k (getN t.nodes (findLeafNode cmp t k)).keys with
  | none => rw [search_missing hE] at hS; simp at hS
  | some i =>
  have hiK : i < (getN t.nodes (findLeafNode cmp t k)).keys.length :=
    findEq_lt_length hE
  have hiV : i < (getN t.nodes (findLeafNode cmp t k)).values.length := by omega
  have hliLt : findLeafNode cmp t k < t.nodes.length := findLeaf_lt_of_findEq hE
  have h1 := insert_found (t := t) v1 hE
  have ht1 : (Insert cmp t (some k) v1).1 =
      { t with nodes := setN t.nodes (findLeafNode cmp t k) ({ getN t.nodes (findLeafNode cmp t k) with values := setValueAt (getN t.nodes (findLeafNode cmp t k)).values i v1 }) } := by
    rw [h1]
  have hshape1 : SameShape ((Insert cmp t (some k) v1).1).nodes t.nodes := by
    rw [ht1]
    exact sameShape_setValueAt t.nodes (findLeafNode cmp t k) i v1
  have hroot1 : ((Insert cmp t (some k) v1).1).root = t.root := by rw [ht1]
  have hfind1 : findLeafNode cmp ((Insert cmp t (some k) v1).1) k =
      findLeafNode cmp t k := findLeafNode_congr hshape1 hroot1 k
  have hget1 : getN ((Insert cmp t (some k) v1).1).nodes (findLeafNode cmp t k) =
      { getN t.nodes (findLeafNode cmp t k) with values := setValueAt (getN t.nodes (findLeafNode cmp t k)).values i v1 } := by
    rw [ht1]
    exact getN_setN_self _ hliLt
  have hE1 : findEq cmp k
      (getN ((Insert cmp t (some k) v1).1).nodes
        (findLeafNode cmp ((Insert cmp t (some k) v1).1) k)).keys = some i := by
    rw [hfind1, hget1]
    exact hE
  have h2 := insert_found (t := (Insert cmp t (some k) v1).1) v2 hE1
  have ht2 : (Insert cmp ((Insert cmp t (some k) v1).1) (some k) v2).1 =
      { t with nodes := setN t.nodes (findLeafNode cmp t k) ({ getN t.nodes (findLeafNode cmp t k) with values := setValueAt (getN t.nodes (findLeafNode cmp t k)).values i v2 }) } := by
    rw [h2, hfind1, hget1, ht1]
    simp only [setN_setN, setValueAt_setValueAt]
  have hshape2 : SameShape ((Insert cmp ((Insert cmp t (some k) v1).1) (some k) v2).1).nodes t.nodes := by
    rw [ht2]
    exact sameShape_setValueAt t.nodes (findLeafNode cmp t k) i v2
  have hroot2 : ((Insert cmp ((Insert cmp t (some k) v1).1) (some k) v2).1).root = t.root := by
    rw [ht2]
  have hfind2 : findLeafNode cmp ((Insert cmp ((Insert cmp t (some k) v1).1) (some k) v2).1) k =
      findLeafNode cmp t k := findLeafNode_congr hshape2 hroot2 k
  have hget2 : getN ((Insert cmp ((Insert cmp t (some k) v1).1) (some k) v2).1).nodes (findLeafNode cmp t k) =
      { getN t.nodes (findLeafNode cmp t k) with values := setValueAt (getN t.nodes (findLeafNode cmp t k)).values i v2 } := by
    rw [ht2]
    exact getN_setN_self _ hliLt
  have hE2 : findEq cmp k
      (getN ((Insert cmp ((Insert cmp t (some k) v1).1) (some k) v2).1).nodes
        (findLeafNode cmp ((Insert cmp ((Insert cmp t (some k) v1).1) (some k) v2).1) k)).keys = some i := by
    rw [hfind2, hget2]
    exact hE
  refine ⟨by rw [h1], by rw [h2], ?_, ?_, ?_⟩
  · rw [ht2, ht1]
    rfl
  · rw [ht2]
    rfl
  · rw [search_found hE2, hfind2, hget2]
    simp only [getD_setValueAt_self v2 default hiV]

/-- Witness for C8 at a concrete input: `wtree` contains key 5; inserting
99 and then 77 under key 5 makes `Search(5)` return `(77, true)`. -/
theorem C8_idempotent_update_witness :
    (Search intCmp wtree (some 5)).2 = true ∧
    Search intCmp ((Insert intCmp ((Insert intCmp wtree (some 5) 99).1) (some 5) 77).1)
      (some 5) = (some 77, true) :=
  ⟨by decide,
   (C8_idempotent_update Int Int intCmp wtree 5 99 77 (by decide) (by decide)).2.2.2.2⟩


theorem leftmostLeaf_congr {ns ms : List (TreeNode K V)} (h : SameShape ns ms) :
    ∀ fuel i, leftmostLeaf ns fuel i = leftmostLeaf ms fuel i := by
  intro fuel
  induction fuel with
  | zero => intro i; rfl
  | succ fuel ih =>
    intro i
    obtain ⟨hleaf, -, hchild, -, -⟩ := h.2 i
    simp only [leftmostLeaf, hleaf, hchild]
    split
    · rfl
    · exact ih _

theorem chainValues_keys_congr {ns ms : List (TreeNode K V)} (h : SameShape ns ms) :
    ∀ fuel oi, (chainValues ns fuel oi).map KeyValue.Key =
      (chainValues ms fuel oi).map KeyValue.Key := by
  intro fuel
  induction fuel with
  | zero => intro oi; cases oi <;> rfl
  | succ fuel ih =>
    intro oi
    cases oi with
    | none => rfl
    | some li =>
      obtain ⟨-, -, -, hnext, hvals⟩ := h.2 li
      simp only [chainValues, List.map_append, hvals, hnext, ih]

theorem ScanAll_keys_congr {t' t : BPlusTree K V} (h : SameShape t'.nodes t.nodes)
    (hr : t'.root = t.root) :
    (ScanAll t').map KeyValue.Key = (ScanAll t).map KeyValue.Key := by
  unfold ScanAll
  rw [h.1, hr, leftmostLeaf_congr h, chainValues_keys_congr h]

theorem filterEntries_keys_congr {cmp : K → K → Int} {s e : K}
    {vs ws : List (KeyValue K V)}
    (h : vs.map KeyValue.Key = ws.map KeyValue.Key) :
    ∀ ks : List K,
      (filterEntries cmp s e ks vs).map KeyValue.Key =
        (filterEntries cmp s e ks ws).map KeyValue.Key := by
  induction vs generalizing ws with
  | nil =>
    cases ws with
    | nil => intro ks; rfl
    | cons w ws' => simp at h
  | cons v vs' ih =>
    cases ws with
    | nil => simp at h
    | cons w ws' =>
      simp only [List.map_cons, List.cons.injEq] at h
      intro ks
      cases ks with
      | nil => rfl
      | cons k ks' =>
        simp only [filterEntries, List.map_append, ih h.2 ks']
        split
        · simp [h.1]
        · rfl

theorem chainCollect_keys_congr {cmp : K → K → Int} {s e : K}
    {ns ms : List (TreeNode K V)} (h : SameShape ns ms) :
    ∀ fuel oi, (chainCollect cmp ns s e fuel oi).map KeyValue.Key =
      (chainCollect cmp ms s e fuel oi).map KeyValue.Key := by
  intro fuel
  induction fuel with
  | zero => intro oi; cases oi <;> rfl
  | succ fuel ih =>
    intro oi
    cases oi with
    | none => rfl
    | some li =>
      obtain ⟨-, hkeys, -, hnext, hvals⟩ := h.2 li
      simp only [chainCollect, List.map_append, hkeys, hnext, ih,
        filterEntries_keys_congr hvals]

theorem RangeQuery_keys_congr {cmp : K → K → Int} [Inhabited K]
    {t' t : BPlusTree K V} (h : SameShape t'.nodes t.nodes)
    (hr : t'.root = t.root) (s e : Option K) :
    ((RangeQuery cmp t' s e).1).map (List.map KeyValue.Key) =
      ((RangeQuery cmp t s e).1).map (List.map KeyValue.Key) := by
  match s, e with
  | none, e => cases e <;> rfl
  | some a, none => rfl
  | some a, some b =>
    by_cases hc : cmp a b ≥ 0
    · simp [RangeQuery, hc]
    · simp only [RangeQuery, if_neg hc, Option.map_some']
      rw [h.1, findLeafNode_congr h hr, chainCollect_keys_congr h]

/-- **C10.** Updating a key that is comparator-equal to an existing entry
overwrites only the stored `Value`: `Search` afterwards returns the new
value, but the `Key` field of the stored entry — hence the key emitted by
`ScanAll` and `RangeQuery` — is still the originally inserted key object,
not the key passed to the update. -/
theorem C10_update_keeps_original_key :
    ∀ (K V : Type) [Inhabited K] [Inhabited V] (cmp : K → K → Int)
      (t : BPlusTree K V) (k2 : K) (v : V) (i : Nat),
      findEq cmp k2 (getN t.nodes (findLeafNode cmp t k2)).keys = some i →
      (getN t.nodes (findLeafNode cmp t k2)).values.length =
        (getN t.nodes (findLeafNode cmp t k2)).keys.length →
      Search cmp ((Insert cmp t (some k2) v).1) (some k2) = (some v, true) ∧
      ((getN ((Insert cmp t (some k2) v).1).nodes (findLeafNode cmp t k2)).values.getD i default).Key =
        ((getN t.nodes (findLeafNode cmp t k2)).values.getD i default).Key ∧
      (ScanAll ((Insert cmp t (some k2) v).1)).map KeyValue.Key =
        (ScanAll t).map KeyValue.Key ∧
      (∀ s e : Option K,
        ((RangeQuery cmp ((Insert cmp t (some k2) v).1) s e).1).map (List.map KeyValue.Key) =
          ((RangeQuery cmp t s e).1).map (List.map KeyValue.Key)) := by
  intro K V _ _ cmp t k2 v i hE hLen
  have hiK : i < (getN t.nodes (findLeafNode cmp t k2)).keys.length :=
    findEq_lt_length hE
  have hiV : i < (getN t.nodes (findLeafNode cmp t k2)).values.length := by omega
  have hliLt : findLeafNode cmp t k2 < t.nodes.length := findLeaf_lt_of_findEq hE
  have h1 := insert_found (t := t) v hE
  have ht1 : (Insert cmp t (some k2) v).1 =
      { t with nodes := setN t.nodes (findLeafNode cmp t k2) ({ getN t.nodes (findLeafNode cmp t k2) with values := setValueAt (getN t.nodes (findLeafNode cmp t k2)).values i v }) } := by
    rw [h1]
  have hshape1 : SameShape ((Insert cmp t (some k2) v).1).nodes t.nodes := by
    rw [ht1]
    exact sameShape_setValueAt t.nodes (findLeafNode cmp t k2) i v
  have hroot1 : ((Insert cmp t (some k2) v).1).root = t.root := by rw [ht1]
  have hfind1 : findLeafNode cmp ((Insert cmp t (some k2) v).1) k2 =
      findLeafNode cmp t k2 := findLeafNode_congr hshape1 hroot1 k2
  have hget1 : getN ((Insert cmp t (some k2) v).1).nodes (findLeafNode cmp t k2) =
      { getN t.nodes (findLeafNode cmp t k2) with values := setValueAt (getN t.nodes (findLeafNode cmp t k2)).values i v } := by
    rw [ht1]
    exact getN_setN_self _ hliLt
  have hE1 : findEq cmp k2
      (getN ((Insert cmp t (some k2) v).1).nodes
        (findLeafNode cmp ((Insert cmp t (some k2) v).1) k2)).keys = some i := by
    rw [hfind1, hget1]
    exact hE
  refine ⟨?_, ?_, ScanAll_keys_congr hshape1 hroot1,
    fun s e => RangeQuery_keys_congr hshape1 hroot1 s e⟩
  · rw [search_found hE1, hfind1, hget1]
    simp only [getD_setValueAt_self v default hiV]
  · rw [hget1]
    simp only [getD_setValueAt_self v default hiV]

/-- Witness for C10 at a concrete input: `wptree` stores the single entry
inserted under the pair key `(7, 0)`; inserting value 999 under the
comparator-equal key `(7, 1)` makes `Search` return 999, yet the stored
entry still carries the original key `(7, 0)`. -/
theorem C10_update_keeps_original_key_witness :
    findEq pairCmp (7, 1) (getN wptree.nodes (findLeafNode pairCmp wptree (7, 1))).keys = some 0 ∧
    ((getN ((Insert pairCmp wptree (some (7, 1)) 999).1).nodes (findLeafNode pairCmp wptree (7, 1))).values.getD 0 default).Key =
      ((getN wptree.nodes (findLeafNode pairCmp wptree (7, 1))).values.getD 0 default).Key :=
  ⟨by decide,
   (C10_update_keeps_original_key (Int × Int) Int pairCmp wptree (7, 1) 999 0
      (by decide) (by decide)).2.1⟩


theorem Skel.leavesOf_leaf (i : Nat) : (Skel.leaf i).leavesOf = [i] := by
  rw [Skel.leavesOf]

theorem Skel.leavesOf_node (i : Nat) (cs : List Skel) :
    (Skel.node i cs).leavesOf = (cs.map Skel.leavesOf).flatten := by
  rw [Skel.leavesOf, List.attach_map_val]

theorem Skel.idsOf_leaf (i : Nat) : (Skel.leaf i).idsOf = [i] := by
  rw [Skel.idsOf]

theorem Skel.idsOf_node (i : Nat) (cs : List Skel) :
    (Skel.node i cs).idsOf = i :: (cs.map Skel.idsOf).flatten := by
  rw [Skel.idsOf, List.attach_map_val]

theorem Skel.rootId_mem_idsOf (s : Skel) : s.rootId ∈ s.idsOf := by
  cases s with
  | leaf i => simp [Skel.idsOf_leaf, Skel.rootId]
  | node i cs => simp [Skel.idsOf_node, Skel.rootId]

theorem Skel.leavesOf_sublist_idsOf_fuel :
    ∀ (n : Nat) (s : Skel), sizeOf s < n → List.Sublist s.leavesOf s.idsOf := by
  intro n
  induction n with
  | zero =>
    intro s hs
    omega
  | succ n ih =>
    intro s hs
    cases s with
    | leaf i => simp [Skel.leavesOf_leaf, Skel.idsOf_leaf]
    | node i cs =>
      rw [Skel.leavesOf_node, Skel.idsOf_node]
      have hrec : ∀ (L : List Skel), (∀ d ∈ L, sizeOf d < n) →
          List.Sublist (L.map Skel.leavesOf).flatten (L.map Skel.idsOf).flatten := by
        intro L
        induction L with
        | nil =>
          intro _
          simp
        | cons d L ihL =>
          intro hL
          simp only [List.map_cons, List.flatten_cons]
          exact List.Sublist.append (ih d (hL d (List.mem_cons_self _ _)))
            (ihL fun e he => hL e (List.mem_cons_of_mem _ he))
      refine List.Sublist.cons i (hrec cs ?_)
      intro d hd
      have h1 := List.sizeOf_lt_of_mem hd
      have h2 : sizeOf (Skel.node i cs) = 1 + sizeOf i + sizeOf cs := by
        simp
      omega

theorem Skel.leavesOf_sublist_idsOf (s : Skel) : List.Sublist s.leavesOf s.idsOf :=
  Skel.leavesOf_sublist_idsOf_fuel (sizeOf s + 1) s (Nat.lt_succ_self _)

theorem Fits.height_pos {nodes : List (TreeNode K V)} {s : Skel} {h : Nat}
    (hf : Fits nodes s h) : 1 ≤ h := by
  cases hf <;> omega

theorem Fits.rootId_lt {nodes : List (TreeNode K V)} {s : Skel} {h : Nat}
    (hf : Fits nodes s h) : s.rootId < nodes.length := by
  cases hf with
  | leaf h1 _ _ _ => exact h1
  | node h1 _ _ _ _ _ _ => exact h1

theorem Fits.ids_lt {nodes : List (TreeNode K V)} {s : Skel} {h : Nat}
    (hf : Fits nodes s h) : ∀ j ∈ s.idsOf, j < nodes.length := by
  induction hf with
  | leaf h1 _ _ _ => simpa [Skel.idsOf_leaf] using h1
  | node h1 _ _ _ _ _ _ ih =>
    intro j hj
    rw [Skel.idsOf_node] at hj
    rcases List.mem_cons.1 hj with rfl | hj
    · exact h1
    · obtain ⟨l, hl, hjl⟩ := List.mem_flatten.1 hj
      obtain ⟨c, hc, rfl⟩ := List.mem_map.1 hl
      exact ih c hc j hjl

theorem Fits.leaves_ne_nil {nodes : List (TreeNode K V)} {s : Skel} {h : Nat}
    (hf : Fits nodes s h) : s.leavesOf ≠ [] := by
  induction hf with
  | leaf _ _ _ _ => simp [Skel.leavesOf_leaf]
  | node _ _ _ hlen hpos hall _ ih =>
    rw [Skel.leavesOf_node]
    cases hcs : ‹List Skel› with
    | nil => subst hcs; simp at hlen
    | cons c cs' =>
      subst hcs
      simp only [List.map_cons, List.flatten_cons, ne_eq, List.append_eq_nil]
      intro ⟨hc, _⟩
      exact ih c (by simp) hc

theorem nodup_bounded_length_le {l : List Nat} {n : Nat} (hnd : l.Nodup)
    (hb : ∀ j ∈ l, j < n) : l.length ≤ n := by
  classical
  have h1 : l.toFinset.card = l.length := List.toFinset_card_of_nodup hnd
  have h2 : l.toFinset ⊆ Finset.range n := by
    intro x hx
    simp only [Finset.mem_range]
    exact hb x (List.mem_toFinset.1 hx)
  have := Finset.card_le_card h2
  simp only [Finset.card_range] at this
  omega


theorem leavesOf_plugSkel :
    ∀ (crumbs : List Crumb) (s : Skel),
      (plugSkel crumbs s).leavesOf =
        preLeaves crumbs ++ s.leavesOf ++ postLeaves crumbs := by
  intro crumbs
  induction crumbs with
  | nil => intro s; simp [plugSkel, preLeaves, postLeaves]
  | cons c rest ih =>
    intro s
    simp only [plugSkel, ih, preLeaves, postLeaves, Skel.leavesOf_node,
      List.map_append, List.map_cons, List.flatten_append, List.flatten_cons,
      List.append_assoc]

theorem idsOf_plugSkel :
    ∀ (crumbs : List Crumb) (s : Skel),
      (plugSkel crumbs s).idsOf = preIds crumbs ++ s.idsOf ++ postIds crumbs := by
  intro crumbs
  induction crumbs with
  | nil => intro s; simp [plugSkel, preIds, postIds]
  | cons c rest ih =>
    intro s
    simp only [plugSkel, ih, preIds, postIds, Skel.idsOf_node, List.map_append,
      List.map_cons, List.flatten_append, List.flatten_cons, List.append_assoc,
      List.cons_append]

theorem rootId_plugSkel :
    ∀ (crumbs : List Crumb) (s : Skel),
      (plugSkel crumbs s).rootId = ctxRootId crumbs s.rootId := by
  intro crumbs
  induction crumbs with
  | nil => intro s; rfl
  | cons c rest ih =>
    intro s
    rw [plugSkel, ih]
    rfl

theorem ctxRootId_irrel :
    ∀ (crumbs : List Crumb) (x y : Nat), crumbs ≠ [] →
      ctxRootId crumbs x = ctxRootId crumbs y := by
  intro crumbs x y h
  cases crumbs with
  | nil => exact absurd rfl h
  | cons c rest => rfl

theorem Fits_plugSkel {nodes : List (TreeNode K V)} :
    ∀ (crumbs : List Crumb) (s : Skel) (h : Nat),
      CtxOk nodes crumbs h s.rootId → Fits nodes s h →
      Fits nodes (plugSkel crumbs s) (h + crumbs.length) := by
  intro crumbs
  induction crumbs with
  | nil => intro s h _ hf; simpa using hf
  | cons c rest ih =>
    intro s h hctx hf
    obtain ⟨hp, hleaf, hchild, hklen, hkpos, hpar, hls, hrs, hrest⟩ := hctx
    have hnode : Fits nodes (.node c.p (c.ls ++ s :: c.rs)) (h + 1) := by
      refine Fits.node hp hleaf ?_ ?_ hkpos ?_ ?_
      · rw [hchild]; simp
      · rw [hklen]; simp; omega
      · intro d hd
        rcases List.mem_append.1 hd with hd | hd
        · exact (hls d hd).1
        · rcases List.mem_cons.1 hd with rfl | hd
          · exact hf
          · exact (hrs d hd).1
      · intro d hd
        rcases List.mem_append.1 hd with hd | hd
        · exact (hls d hd).2
        · rcases List.mem_cons.1 hd with rfl | hd
          · exact hpar
          · exact (hrs d hd).2
    have := ih (.node c.p (c.ls ++ s :: c.rs)) (h + 1) (by exact hrest) hnode
    simpa [plugSkel, Nat.add_assoc, Nat.add_comm 1 rest.length] using this

theorem Fits_frame {nodes nodes' : List (TreeNode K V)} {s : Skel} {h : Nat}
    (hf : Fits nodes s h) (hlen : nodes.length ≤ nodes'.length)
    (hsame : ∀ j ∈ s.idsOf, getN nodes' j = getN nodes j) :
    Fits nodes' s h := by
  induction hf with
  | leaf h1 h2 h3 h4 =>
    rename_i i
    have hi := hsame i (by simp [Skel.idsOf_leaf])
    refine Fits.leaf (i := i) (by omega) ?_ ?_ ?_ <;> rw [hi] <;> assumption
  | node h1 h2 h3 h4 h5 hall hpar ih =>
    rename_i i cs h
    have hi := hsame i (by simp [Skel.idsOf_node])
    have hsub : ∀ c ∈ cs, ∀ j ∈ Skel.idsOf c, getN nodes' j = getN nodes j := by
      intro c hc j hj
      exact hsame j (by
        rw [Skel.idsOf_node]
        exact List.mem_cons_of_mem _ (List.mem_flatten.2 ⟨Skel.idsOf c,
          List.mem_map.2 ⟨c, hc, rfl⟩, hj⟩))
    refine Fits.node (by omega) (by rw [hi]; exact h2) (by rw [hi]; exact h3)
      (by rw [hi]; exact h4) (by rw [hi]; exact h5)
      (fun c hc => ih c hc (hsub c hc)) ?_
    intro c hc
    have := hsub c hc _ (Skel.rootId_mem_idsOf c)
    rw [this]
    exact hpar c hc

theorem CtxOk_frame {nodes nodes' : List (TreeNode K V)} :
    ∀ (crumbs : List Crumb) (h : Nat) (x : Nat),
      CtxOk nodes crumbs h x →
      nodes.length ≤ nodes'.length →
      (∀ j ∈ preIds crumbs ++ postIds crumbs, getN nodes' j = getN nodes j) →
      (getN nodes' x).parent = (getN nodes x).parent →
      CtxOk nodes' crumbs h x := by
  intro crumbs
  induction crumbs with
  | nil => intro h x _ _ _ _; trivial
  | cons c rest ih =>
    intro h x hctx hlen hsame hx
    obtain ⟨hp, hleaf, hchild, hklen, hkpos, hpar, hls, hrs, hrest⟩ := hctx
    have hpmem : c.p ∈ preIds (c :: rest) ++ postIds (c :: rest) := by
      simp [preIds]
    have hpEq := hsame _ hpmem
    have hlsids : ∀ s ∈ c.ls, ∀ j ∈ Skel.idsOf s, getN nodes' j = getN nodes j := by
      intro s hs j hj
      refine hsame j ?_
      simp only [preIds, postIds, List.mem_append, List.mem_cons]
      exact Or.inl (Or.inr (Or.inr (List.mem_flatten.2 ⟨Skel.idsOf s,
        List.mem_map.2 ⟨s, hs, rfl⟩, hj⟩)))
    have hrsids : ∀ s ∈ c.rs, ∀ j ∈ Skel.idsOf s, getN nodes' j = getN nodes j := by
      intro s hs j hj
      refine hsame j ?_
      simp only [preIds, postIds, List.mem_append]
      exact Or.inr (Or.inl (List.mem_flatten.2 ⟨Skel.idsOf s,
        List.mem_map.2 ⟨s, hs, rfl⟩, hj⟩))
    refine ⟨by omega, by rw [hpEq]; exact hleaf, by rw [hpEq]; exact hchild,
      by rw [hpEq]; exact hklen, by rw [hpEq]; exact hkpos,
      by rw [hx]; exact hpar, ?_, ?_, ?_⟩
    · intro s hs
      refine ⟨Fits_frame (hls s hs).1 hlen (hlsids s hs), ?_⟩
      rw [hlsids s hs _ (Skel.rootId_mem_idsOf s)]
      exact (hls s hs).2
    · intro s hs
      refine ⟨Fits_frame (hrs s hs).1 hlen (hrsids s hs), ?_⟩
      rw [hrsids s hs _ (Skel.rootId_mem_idsOf s)]
      exact (hrs s hs).2
    · refine ih (h + 1) c.p hrest hlen ?_ (by rw [hpEq])
      intro j hj
      refine hsame j ?_
      simp only [preIds, postIds, List.mem_append, List.mem_cons] at hj ⊢
      tauto

theorem ChainOf_congr {nodes nodes' : List (TreeNode K V)} :
    ∀ (L : List Nat),
      (∀ l ∈ L, (getN nodes' l).next = (getN nodes l).next) →
      ChainOf nodes L → ChainOf nodes' L := by
  intro L
  induction L with
  | nil => intro _ _; trivial
  | cons l rest ih =>
    intro hsame hc
    cases rest with
    | nil => simpa [ChainOf, hsame l (by simp)] using hc
    | cons l₂ rest₂ =>
      obtain ⟨h1, h2⟩ := hc
      exact ⟨by rw [hsame l (by simp)]; exact h1,
        ih (fun x hx => hsame x (by simp [hx])) h2⟩

theorem entriesTotal_congr {nodes nodes' : List (TreeNode K V)} (L : List Nat)
    (hsame : ∀ l ∈ L, (getN nodes' l).values = (getN nodes l).values) :
    entriesTotal nodes' L = entriesTotal nodes L := by
  unfold entriesTotal
  congr 1
  exact List.map_congr_left (fun l hl => by rw [hsame l hl])

theorem entriesTotal_append (nodes : List (TreeNode K V)) (A B : List Nat) :
    entriesTotal nodes (A ++ B) = entriesTotal nodes A + entriesTotal nodes B := by
  simp [entriesTotal]


theorem ChainOf_cons {nodes : List (TreeNode K V)} {x : Nat} {L : List Nat} :
    ChainOf nodes (x :: L) ↔ (getN nodes x).next = L.head? ∧ ChainOf nodes L := by
  cases L <;> simp [ChainOf]

theorem head?_append_cons {α : Type} (A : List α) (x : α) (B B' : List α) :
    (A ++ x :: B).head? = (A ++ x :: B').head? := by
  cases A <;> simp

theorem chain_insert_after {nodes nodes' : List (TreeNode K V)} :
    ∀ (A : List Nat) (li newId : Nat) (B : List Nat),
      ChainOf nodes (A ++ li :: B) →
      (getN nodes' li).next = some newId →
      (getN nodes' newId).next = (getN nodes li).next →
      (∀ l ∈ A, (getN nodes' l).next = (getN nodes l).next) →
      (∀ l ∈ B, (getN nodes' l).next = (getN nodes l).next) →
      ChainOf nodes' (A ++ li :: newId :: B) := by
  intro A
  induction A with
  | nil =>
    intro li newId B hc h1 h2 _ hB
    simp only [List.nil_append] at hc ⊢
    rw [ChainOf_cons] at hc
    rw [ChainOf_cons, ChainOf_cons]
    exact ⟨by simp [h1], by rw [h2, hc.1], ChainOf_congr B hB hc.2⟩
  | cons a A' ih =>
    intro li newId B hc h1 h2 hA hB
    simp only [List.cons_append] at hc ⊢
    rw [ChainOf_cons] at hc
    rw [ChainOf_cons]
    constructor
    · rw [hA a (by simp), hc.1]
      exact head?_append_cons A' li B (newId :: B)
    · exact ih li newId B hc.2 h1 h2 (fun l hl => hA l (by simp [hl])) hB

theorem chain_drop_after {nodes nodes' : List (TreeNode K V)} :
    ∀ (A : List Nat) (a b : Nat) (B : List Nat),
      ChainOf nodes (A ++ a :: b :: B) →
      (getN nodes' a).next = (getN nodes b).next →
      (∀ l ∈ A, (getN nodes' l).next = (getN nodes l).next) →
      (∀ l ∈ B, (getN nodes' l).next = (getN nodes l).next) →
      ChainOf nodes' (A ++ a :: B) := by
  intro A
  induction A with
  | nil =>
    intro a b B hc h1 _ hB
    simp only [List.nil_append] at hc ⊢
    rw [ChainOf_cons] at hc
    rw [ChainOf_cons] at hc
    rw [ChainOf_cons]
    exact ⟨by rw [h1]; exact hc.2.1, ChainOf_congr B hB hc.2.2⟩
  | cons x A' ih =>
    intro a b B hc h1 hA hB
    simp only [List.cons_append] at hc ⊢
    rw [ChainOf_cons] at hc
    rw [ChainOf_cons]
    constructor
    · rw [hA x (by simp), hc.1]
      exact head?_append_cons A' a (b :: B) B
    · exact ih a b B hc.2 h1 (fun l hl => hA l (by simp [hl])) hB

theorem Fits.height_le_ids {nodes : List (TreeNode K V)} {s : Skel} {h : Nat}
    (hf : Fits nodes s h) : h ≤ s.idsOf.length := by
  induction hf with
  | leaf _ _ _ _ => simp [Skel.idsOf_leaf]
  | @node i cs h _ _ _ hlen _ hall hpar ih =>
    rw [Skel.idsOf_node]
    cases cs with
    | nil => simp at hlen
    | cons c cs' =>
      have := ih c (by simp)
      simp only [List.length_cons, List.map_cons, List.flatten_cons,
        List.length_append]
      omega

theorem headD_append_of_ne_nil {α : Type} {l : List α} (l' : List α) (d : α)
    (h : l ≠ []) : (l ++ l').headD d = l.headD d := by
  cases l with
  | nil => exact absurd rfl h
  | cons a l => simp

theorem Fits_leftmost {nodes : List (TreeNode K V)} {s : Skel} {h : Nat}
    (hf : Fits nodes s h) :
    ∀ fuel, h ≤ fuel → leftmostLeaf nodes fuel s.rootId = s.leavesOf.headD 0 := by
  induction hf with
  | leaf h1 h2 _ _ =>
    intro fuel hfuel
    match fuel, hfuel with
    | fuel + 1, _ =>
      rw [Skel.leavesOf_leaf, Skel.rootId, leftmostLeaf]
      simp [h2]
  | @node i cs h h1 h2 h3 hlen hpos hall hpar ih =>
    intro fuel hfuel
    match fuel, hfuel with
    | fuel + 1, _ =>
      cases cs with
      | nil => simp at hlen
      | cons c cs' =>
        rw [Skel.rootId, leftmostLeaf]
        simp only [h2, Bool.false_eq_true, if_false]
        have hchild0 : (getN nodes i).children.getD 0 0 = c.rootId := by
          rw [h3]; simp
        rw [hchild0, ih c (by simp) fuel (by omega), Skel.leavesOf_node]
        simp only [List.map_cons, List.flatten_cons]
        rw [headD_append_of_ne_nil _ _ ((hall c (by simp)).leaves_ne_nil)]

theorem chainValues_none (nodes : List (TreeNode K V)) (fuel : Nat) :
    chainValues nodes fuel none = [] := by
  cases fuel <;> rfl

theorem chainValues_eq {nodes : List (TreeNode K V)} :
    ∀ (L : List Nat) (l : Nat) (fuel : Nat),
      ChainOf nodes (l :: L) → L.length < fuel →
      chainValues nodes fuel (some l) =
        ((l :: L).map (fun x => (getN nodes x).values)).flatten := by
  intro L
  induction L with
  | nil =>
    intro l fuel hc hfuel
    match fuel, hfuel with
    | fuel + 1, _ =>
      rw [ChainOf_cons] at hc
      rw [chainValues, hc.1]
      simp [chainValues_none]
  | cons x L' ih =>
    intro l fuel hc hfuel
    match fuel, hfuel with
    | fuel + 1, hf2 =>
      rw [ChainOf_cons] at hc
      rw [chainValues, hc.1]
      simp only [List.head?_cons]
      rw [ih x fuel hc.2 (by simp only [List.length_cons] at hf2; omega)]
      simp

theorem GoodTree_scan_length {t : BPlusTree K V} {s : Skel} {h : Nat}
    (hg : GoodTree t s h) :
    (ScanAll t).length = entriesTotal t.nodes s.leavesOf := by
  obtain ⟨hf, hroot, -, hnd, hchain, -⟩ := hg
  have hbound : ∀ j ∈ s.idsOf, j < t.nodes.length := hf.ids_lt
  have hlen : s.idsOf.length ≤ t.nodes.length := nodup_bounded_length_le hnd hbound
  have hLsub : s.leavesOf.length ≤ s.idsOf.length :=
    (Skel.leavesOf_sublist_idsOf s).length_le
  obtain ⟨l, L', hL⟩ : ∃ l L', s.leavesOf = l :: L' := by
    cases hLeq : s.leavesOf with
    | nil => exact absurd hLeq hf.leaves_ne_nil
    | cons a b => exact ⟨a, b, rfl⟩
  have hlm : leftmostLeaf t.nodes (t.nodes.length + 1) t.root = l := by
    rw [← hroot, Fits_leftmost hf _ (by have := hf.height_le_ids; omega), hL]
    rfl
  rw [ScanAll, hlm]
  rw [hL] at hchain
  rw [chainValues_eq L' l _ hchain (by rw [hL] at hLsub; simp at hLsub; omega)]
  rw [hL]
  simp [entriesTotal, Function.comp_def]

theorem Inv_size_eq_scan {t : BPlusTree K V} (hinv : Inv t) :
    Size t = ((ScanAll t).length : Int) := by
  obtain ⟨s, h, hg, hcount⟩ := hinv
  rw [Size, hcount, GoodTree_scan_length hg]


theorem length_setParents (nodes : List (TreeNode K V)) :
    ∀ (ids : List Nat) (p : Option Nat), (setParents nodes ids p).length = nodes.length := by
  intro ids
  induction ids generalizing nodes with
  | nil => intro p; rfl
  | cons a as ih =>
    intro p
    show (setParents (setN nodes a _) as p).length = _
    rw [ih, length_setN]

theorem getN_setParents_not_mem {nodes : List (TreeNode K V)} :
    ∀ {ids : List Nat} {p : Option Nat} {j : Nat}, j ∉ ids →
      getN (setParents nodes ids p) j = getN nodes j := by
  intro ids
  induction ids generalizing nodes with
  | nil => intro p j _; rfl
  | cons a as ih =>
    intro p j hj
    show getN (setParents (setN nodes a _) as p) j = _
    rw [ih (fun h => hj (by simp [h])), getN_setN_ne _ (fun h => hj (by simp [h]))]

theorem getN_setParents_mem {nodes : List (TreeNode K V)} :
    ∀ {ids : List Nat} {p : Option Nat} {j : Nat}, j ∈ ids → j < nodes.length →
      getN (setParents nodes ids p) j = { getN nodes j with parent := p } := by
  intro ids
  induction ids generalizing nodes with
  | nil => intro p j hj _; simp at hj
  | cons a as ih =>
    intro p j hj hlt
    show getN (setParents (setN nodes a ({ getN nodes a with parent := p })) as p) j = _
    by_cases hja : j = a
    · subst hja
      by_cases hjs : j ∈ as
      · rw [ih hjs (by rw [length_setN]; exact hlt), getN_setN_self _ hlt]
      · rw [getN_setParents_not_mem hjs, getN_setN_self _ hlt]
    · rcases List.mem_cons.1 hj with h | hjs
      · exact absurd h hja
      · rw [ih hjs (by rw [length_setN]; exact hlt),
          getN_setN_ne _ (fun h => hja h.symm)]

theorem map_getD_of_lt {α β : Type} (f : α → β) (l : List α) {n : Nat}
    (h : n < l.length) (d : β) : (l.map f).getD n d = f (l.get ⟨n, h⟩) := by
  rw [List.getD_eq_getElem?_getD, List.getElem?_map, List.getElem?_eq_getElem h]
  simp

theorem findLeaf_descend {nodes : List (TreeNode K V)} {cmp : K → K → Int} {key : K}
    {s : Skel} {h : Nat} (hf : Fits nodes s h) :
    ∀ (fuel : Nat) (crumbs0 : List Crumb), h ≤ fuel →
      CtxOk nodes crumbs0 h s.rootId →
      ∃ (li : Nat) (crumbs : List Crumb),
        findLeafLoop cmp nodes key fuel s.rootId = li ∧
        Fits nodes (.leaf li) 1 ∧
        CtxOk nodes crumbs 1 li ∧
        plugSkel crumbs (.leaf li) = plugSkel crumbs0 s := by
  induction hf with
  | @leaf i h1 h2 h3 h4 =>
    intro fuel crumbs0 hfuel hctx
    match fuel, hfuel with
    | fuel + 1, _ =>
      refine ⟨i, crumbs0, ?_, Fits.leaf h1 h2 h3 h4, hctx, rfl⟩
      rw [Skel.rootId, findLeafLoop]
      simp [h2]
  | @node i cs h h1 h2 h3 hlen hpos hall hpar ih =>
    intro fuel crumbs0 hfuel hctx
    match fuel, hfuel with
    | fuel + 1, hf2 =>
      have hcs2 : 2 ≤ cs.length := by omega
      have hm : (getN nodes i).children.length = cs.length := by
        rw [h3]; simp
      set idxE := (if childIndex cmp key (getN nodes i).keys ≥ (getN nodes i).children.length
          then (getN nodes i).children.length - 1
          else childIndex cmp key (getN nodes i).keys) with hidxdef
      have hidx : idxE < cs.length := by
        rw [hidxdef]
        split <;> omega
      obtain ⟨c, hc⟩ : ∃ c, cs[idxE]? = some c := by
        rw [List.getElem?_eq_getElem hidx]
        exact ⟨_, rfl⟩
      have hceq : c = cs[idxE] := by
        have h9 := List.getElem?_eq_getElem hidx
        rw [hc] at h9
        exact Option.some.inj h9
      have hcmem : c ∈ cs := by
        rw [hceq]
        exact List.getElem_mem hidx
      have hgetd : (getN nodes i).children.getD idxE 0 = c.rootId := by
        rw [h3, List.getD_eq_getElem?_getD, List.getElem?_map, hc]
        rfl
      have hstep : findLeafLoop cmp nodes key (fuel + 1) (Skel.node i cs).rootId =
          findLeafLoop cmp nodes key fuel c.rootId := by
        rw [Skel.rootId, findLeafLoop]
        simp only [h2, Bool.false_eq_true, if_false]
        rw [← hidxdef, hgetd]
      have hdecomp : cs = cs.take idxE ++ c :: cs.drop (idxE + 1) := by
        conv_lhs => rw [← List.take_append_drop idxE cs]
        congr 1
        rw [List.drop_eq_getElem_cons hidx]
        rw [← hceq]
      have hctx' : CtxOk nodes (Crumb.mk i (cs.take idxE) (cs.drop (idxE + 1)) :: crumbs0)
          h c.rootId := by
        refine ⟨h1, h2, ?_, ?_, hpos, hpar c hcmem, ?_, ?_, hctx⟩
        · dsimp only
          rw [h3]
          conv_lhs => rw [hdecomp]
          simp
        · dsimp only
          rw [List.length_take, List.length_drop]
          omega
        · intro t ht
          dsimp only at ht
          exact ⟨hall t (List.mem_of_mem_take ht), hpar t (List.mem_of_mem_take ht)⟩
        · intro t ht
          dsimp only at ht
          exact ⟨hall t (List.mem_of_mem_drop ht), hpar t (List.mem_of_mem_drop ht)⟩
      obtain ⟨li, crumbs, hloop, hfl, hcx, hplug⟩ :=
        ih c hcmem fuel _ (by omega) hctx'
      refine ⟨li, crumbs, by rw [hstep, hloop], hfl, hcx, ?_⟩
      rw [hplug]
      show plugSkel crumbs0 (.node i _) = plugSkel crumbs0 (.node i cs)
      congr 2
      dsimp only
      rw [← hdecomp]


theorem Fits_frame2 {nodes nodes' : List (TreeNode K V)} {s : Skel} {h : Nat}
    (hf : Fits nodes s h) (hlen : nodes.length ≤ nodes'.length)
    (hnd : s.idsOf.Nodup)
    (hcore : ∀ j ∈ s.idsOf,
      (getN nodes' j).keys = (getN nodes j).keys ∧
      (getN nodes' j).values = (getN nodes j).values ∧
      (getN nodes' j).children = (getN nodes j).children ∧
      (getN nodes' j).isLeaf = (getN nodes j).isLeaf)
    (hpar : ∀ j ∈ s.idsOf, j ≠ s.rootId →
      (getN nodes' j).parent = (getN nodes j).parent) :
    Fits nodes' s h := by
  induction hf with
  | @leaf i h1 h2 h3 h4 =>
    obtain ⟨hk, hv, hc, hl⟩ := hcore i (by simp [Skel.idsOf_leaf])
    exact Fits.leaf (by omega) (by rw [hl]; exact h2) (by rw [hc]; exact h3)
      (by rw [hv, hk]; exact h4)
  | @node i cs h h1 h2 h3 hlen2 hpos hall hpar2 ih =>
    rw [Skel.idsOf_node] at hnd hcore hpar
    have htopnot : i ∉ (cs.map Skel.idsOf).flatten := (List.nodup_cons.1 hnd).1
    have hndtail : (cs.map Skel.idsOf).flatten.Nodup := (List.nodup_cons.1 hnd).2
    have hsubids : ∀ c ∈ cs, ∀ j ∈ Skel.idsOf c, j ∈ (cs.map Skel.idsOf).flatten := by
      intro c hc j hj
      exact List.mem_flatten.2 ⟨Skel.idsOf c, List.mem_map.2 ⟨c, hc, rfl⟩, hj⟩
    obtain ⟨hk, hv, hc, hl⟩ := hcore i (by simp)
    refine Fits.node (by omega) (by rw [hl]; exact h2) (by rw [hc]; exact h3)
      (by rw [hk]; exact hlen2) (by rw [hk]; exact hpos) ?_ ?_
    · intro c hcmem
      refine ih c hcmem ?_ ?_ ?_
      · exact List.Nodup.sublist (List.sublist_flatten_of_mem
          (List.mem_map.2 ⟨c, hcmem, rfl⟩)) hndtail
      · intro j hj
        exact hcore j (List.mem_cons_of_mem _ (hsubids c hcmem j hj))
      · intro j hj hjne
        refine hpar j (List.mem_cons_of_mem _ (hsubids c hcmem j hj)) ?_
        intro hji
        rw [hji] at hj
        exact htopnot (hsubids c hcmem i hj)
    · intro c hcmem
      have hmem : Skel.rootId c ∈ (cs.map Skel.idsOf).flatten :=
        hsubids c hcmem _ (Skel.rootId_mem_idsOf c)
      have hne : Skel.rootId c ≠ (Skel.node i cs).rootId := by
        intro hji
        rw [Skel.rootId] at hji
        rw [hji] at hmem
        exact htopnot hmem
      rw [hpar _ (List.mem_cons_of_mem _ hmem) hne]
      exact hpar2 c hcmem

theorem ctx_ids_lt {nodes : List (TreeNode K V)} :
    ∀ (crumbs : List Crumb) (h x : Nat), CtxOk nodes crumbs h x →
      ∀ j ∈ preIds crumbs ++ postIds crumbs, j < nodes.length := by
  intro crumbs
  induction crumbs with
  | nil => intro h x _ j hj; simp [preIds, postIds] at hj
  | cons c rest ih =>
    intro h x hctx j hj
    obtain ⟨hp, _, _, _, _, _, hls, hrs, hrest⟩ := hctx
    simp only [preIds, postIds, List.mem_append, List.mem_cons] at hj
    rcases hj with (hj | rfl | hj) | (hj | hj)
    · exact ih _ _ hrest j (List.mem_append.2 (Or.inl hj))
    · exact hp
    · obtain ⟨l, hl, hjl⟩ := List.mem_flatten.1 hj
      obtain ⟨t, ht, rfl⟩ := List.mem_map.1 hl
      exact (hls t ht).1.ids_lt j hjl
    · obtain ⟨l, hl, hjl⟩ := List.mem_flatten.1 hj
      obtain ⟨t, ht, rfl⟩ := List.mem_map.1 hl
      exact (hrs t ht).1.ids_lt j hjl
    · exact ih _ _ hrest j (List.mem_append.2 (Or.inr hj))

theorem findIdx_go_append_self :
    ∀ (A : List Nat) (x : Nat) (B : List Nat) (i : Nat), x ∉ A →
      List.findIdx? (· = x) (A ++ x :: B) i = some (i + A.length) := by
  intro A
  induction A with
  | nil => intro x B i _; simp [List.findIdx?]
  | cons a A' ih =>
    intro x B i hx
    have hax : (a = x) = False := by
      simp only [eq_iff_iff, iff_false]
      intro h
      exact hx (by simp [h])
    rw [List.cons_append, List.findIdx?]
    simp only [hax, decide_False, cond_false]
    rw [ih x B (i + 1) (fun h => hx (by simp [h]))]
    simp
    omega

theorem findIdx_append_self (A : List Nat) (x : Nat) (B : List Nat)
    (h : x ∉ A) : List.findIdx? (· = x) (A ++ x :: B) = some A.length := by
  have := findIdx_go_append_self A x B 0 h
  simpa using this

theorem insertAt_length_of_le {α : Type} :
    ∀ (l : List α) (n : Nat) (a : α), n ≤ l.length →
      (insertAt l n a).length = l.length + 1 := by
  intro l
  induction l with
  | nil =>
    intro n a hn
    cases n with
    | zero => rfl
    | succ m => simp at hn
  | cons x xs ih =>
    intro n a hn
    cases n with
    | zero => rfl
    | succ m =>
      show (x :: insertAt xs m a).length = _
      rw [List.length_cons, ih m a (by simpa using hn)]
      rfl

theorem insertAt_at_middle {α : Type} :
    ∀ (A : List α) (x : α) (B : List α) (v : α),
      insertAt (A ++ x :: B) (A.length + 1) v = A ++ x :: v :: B := by
  intro A
  induction A with
  | nil => intro x B v; simp [insertAt]
  | cons a A' ih =>
    intro x B v
    show a :: insertAt (A' ++ x :: B) (A'.length + 1) v = _
    rw [ih]
    rfl

theorem ZipOk_goodTree {t : BPlusTree K V} {crumbs : List Crumb} {s : Skel}
    {h : Nat} (hz : ZipOk t crumbs s h) (horder : 3 ≤ t.order) :
    GoodTree t (plugSkel crumbs s) (h + crumbs.length) := by
  obtain ⟨hf, hctx, hroot, hpar, hnd, hchain⟩ := hz
  exact ⟨Fits_plugSkel crumbs s h hctx hf,
    by rw [rootId_plugSkel, hroot], hpar, hnd, hchain, horder⟩

theorem GoodTree_zipOk {t : BPlusTree K V} {s : Skel} {h : Nat}
    (hg : GoodTree t s h) : ZipOk t [] s h := by
  obtain ⟨hf, hroot, hpar, hnd, hchain, -⟩ := hg
  exact ⟨hf, trivial, hroot.symm, hpar, by simpa [plugSkel] using hnd,
    by simpa [plugSkel] using hchain⟩

theorem getN_append_lt {nodes : List (TreeNode K V)} {j : Nat}
    (l : List (TreeNode K V)) (h : j < nodes.length) :
    getN (nodes ++ l) j = getN nodes j := by
  unfold getN
  rw [List.getD_eq_getElem?_getD, List.getD_eq_getElem?_getD,
    List.getElem?_append_left h]

theorem getN_append_self {nodes : List (TreeNode K V)} (n : TreeNode K V) :
    getN (nodes ++ [n]) nodes.length = n := by
  unfold getN
  rw [List.getD_eq_getElem?_getD]
  rw [List.getElem?_append_right (le_refl _)]
  simp

theorem ctxRootId_mem_preIds :
    ∀ (crumbs : List Crumb) (x : Nat), crumbs ≠ [] →
      ctxRootId crumbs x ∈ preIds crumbs := by
  intro crumbs
  induction crumbs with
  | nil => intro x h; exact absurd rfl h
  | cons c rest ih =>
    intro x _
    show ctxRootId rest c.p ∈ preIds rest ++ c.p :: (c.ls.map Skel.idsOf).flatten
    cases hr : rest with
    | nil => simp [ctxRootId]
    | cons d rest' =>
      rw [← hr]
      exact List.mem_append.2 (Or.inl (ih c.p (by rw [hr]; simp)))

theorem nodup_insert_of_fresh {A B : List Nat} {x : Nat}
    (h : (A ++ B).Nodup) (hx : x ∉ A ++ B) : (A ++ x :: B).Nodup := by
  rw [(@List.perm_middle _ x A B).nodup_iff]
  exact List.nodup_cons.2 ⟨hx, h⟩

theorem mem_flatten_of_mem_roots {L : List Skel} {j : Nat}
    (h : j ∈ L.map Skel.rootId) : j ∈ (L.map Skel.idsOf).flatten := by
  obtain ⟨c, hc, rfl⟩ := List.mem_map.1 h
  exact List.mem_flatten.2 ⟨c.idsOf, List.mem_map.2 ⟨c, hc, rfl⟩,
    Skel.rootId_mem_idsOf c⟩

theorem notmem_roots_of_nodup :
    ∀ (L : List Skel), (L.map Skel.idsOf).flatten.Nodup →
      ∀ c ∈ L, ∀ j ∈ c.idsOf, j ≠ c.rootId → j ∉ L.map Skel.rootId := by
  intro L
  induction L with
  | nil => intro _ c hc; simp at hc
  | cons d L' ih =>
    intro hnd c hc j hjc hjne hjmem
    rw [List.map_cons, List.flatten_cons, List.nodup_append] at hnd
    obtain ⟨hd1, hd2, hdisj⟩ := hnd
    rcases List.mem_cons.1 hjmem with hjd | hjd
    · rcases List.mem_cons.1 hc with rfl | hc'
      · exact hjne hjd
      · exact hdisj (by rw [hjd]; exact Skel.rootId_mem_idsOf d)
          (List.mem_flatten.2 ⟨c.idsOf, List.mem_map.2 ⟨c, hc', rfl⟩, hjc⟩)
    · rcases List.mem_cons.1 hc with rfl | hc'
      · exact hdisj hjc (mem_flatten_of_mem_roots hjd)
      · exact ih hd2 c hc' j hjc hjne hjd

theorem splitInternal_ok {cmp : K → K → Int} [Inhabited K] :
    ∀ (fuel : Nat) (t : BPlusTree K V) (crumbs : List Crumb) (ni : Nat)
      (cs : List Skel) (h : Nat),
      ZipOk t crumbs (.node ni cs) (h + 1) →
      3 ≤ t.order → 3 ≤ (getN t.nodes ni).keys.length →
      crumbs.length < fuel →
      ∃ (s' : Skel) (h' : Nat),
        GoodTree (splitInternalNode cmp fuel t ni) s' h' ∧
        Skel.leavesOf s' = Skel.leavesOf (plugSkel crumbs (.node ni cs)) ∧
        (∀ l ∈ Skel.leavesOf s',
          (getN (splitInternalNode cmp fuel t ni).nodes l).values =
            (getN t.nodes l).values) ∧
        (splitInternalNode cmp fuel t ni).count = t.count ∧
        (splitInternalNode cmp fuel t ni).order = t.order ∧
        (splitInternalNode cmp fuel t ni).minKeys = t.minKeys := by
  intro fuel
  induction fuel with
  | zero => intro t crumbs ni cs h hz horder hK hfuel; omega
  | succ fuel ih =>
    intro t crumbs ni cs h hz horder hK hfuel
    obtain ⟨hf, hctx, hroot, hrootpar, hnd, hchain⟩ := hz
    have hf0 := hf
    cases hf with
    | node h1 h2 h3 hklen hkpos hall hpar =>
    obtain ⟨sp, hsp⟩ : ∃ x, (getN t.nodes ni).keys.length / 2 = x := ⟨_, rfl⟩
    have hni_lt : ni < t.nodes.length := h1
    have hplugfits := Fits_plugSkel crumbs _ (h + 1) hctx hf0
    have hplug_lt : ∀ j ∈ (plugSkel crumbs (Skel.node ni cs)).idsOf,
        j < t.nodes.length := hplugfits.ids_lt
    have hids_expand := idsOf_plugSkel crumbs (Skel.node ni cs)
    have hM_lt : ∀ j ∈ (cs.map Skel.idsOf).flatten, j < t.nodes.length := by
      intro j hj
      refine hplug_lt j ?_
      rw [hids_expand, Skel.idsOf_node]
      exact List.mem_append.2 (Or.inl (List.mem_append.2
        (Or.inr (List.mem_cons_of_mem _ hj))))
    have hmidnd : (Skel.node ni cs).idsOf.Nodup :=
      List.Nodup.sublist (List.IsInfix.sublist
        ⟨preIds crumbs, postIds crumbs, by rw [hids_expand]⟩) hnd
    have hMnd : (cs.map Skel.idsOf).flatten.Nodup := by
      rw [Skel.idsOf_node] at hmidnd
      exact (List.nodup_cons.1 hmidnd).2
    have hniM : ni ∉ (cs.map Skel.idsOf).flatten := by
      rw [Skel.idsOf_node] at hmidnd
      exact (List.nodup_cons.1 hmidnd).1
    have hMsplit : (cs.map Skel.idsOf).flatten =
        ((cs.take (sp + 1)).map Skel.idsOf).flatten ++
          ((cs.drop (sp + 1)).map Skel.idsOf).flatten := by
      conv_lhs => rw [← List.take_append_drop (sp + 1) cs]
      rw [List.map_append, List.flatten_append]
    have hLsplit : (cs.map Skel.leavesOf).flatten =
        ((cs.take (sp + 1)).map Skel.leavesOf).flatten ++
          ((cs.drop (sp + 1)).map Skel.leavesOf).flatten := by
      conv_lhs => rw [← List.take_append_drop (sp + 1) cs]
      rw [List.map_append, List.flatten_append]
    have hLRdisj : ∀ j ∈ ((cs.take (sp + 1)).map Skel.idsOf).flatten,
        j ∉ ((cs.drop (sp + 1)).map Skel.idsOf).flatten := by
      rw [hMsplit] at hMnd
      exact (List.nodup_append.1 hMnd).2.2
    have hRnd : ((cs.drop (sp + 1)).map Skel.idsOf).flatten.Nodup := by
      rw [hMsplit] at hMnd
      exact (List.nodup_append.1 hMnd).2.1
    have hLnd : ((cs.take (sp + 1)).map Skel.idsOf).flatten.Nodup := by
      rw [hMsplit] at hMnd
      exact (List.nodup_append.1 hMnd).1
    have hsubL : ∀ c ∈ cs.take (sp + 1), ∀ j ∈ c.idsOf,
        j ∈ ((cs.take (sp + 1)).map Skel.idsOf).flatten := by
      intro c hc j hj
      exact List.mem_flatten.2 ⟨c.idsOf, List.mem_map.2 ⟨c, hc, rfl⟩, hj⟩
    have hsubR : ∀ c ∈ cs.drop (sp + 1), ∀ j ∈ c.idsOf,
        j ∈ ((cs.drop (sp + 1)).map Skel.idsOf).flatten := by
      intro c hc j hj
      exact List.mem_flatten.2 ⟨c.idsOf, List.mem_map.2 ⟨c, hc, rfl⟩, hj⟩
    have hsubM : ∀ c ∈ cs, ∀ j ∈ c.idsOf, j ∈ (cs.map Skel.idsOf).flatten := by
      intro c hc j hj
      exact List.mem_flatten.2 ⟨c.idsOf, List.mem_map.2 ⟨c, hc, rfl⟩, hj⟩
    have hdropchild : List.drop (sp + 1) (getN t.nodes ni).children =
        (cs.drop (sp + 1)).map Skel.rootId := by
      rw [h3, List.map_drop]
    have hdropsubM : ∀ r ∈ (cs.drop (sp + 1)).map Skel.rootId,
        r ∈ (cs.map Skel.idsOf).flatten := by
      intro r hr
      rw [hMsplit]
      exact List.mem_append.2 (Or.inr (mem_flatten_of_mem_roots hr))
    have hnidrop : ni ∉ List.drop (sp + 1) (getN t.nodes ni).children := by
      rw [hdropchild]
      intro hmem
      exact hniM (hdropsubM ni hmem)
    have hdrop_lt : ∀ r ∈ List.drop (sp + 1) (getN t.nodes ni).children,
        r < t.nodes.length := by
      rw [hdropchild]
      intro r hr
      exact hM_lt r (hdropsubM r hr)
    have hnewdrop : t.nodes.length ∉ List.drop (sp + 1) (getN t.nodes ni).children := by
      intro hmem
      exact absurd (hdrop_lt _ hmem) (by omega)
    have hnr : ∀ c ∈ cs.drop (sp + 1), ∀ j ∈ c.idsOf, j ≠ c.rootId →
        j ∉ (cs.drop (sp + 1)).map Skel.rootId :=
      notmem_roots_of_nodup _ hRnd
    cases crumbs with
    | nil =>
      have hrootni : t.root = ni := hroot
      have hparniEq : (getN t.nodes ni).parent = none := by
        rw [← hrootni]; exact hrootpar
      have hblock : ∃ N : List (TreeNode K V),
          splitInternalNode cmp (fuel + 1) t ni =
            { t with nodes := N, root := t.nodes.length + 1 } ∧
          N.length = t.nodes.length + 2 ∧
          getN N ni = ⟨List.take sp (getN t.nodes ni).keys,
            (getN t.nodes ni).values,
            List.take (sp + 1) (getN t.nodes ni).children,
            (getN t.nodes ni).isLeaf,
            (getN t.nodes ni).next,
            some (t.nodes.length + 1)⟩ ∧
          getN N t.nodes.length = ⟨List.drop (sp + 1) (getN t.nodes ni).keys,
            [],
            List.drop (sp + 1) (getN t.nodes ni).children,
            false, none,
            some (t.nodes.length + 1)⟩ ∧
          getN N (t.nodes.length + 1) =
            ⟨[(getN t.nodes ni).keys.getD sp default],
              [], [ni, t.nodes.length],
              false, none, none⟩ ∧
          (∀ r ∈ List.drop (sp + 1) (getN t.nodes ni).children,
            r < t.nodes.length → r ≠ ni →
            getN N r = { getN t.nodes r with parent := some t.nodes.length }) ∧
          (∀ j : Nat, j < t.nodes.length → j ≠ ni →
            j ∉ List.drop (sp + 1) (getN t.nodes ni).children →
            getN N j = getN t.nodes j) := by
        simp only [splitInternalNode, hparniEq]
        rw [hsp]
        set nL : TreeNode K V := ⟨List.take sp (getN t.nodes ni).keys,
          (getN t.nodes ni).values,
          List.take (sp + 1) (getN t.nodes ni).children,
          (getN t.nodes ni).isLeaf,
          (getN t.nodes ni).next,
          none⟩ with hnL
        set nR : TreeNode K V := ⟨List.drop (sp + 1) (getN t.nodes ni).keys,
          ([] : List (KeyValue K V)),
          List.drop (sp + 1) (getN t.nodes ni).children,
          false, none, none⟩ with hnR
        set N1 := setN t.nodes ni nL ++ [nR] with hN1
        set N2 := setParents N1 (List.drop (sp + 1) (getN t.nodes ni).children)
          (some t.nodes.length) with hN2
        set rootRec : TreeNode K V :=
          ⟨[(getN t.nodes ni).keys.getD sp default],
            ([] : List (KeyValue K V)),
            [ni, t.nodes.length],
            false, none, none⟩ with hRR
        set N3 := N2 ++ [rootRec] with hN3
        set N4 := setN N3 ni ⟨(getN N3 ni).keys,
          (getN N3 ni).values, (getN N3 ni).children,
          (getN N3 ni).isLeaf, (getN N3 ni).next,
          some N2.length⟩ with hN4
        set N5 := setN N4 t.nodes.length ⟨(getN N4 t.nodes.length).keys,
          (getN N4 t.nodes.length).values,
          (getN N4 t.nodes.length).children,
          (getN N4 t.nodes.length).isLeaf,
          (getN N4 t.nodes.length).next,
          some N2.length⟩ with hN5
        have hlen1 : N1.length = t.nodes.length + 1 := by
          rw [hN1, List.length_append, length_setN]; rfl
        have hlen2 : N2.length = t.nodes.length + 1 := by
          rw [hN2, length_setParents, hlen1]
        have hlen3 : N3.length = t.nodes.length + 2 := by
          rw [hN3, List.length_append, hlen2]; rfl
        have hlen4 : N4.length = t.nodes.length + 2 := by
          rw [hN4, length_setN, hlen3]
        have hlen5 : N5.length = t.nodes.length + 2 := by
          rw [hN5, length_setN, hlen4]
        have hg1ni : getN N1 ni = nL := by
          rw [hN1, getN_append_lt _ (by rw [length_setN]; exact hni_lt),
            getN_setN_self _ hni_lt]
        have hg1new : getN N1 t.nodes.length = nR := by
          rw [hN1, ← length_setN t.nodes ni nL]
          exact getN_append_self nR
        have hg3ni : getN N3 ni = nL := by
          rw [hN3, getN_append_lt _ (by omega), hN2,
            getN_setParents_not_mem hnidrop, hg1ni]
        have hg3new : getN N3 t.nodes.length = nR := by
          rw [hN3, getN_append_lt _ (by omega), hN2,
            getN_setParents_not_mem hnewdrop, hg1new]
        rw [hlen2]
        refine ⟨N5, rfl, hlen5, ?_, ?_, ?_, ?_, ?_⟩
        · rw [hN5, getN_setN_ne _ (Nat.ne_of_gt hni_lt), hN4,
            getN_setN_self _ (by omega), hg3ni, hlen2, hnL]
        · rw [hN5, getN_setN_self _ (by omega), hN4,
            getN_setN_ne _ (Nat.ne_of_lt hni_lt), hg3new, hlen2, hnR]
        · rw [hN5, getN_setN_ne _ (by omega), hN4, getN_setN_ne _ (by omega),
            hN3, ← hlen2]
          rw [getN_append_self, hRR]
        · intro r hr hrlt hrne
          rw [hN5, getN_setN_ne _ (Nat.ne_of_gt hrlt), hN4,
            getN_setN_ne _ (Ne.symm hrne), hN3, getN_append_lt _ (by omega),
            hN2, getN_setParents_mem hr (by omega), hN1,
            getN_append_lt _ (by rw [length_setN]; exact hrlt),
            getN_setN_ne _ (Ne.symm hrne)]
        · intro j hj hjni hjdrop
          rw [hN5, getN_setN_ne _ (Nat.ne_of_gt hj), hN4,
            getN_setN_ne _ (Ne.symm hjni), hN3, getN_append_lt _ (by omega),
            hN2, getN_setParents_not_mem hjdrop, hN1,
            getN_append_lt _ (by rw [length_setN]; exact hj),
            getN_setN_ne _ (Ne.symm hjni)]
      obtain ⟨N, heq, hNlen, hNni, hNnew, hNroot, hNdrop, hNother⟩ := hblock
      rw [heq]
      have hkeep : ∀ l, l < t.nodes.length → l ≠ ni →
          (getN N l).next = (getN t.nodes l).next ∧
          (getN N l).values = (getN t.nodes l).values := by
        intro l hl hlni
        by_cases hmem : l ∈ List.drop (sp + 1) (getN t.nodes ni).children
        · rw [hNdrop l hmem hl hlni]
          exact ⟨rfl, rfl⟩
        · rw [hNother l hl hlni hmem]
          exact ⟨rfl, rfl⟩
      have hFitsL : Fits N (Skel.node ni (cs.take (sp + 1))) (h + 1) := by
        refine Fits.node (by omega) ?_ ?_ ?_ ?_ ?_ ?_
        · rw [hNni]; exact h2
        · rw [hNni]
          show List.take (sp + 1) (getN t.nodes ni).children = _
          rw [h3, List.map_take]
        · rw [hNni]
          show (List.take sp (getN t.nodes ni).keys).length + 1 = _
          rw [List.length_take, List.length_take]
          omega
        · rw [hNni]
          show 1 ≤ (List.take sp (getN t.nodes ni).keys).length
          rw [List.length_take]
          omega
        · intro c hc
          refine Fits_frame (hall c (List.mem_of_mem_take hc)) (by omega) ?_
          intro j hj
          have hjL := hsubL c hc j hj
          have hjM : j ∈ (cs.map Skel.idsOf).flatten := by
            rw [hMsplit]; exact List.mem_append.2 (Or.inl hjL)
          refine hNother j (hM_lt j hjM) ?_ ?_
          · intro hje; rw [hje] at hjM; exact hniM hjM
          · rw [hdropchild]
            intro hmem
            exact hLRdisj j hjL (mem_flatten_of_mem_roots hmem)
        · intro c hc
          have hjL := hsubL c hc _ (Skel.rootId_mem_idsOf c)
          have hjM : c.rootId ∈ (cs.map Skel.idsOf).flatten := by
            rw [hMsplit]; exact List.mem_append.2 (Or.inl hjL)
          rw [hNother _ (hM_lt _ hjM)
            (by intro hje; rw [hje] at hjM; exact hniM hjM)
            (by rw [hdropchild]; intro hmem; exact hLRdisj _ hjL (mem_flatten_of_mem_roots hmem))]
          exact hpar c (List.mem_of_mem_take hc)
      have hFitsR : Fits N (Skel.node t.nodes.length (cs.drop (sp + 1))) (h + 1) := by
        refine Fits.node (by omega) ?_ ?_ ?_ ?_ ?_ ?_
        · rw [hNnew]
        · rw [hNnew]
          show List.drop (sp + 1) (getN t.nodes ni).children = _
          exact hdropchild
        · rw [hNnew]
          show (List.drop (sp + 1) (getN t.nodes ni).keys).length + 1 = _
          rw [List.length_drop, List.length_drop]
          omega
        · rw [hNnew]
          show 1 ≤ (List.drop (sp + 1) (getN t.nodes ni).keys).length
          rw [List.length_drop]
          omega
        · intro c hc
          have hcnd : c.idsOf.Nodup := by
            refine List.Nodup.sublist ?_ hRnd
            exact List.sublist_flatten_of_mem (List.mem_map.2 ⟨c, hc, rfl⟩)
          refine Fits_frame2 (hall c (List.mem_of_mem_drop hc)) (by omega) hcnd ?_ ?_
          · intro j hj
            have hjR := hsubR c hc j hj
            have hjM : j ∈ (cs.map Skel.idsOf).flatten := by
              rw [hMsplit]; exact List.mem_append.2 (Or.inr hjR)
            have hjlt := hM_lt j hjM
            have hjni : j ≠ ni := by intro hje; rw [hje] at hjM; exact hniM hjM
            by_cases hmem : j ∈ List.drop (sp + 1) (getN t.nodes ni).children
            · rw [hNdrop j hmem hjlt hjni]
              exact ⟨rfl, rfl, rfl, rfl⟩
            · rw [hNother j hjlt hjni hmem]
              exact ⟨rfl, rfl, rfl, rfl⟩
          · intro j hj hjroot
            have hjR := hsubR c hc j hj
            have hjM : j ∈ (cs.map Skel.idsOf).flatten := by
              rw [hMsplit]; exact List.mem_append.2 (Or.inr hjR)
            have hjlt := hM_lt j hjM
            have hjni : j ≠ ni := by intro hje; rw [hje] at hjM; exact hniM hjM
            have hjdrop : j ∉ List.drop (sp + 1) (getN t.nodes ni).children := by
              rw [hdropchild]
              exact hnr c hc j hj hjroot
            rw [hNother j hjlt hjni hjdrop]
        · intro c hc
          have hroot_mem : c.rootId ∈ List.drop (sp + 1) (getN t.nodes ni).children := by
            rw [hdropchild]
            exact List.mem_map.2 ⟨c, hc, rfl⟩
          have hjR := hsubR c hc _ (Skel.rootId_mem_idsOf c)
          have hjM : c.rootId ∈ (cs.map Skel.idsOf).flatten := by
            rw [hMsplit]; exact List.mem_append.2 (Or.inr hjR)
          have hjlt := hM_lt _ hjM
          have hjni : c.rootId ≠ ni := by
            intro hje; rw [hje] at hjM; exact hniM hjM
          rw [hNdrop _ hroot_mem hjlt hjni]
      refine ⟨Skel.node (t.nodes.length + 1)
        [Skel.node ni (cs.take (sp + 1)),
         Skel.node t.nodes.length (cs.drop (sp + 1))], h + 2, ?_, ?_, ?_, rfl, rfl, rfl⟩
      · refine ⟨?_, rfl, ?_, ?_, ?_, by exact horder⟩
        · refine Fits.node (by show t.nodes.length + 1 < N.length; omega) ?_ ?_ ?_ ?_ ?_ ?_
          · show (getN N (t.nodes.length + 1)).isLeaf = false
            rw [hNroot]
          · show (getN N (t.nodes.length + 1)).children = _
            rw [hNroot]
            rfl
          · show (getN N (t.nodes.length + 1)).keys.length + 1 = 2
            rw [hNroot]
            rfl
          · show 1 ≤ (getN N (t.nodes.length + 1)).keys.length
            rw [hNroot]
            rfl
          · intro c hc
            rcases List.mem_cons.1 hc with rfl | hc
            · exact hFitsL
            · rcases List.mem_cons.1 hc with rfl | hc
              · exact hFitsR
              · simp at hc
          · intro c hc
            rcases List.mem_cons.1 hc with rfl | hc
            · show (getN N ni).parent = _
              rw [hNni]
            · rcases List.mem_cons.1 hc with rfl | hc
              · show (getN N t.nodes.length).parent = _
                rw [hNnew]
              · simp at hc
        · show (getN N (t.nodes.length + 1)).parent = none
          rw [hNroot]
        · rw [Skel.idsOf_node]
          simp only [List.map_cons, List.map_nil, List.flatten_cons,
            List.flatten_nil, List.append_nil, Skel.idsOf_node]
          refine List.nodup_cons.2 ⟨?_, ?_⟩
          · intro hmem
            rcases List.mem_append.1 hmem with hmem | hmem
            · rcases List.mem_cons.1 hmem with hje | hmem
              · omega
              · have := hM_lt _ (by rw [hMsplit]; exact List.mem_append.2 (Or.inl hmem))
                omega
            · rcases List.mem_cons.1 hmem with hje | hmem
              · omega
              · have := hM_lt _ (by rw [hMsplit]; exact List.mem_append.2 (Or.inr hmem))
                omega
          · refine nodup_insert_of_fresh ?_ ?_
            · rw [show (ni :: ((cs.take (sp + 1)).map Skel.idsOf).flatten) ++
                  ((cs.drop (sp + 1)).map Skel.idsOf).flatten =
                  ni :: (cs.map Skel.idsOf).flatten from by
                rw [List.cons_append, hMsplit]]
              rw [← Skel.idsOf_node]
              exact hmidnd
            · intro hmem
              rcases List.mem_append.1 hmem with hmem | hmem
              · rcases List.mem_cons.1 hmem with hje | hmem
                · omega
                · have := hM_lt _ (by rw [hMsplit]; exact List.mem_append.2 (Or.inl hmem))
                  omega
              · have := hM_lt _ (by rw [hMsplit]; exact List.mem_append.2 (Or.inr hmem))
                omega
        · show ChainOf N _
          rw [Skel.leavesOf_node]
          simp only [List.map_cons, List.map_nil, List.flatten_cons,
            List.flatten_nil, List.append_nil, Skel.leavesOf_node]
          rw [← hLsplit]
          have hold : ChainOf t.nodes (cs.map Skel.leavesOf).flatten := by
            have := hchain
            rw [leavesOf_plugSkel] at this
            simp only [preLeaves, postLeaves, List.nil_append,
              List.append_nil, Skel.leavesOf_node] at this
            exact this
          refine ChainOf_congr _ ?_ hold
          intro l hl
          have hlM : l ∈ (cs.map Skel.idsOf).flatten := by
            obtain ⟨ll, hll, hlll⟩ := List.mem_flatten.1 hl
            obtain ⟨c, hc, rfl⟩ := List.mem_map.1 hll
            exact hsubM c hc l
              (List.Sublist.mem hlll (Skel.leavesOf_sublist_idsOf c))
          exact (hkeep l (hM_lt l hlM)
            (by intro hje; rw [hje] at hlM; exact hniM hlM)).1
      · rw [leavesOf_plugSkel]
        simp only [preLeaves, postLeaves, List.nil_append, List.append_nil,
          Skel.leavesOf_node, List.map_cons, List.map_nil, List.flatten_cons,
          List.flatten_nil, Skel.leavesOf_node]
        rw [← hLsplit]
      · intro l hl
        rw [Skel.leavesOf_node] at hl
        simp only [List.map_cons, List.map_nil, List.flatten_cons,
          List.flatten_nil, List.append_nil, Skel.leavesOf_node] at hl
        rw [← hLsplit] at hl
        have hlM : l ∈ (cs.map Skel.idsOf).flatten := by
          obtain ⟨ll, hll, hlll⟩ := List.mem_flatten.1 hl
          obtain ⟨c, hc, rfl⟩ := List.mem_map.1 hll
          exact hsubM c hc l
            (List.Sublist.mem hlll (Skel.leavesOf_sublist_idsOf c))
        exact (hkeep l (hM_lt l hlM)
          (by intro hje; rw [hje] at hlM; exact hniM hlM)).2
    | cons c rest =>
      have hctx0 := hctx
      obtain ⟨hcp_lt, hcpleaf, hcpchild, hcpklen, hcpkpos, hparx, hls, hrs, hrest⟩ := hctx
      have hcpchild' : (getN t.nodes c.p).children =
          c.ls.map Skel.rootId ++ ni :: c.rs.map Skel.rootId := by
        simpa [Skel.rootId] using hcpchild
      have hcpkeyslen : (getN t.nodes c.p).keys.length = c.ls.length + c.rs.length := by
        omega
      have hparniEq : (getN t.nodes ni).parent = some c.p := by
        simpa [Skel.rootId] using hparx
      have hcanon : (plugSkel (c :: rest) (Skel.node ni cs)).idsOf =
          preIds rest ++ c.p :: ((c.ls.map Skel.idsOf).flatten ++
            ni :: ((cs.map Skel.idsOf).flatten ++
              ((c.rs.map Skel.idsOf).flatten ++ postIds rest))) := by
        rw [hids_expand]
        simp only [preIds, postIds, Skel.idsOf_node, List.append_assoc,
          List.cons_append]
      have hndC : (preIds rest ++ c.p :: ((c.ls.map Skel.idsOf).flatten ++
          ni :: ((cs.map Skel.idsOf).flatten ++
            ((c.rs.map Skel.idsOf).flatten ++ postIds rest)))).Nodup := by
        rw [← hcanon]
        exact hnd
      obtain ⟨hndP, hndT1, hdisjP⟩ := List.nodup_append.1 hndC
      obtain ⟨hcpnot, hndT2⟩ := List.nodup_cons.1 hndT1
      obtain ⟨hndQ, hndT3, hdisjQ⟩ := List.nodup_append.1 hndT2
      obtain ⟨hninot, hndT4⟩ := List.nodup_cons.1 hndT3
      obtain ⟨hndM2, hndT5, hdisjM⟩ := List.nodup_append.1 hndT4
      have hcp_ne_ni : c.p ≠ ni := by
        intro he
        exact hcpnot (List.mem_append.2 (Or.inr (by rw [he]; exact List.mem_cons_self _ _)))
      have hcp_notM : c.p ∉ (cs.map Skel.idsOf).flatten := by
        intro hm
        exact hcpnot (List.mem_append.2 (Or.inr (List.mem_cons_of_mem _
          (List.mem_append.2 (Or.inl hm)))))
      have hni_Q : ni ∉ (c.ls.map Skel.idsOf).flatten := by
        intro hm
        exact hdisjQ hm (List.mem_cons_self _ _)
      have hQ_M : ∀ q ∈ (c.ls.map Skel.idsOf).flatten,
          q ∉ (cs.map Skel.idsOf).flatten := by
        intro q hq hm
        exact hdisjQ hq (List.mem_cons_of_mem _ (List.mem_append.2 (Or.inl hm)))
      have hni_Rr : ni ∉ (c.rs.map Skel.idsOf).flatten := by
        intro hm
        exact hninot (List.mem_append.2 (Or.inr (List.mem_append.2 (Or.inl hm))))
      have hni_S : ni ∉ postIds rest := by
        intro hm
        exact hninot (List.mem_append.2 (Or.inr (List.mem_append.2 (Or.inr hm))))
      have hM_Rr : ∀ m ∈ (cs.map Skel.idsOf).flatten,
          m ∉ (c.rs.map Skel.idsOf).flatten := by
        intro m hm hmem
        exact hdisjM hm (List.mem_append.2 (Or.inl hmem))
      have hM_S : ∀ m ∈ (cs.map Skel.idsOf).flatten, m ∉ postIds rest := by
        intro m hm hmem
        exact hdisjM hm (List.mem_append.2 (Or.inr hmem))
      have hcp_S : c.p ∉ postIds rest := by
        intro hm
        exact hcpnot (List.mem_append.2 (Or.inr (List.mem_cons_of_mem _
          (List.mem_append.2 (Or.inr (List.mem_append.2 (Or.inr hm)))))))
      have hP_facts : ∀ p ∈ preIds rest, p ≠ c.p ∧ p ≠ ni ∧
          p ∉ (cs.map Skel.idsOf).flatten := by
        intro p hp
        refine ⟨?_, ?_, ?_⟩
        · intro he
          exact hdisjP hp (by rw [he]; exact List.mem_cons_self _ _)
        · intro he
          exact hdisjP hp (by
            rw [he]
            exact List.mem_cons_of_mem _ (List.mem_append.2
              (Or.inr (List.mem_cons_self _ _))))
        · intro hm
          exact hdisjP hp (List.mem_cons_of_mem _ (List.mem_append.2
            (Or.inr (List.mem_cons_of_mem _ (List.mem_append.2 (Or.inl hm))))))
      have hPS_lt : ∀ j ∈ preIds (c :: rest) ++ postIds (c :: rest),
          j < t.nodes.length := ctx_ids_lt (c :: rest) (h + 1) _ hctx0
      have hP_lt : ∀ j ∈ preIds rest, j < t.nodes.length := by
        intro j hj
        refine hPS_lt j (List.mem_append.2 (Or.inl ?_))
        simp only [preIds]
        exact List.mem_append.2 (Or.inl hj)
      have hS_lt : ∀ j ∈ postIds rest, j < t.nodes.length := by
        intro j hj
        refine hPS_lt j (List.mem_append.2 (Or.inr ?_))
        simp only [postIds]
        exact List.mem_append.2 (Or.inr hj)
      have hQ_lt : ∀ j ∈ (c.ls.map Skel.idsOf).flatten, j < t.nodes.length := by
        intro j hj
        refine hPS_lt j (List.mem_append.2 (Or.inl ?_))
        simp only [preIds]
        exact List.mem_append.2 (Or.inr (List.mem_cons_of_mem _ hj))
      have hRr_lt : ∀ j ∈ (c.rs.map Skel.idsOf).flatten, j < t.nodes.length := by
        intro j hj
        refine hPS_lt j (List.mem_append.2 (Or.inr ?_))
        simp only [postIds]
        exact List.mem_append.2 (Or.inl hj)
      have hcpdrop : c.p ∉ List.drop (sp + 1) (getN t.nodes ni).children := by
        rw [hdropchild]
        intro hm
        exact hcp_notM (hdropsubM _ hm)
      have hni_lsroots : ni ∉ c.ls.map Skel.rootId := by
        intro hm
        exact hni_Q (mem_flatten_of_mem_roots hm)
      have hblock : ∃ N : List (TreeNode K V),
          splitInternalNode cmp (fuel + 1) t ni =
            (if (getN t.nodes c.p).keys.length + 1 > t.order - 1
              then splitInternalNode cmp fuel { t with nodes := N } c.p
              else { t with nodes := N }) ∧
          N.length = t.nodes.length + 1 ∧
          getN N ni = ⟨List.take sp (getN t.nodes ni).keys,
            (getN t.nodes ni).values,
            List.take (sp + 1) (getN t.nodes ni).children,
            (getN t.nodes ni).isLeaf,
            (getN t.nodes ni).next,
            some c.p⟩ ∧
          getN N t.nodes.length = ⟨List.drop (sp + 1) (getN t.nodes ni).keys,
            [],
            List.drop (sp + 1) (getN t.nodes ni).children,
            false, none, some c.p⟩ ∧
          getN N c.p = ⟨insertAt (getN t.nodes c.p).keys c.ls.length
              ((getN t.nodes ni).keys.getD sp default),
            (getN t.nodes c.p).values,
            insertAt (getN t.nodes c.p).children (c.ls.length + 1) t.nodes.length,
            (getN t.nodes c.p).isLeaf,
            (getN t.nodes c.p).next,
            (getN t.nodes c.p).parent⟩ ∧
          (∀ r ∈ List.drop (sp + 1) (getN t.nodes ni).children,
            r < t.nodes.length → r ≠ ni → r ≠ c.p →
            getN N r = { getN t.nodes r with parent := some t.nodes.length }) ∧
          (∀ j : Nat, j < t.nodes.length → j ≠ ni → j ≠ c.p →
            j ∉ List.drop (sp + 1) (getN t.nodes ni).children →
            getN N j = getN t.nodes j) := by
        simp only [splitInternalNode, hparniEq]
        rw [hsp]
        set nL : TreeNode K V := ⟨List.take sp (getN t.nodes ni).keys,
          (getN t.nodes ni).values,
          List.take (sp + 1) (getN t.nodes ni).children,
          (getN t.nodes ni).isLeaf,
          (getN t.nodes ni).next,
          some c.p⟩ with hnL
        set nR : TreeNode K V := ⟨List.drop (sp + 1) (getN t.nodes ni).keys,
          ([] : List (KeyValue K V)),
          List.drop (sp + 1) (getN t.nodes ni).children,
          false, none, some c.p⟩ with hnR
        set N1 := setN t.nodes ni nL ++ [nR] with hN1
        set N2 := setParents N1 (List.drop (sp + 1) (getN t.nodes ni).children)
          (some t.nodes.length) with hN2
        have hlen1 : N1.length = t.nodes.length + 1 := by
          rw [hN1, List.length_append, length_setN]; rfl
        have hlen2 : N2.length = t.nodes.length + 1 := by
          rw [hN2, length_setParents, hlen1]
        have hg1ni : getN N1 ni = nL := by
          rw [hN1, getN_append_lt _ (by rw [length_setN]; exact hni_lt),
            getN_setN_self _ hni_lt]
        have hg1new : getN N1 t.nodes.length = nR := by
          rw [hN1, ← length_setN t.nodes ni nL]
          exact getN_append_self nR
        have hg2ni : getN N2 ni = nL := by
          rw [hN2, getN_setParents_not_mem hnidrop, hg1ni]
        have hg2new : getN N2 t.nodes.length = nR := by
          rw [hN2, getN_setParents_not_mem hnewdrop, hg1new]
        have hg2cp : getN N2 c.p = getN t.nodes c.p := by
          rw [hN2, getN_setParents_not_mem hcpdrop, hN1,
            getN_append_lt _ (by rw [length_setN]; exact hcp_lt),
            getN_setN_ne _ (Ne.symm hcp_ne_ni)]
        rw [hg2cp]
        have hfind : (getN t.nodes c.p).children.findIdx? (· = ni) =
            some c.ls.length := by
          rw [hcpchild', findIdx_append_self _ _ _ hni_lsroots, List.length_map]
        simp only [hfind]
        have hinslen : (insertAt (getN t.nodes c.p).keys c.ls.length
            ((getN t.nodes ni).keys.getD sp default)).length =
            (getN t.nodes c.p).keys.length + 1 :=
          insertAt_length_of_le _ _ _ (by omega)
        rw [hinslen]
        set pRec : TreeNode K V := ⟨insertAt (getN t.nodes c.p).keys c.ls.length
            ((getN t.nodes ni).keys.getD sp default),
          (getN t.nodes c.p).values,
          insertAt (getN t.nodes c.p).children (c.ls.length + 1) t.nodes.length,
          (getN t.nodes c.p).isLeaf,
          (getN t.nodes c.p).next,
          (getN t.nodes c.p).parent⟩ with hpRec
        set N3 := setN N2 c.p pRec with hN3
        set N4 := setN N3 t.nodes.length ⟨(getN N3 t.nodes.length).keys,
          (getN N3 t.nodes.length).values,
          (getN N3 t.nodes.length).children,
          (getN N3 t.nodes.length).isLeaf,
          (getN N3 t.nodes.length).next,
          some c.p⟩ with hN4
        have hlen3 : N3.length = t.nodes.length + 1 := by
          rw [hN3, length_setN, hlen2]
        have hlen4 : N4.length = t.nodes.length + 1 := by
          rw [hN4, length_setN, hlen3]
        have hg3new : getN N3 t.nodes.length = nR := by
          rw [hN3, getN_setN_ne _ (Nat.ne_of_lt hcp_lt), hg2new]
        refine ⟨N4, rfl, hlen4, ?_, ?_, ?_, ?_, ?_⟩
        · rw [hN4, getN_setN_ne _ (Nat.ne_of_gt hni_lt), hN3,
            getN_setN_ne _ hcp_ne_ni, hg2ni, hnL]
        · rw [hN4, getN_setN_self _ (by omega), hg3new, hnR]
        · rw [hN4, getN_setN_ne _ (Nat.ne_of_gt hcp_lt), hN3,
            getN_setN_self _ (by omega), hpRec]
        · intro r hr hrlt hrne hrnecp
          rw [hN4, getN_setN_ne _ (Nat.ne_of_gt hrlt), hN3,
            getN_setN_ne _ (Ne.symm hrnecp), hN2,
            getN_setParents_mem hr (by omega), hN1,
            getN_append_lt _ (by rw [length_setN]; exact hrlt),
            getN_setN_ne _ (Ne.symm hrne)]
        · intro j hj hjni hjcp hjdrop
          rw [hN4, getN_setN_ne _ (Nat.ne_of_gt hj), hN3,
            getN_setN_ne _ (Ne.symm hjcp), hN2,
            getN_setParents_not_mem hjdrop, hN1,
            getN_append_lt _ (by rw [length_setN]; exact hj),
            getN_setN_ne _ (Ne.symm hjni)]
      obtain ⟨N, heq, hNlen, hNni, hNnew, hNcp, hNdrop, hNother⟩ := hblock
      rw [heq]
      have hkeep : ∀ l, l < t.nodes.length →
          (getN N l).next = (getN t.nodes l).next ∧
          (getN N l).values = (getN t.nodes l).values := by
        intro l hl
        by_cases hlni : l = ni
        · rw [hlni, hNni]; exact ⟨rfl, rfl⟩
        by_cases hlcp : l = c.p
        · rw [hlcp, hNcp]; exact ⟨rfl, rfl⟩
        by_cases hmem : l ∈ List.drop (sp + 1) (getN t.nodes ni).children
        · rw [hNdrop l hmem hl hlni hlcp]; exact ⟨rfl, rfl⟩
        · rw [hNother l hl hlni hlcp hmem]; exact ⟨rfl, rfl⟩
      have hFitsL : Fits N (Skel.node ni (cs.take (sp + 1))) (h + 1) := by
        refine Fits.node (by omega) ?_ ?_ ?_ ?_ ?_ ?_
        · rw [hNni]; exact h2
        · rw [hNni]
          show List.take (sp + 1) (getN t.nodes ni).children = _
          rw [h3, List.map_take]
        · rw [hNni]
          show (List.take sp (getN t.nodes ni).keys).length + 1 = _
          rw [List.length_take, List.length_take]
          omega
        · rw [hNni]
          show 1 ≤ (List.take sp (getN t.nodes ni).keys).length
          rw [List.length_take]
          omega
        · intro d hd
          refine Fits_frame (hall d (List.mem_of_mem_take hd)) (by omega) ?_
          intro j hj
          have hjL := hsubL d hd j hj
          have hjM : j ∈ (cs.map Skel.idsOf).flatten := by
            rw [hMsplit]; exact List.mem_append.2 (Or.inl hjL)
          refine hNother j (hM_lt j hjM) ?_ ?_ ?_
          · intro hje; rw [hje] at hjM; exact hniM hjM
          · intro hje; rw [hje] at hjM; exact hcp_notM hjM
          · rw [hdropchild]
            intro hmem
            exact hLRdisj j hjL (mem_flatten_of_mem_roots hmem)
        · intro d hd
          have hjL := hsubL d hd _ (Skel.rootId_mem_idsOf d)
          have hjM : d.rootId ∈ (cs.map Skel.idsOf).flatten := by
            rw [hMsplit]; exact List.mem_append.2 (Or.inl hjL)
          rw [hNother _ (hM_lt _ hjM)
            (by intro hje; rw [hje] at hjM; exact hniM hjM)
            (by intro hje; rw [hje] at hjM; exact hcp_notM hjM)
            (by rw [hdropchild]; intro hmem; exact hLRdisj _ hjL (mem_flatten_of_mem_roots hmem))]
          exact hpar d (List.mem_of_mem_take hd)
      have hFitsR : Fits N (Skel.node t.nodes.length (cs.drop (sp + 1))) (h + 1) := by
        refine Fits.node (by omega) ?_ ?_ ?_ ?_ ?_ ?_
        · rw [hNnew]
        · rw [hNnew]
          show List.drop (sp + 1) (getN t.nodes ni).children = _
          exact hdropchild
        · rw [hNnew]
          show (List.drop (sp + 1) (getN t.nodes ni).keys).length + 1 = _
          rw [List.length_drop, List.length_drop]
          omega
        · rw [hNnew]
          show 1 ≤ (List.drop (sp + 1) (getN t.nodes ni).keys).length
          rw [List.length_drop]
          omega
        · intro d hd
          have hdnd : d.idsOf.Nodup := by
            refine List.Nodup.sublist ?_ hRnd
            exact List.sublist_flatten_of_mem (List.mem_map.2 ⟨d, hd, rfl⟩)
          refine Fits_frame2 (hall d (List.mem_of_mem_drop hd)) (by omega) hdnd ?_ ?_
          · intro j hj
            have hjR := hsubR d hd j hj
            have hjM : j ∈ (cs.map Skel.idsOf).flatten := by
              rw [hMsplit]; exact List.mem_append.2 (Or.inr hjR)
            have hjlt := hM_lt j hjM
            have hjni : j ≠ ni := by intro hje; rw [hje] at hjM; exact hniM hjM
            have hjcp : j ≠ c.p := by intro hje; rw [hje] at hjM; exact hcp_notM hjM
            by_cases hmem : j ∈ List.drop (sp + 1) (getN t.nodes ni).children
            · rw [hNdrop j hmem hjlt hjni hjcp]
              exact ⟨rfl, rfl, rfl, rfl⟩
            · rw [hNother j hjlt hjni hjcp hmem]
              exact ⟨rfl, rfl, rfl, rfl⟩
          · intro j hj hjroot
            have hjR := hsubR d hd j hj
            have hjM : j ∈ (cs.map Skel.idsOf).flatten := by
              rw [hMsplit]; exact List.mem_append.2 (Or.inr hjR)
            have hjlt := hM_lt j hjM
            have hjni : j ≠ ni := by intro hje; rw [hje] at hjM; exact hniM hjM
            have hjcp : j ≠ c.p := by intro hje; rw [hje] at hjM; exact hcp_notM hjM
            have hjdrop : j ∉ List.drop (sp + 1) (getN t.nodes ni).children := by
              rw [hdropchild]
              exact hnr d hd j hj hjroot
            rw [hNother j hjlt hjni hjcp hjdrop]
        · intro d hd
          have hroot_mem : d.rootId ∈ List.drop (sp + 1) (getN t.nodes ni).children := by
            rw [hdropchild]
            exact List.mem_map.2 ⟨d, hd, rfl⟩
          have hjR := hsubR d hd _ (Skel.rootId_mem_idsOf d)
          have hjM : d.rootId ∈ (cs.map Skel.idsOf).flatten := by
            rw [hMsplit]; exact List.mem_append.2 (Or.inr hjR)
          rw [hNdrop _ hroot_mem (hM_lt _ hjM)
            (by intro hje; rw [hje] at hjM; exact hniM hjM)
            (by intro hje; rw [hje] at hjM; exact hcp_notM hjM)]
      have hchildeq : insertAt (getN t.nodes c.p).children (c.ls.length + 1)
          t.nodes.length = c.ls.map Skel.rootId ++ ni :: t.nodes.length ::
            c.rs.map Skel.rootId := by
        rw [hcpchild', ← List.length_map c.ls Skel.rootId]
        exact insertAt_at_middle _ _ _ _
      have hz' : ZipOk { t with nodes := N } rest
          (Skel.node c.p (c.ls ++ Skel.node ni (cs.take (sp + 1)) ::
            Skel.node t.nodes.length (cs.drop (sp + 1)) :: c.rs)) (h + 1 + 1) := by
        refine ⟨?_, ?_, ?_, ?_, ?_, ?_⟩
        · show Fits N (Skel.node c.p (c.ls ++ Skel.node ni (cs.take (sp + 1)) ::
            Skel.node t.nodes.length (cs.drop (sp + 1)) :: c.rs)) (h + 1 + 1)
          refine Fits.node (by omega) ?_ ?_ ?_ ?_ ?_ ?_
          · show (getN N c.p).isLeaf = false
            rw [hNcp]
            exact hcpleaf
          · show (getN N c.p).children = _
            rw [hNcp]
            show insertAt (getN t.nodes c.p).children (c.ls.length + 1)
              t.nodes.length = _
            rw [hchildeq]
            simp [Skel.rootId]
          · show (getN N c.p).keys.length + 1 = _
            rw [hNcp]
            show (insertAt (getN t.nodes c.p).keys c.ls.length
              ((getN t.nodes ni).keys.getD sp default)).length + 1 = _
            rw [insertAt_length_of_le (getN t.nodes c.p).keys c.ls.length ((getN t.nodes ni).keys.getD sp default) (by omega)]
            simp only [List.length_append, List.length_cons]
            omega
          · show 1 ≤ (getN N c.p).keys.length
            rw [hNcp]
            show 1 ≤ (insertAt (getN t.nodes c.p).keys c.ls.length
              ((getN t.nodes ni).keys.getD sp default)).length
            rw [insertAt_length_of_le (getN t.nodes c.p).keys c.ls.length ((getN t.nodes ni).keys.getD sp default) (by omega)]
            omega
          · intro d hd
            rcases List.mem_append.1 hd with hd | hd
            · refine Fits_frame (hls d hd).1 (by omega) ?_
              intro j hj
              have hjQ : j ∈ (c.ls.map Skel.idsOf).flatten :=
                List.mem_flatten.2 ⟨d.idsOf, List.mem_map.2 ⟨d, hd, rfl⟩, hj⟩
              refine hNother j (hQ_lt j hjQ) ?_ ?_ ?_
              · intro hje; rw [hje] at hjQ; exact hni_Q hjQ
              · intro hje; rw [hje] at hjQ
                exact hcpnot (List.mem_append.2 (Or.inl hjQ))
              · rw [hdropchild]
                intro hmem
                exact hQ_M j hjQ (hdropsubM j hmem)
            · rcases List.mem_cons.1 hd with rfl | hd
              · exact hFitsL
              · rcases List.mem_cons.1 hd with rfl | hd
                · exact hFitsR
                · refine Fits_frame (hrs d hd).1 (by omega) ?_
                  intro j hj
                  have hjRr : j ∈ (c.rs.map Skel.idsOf).flatten :=
                    List.mem_flatten.2 ⟨d.idsOf, List.mem_map.2 ⟨d, hd, rfl⟩, hj⟩
                  refine hNother j (hRr_lt j hjRr) ?_ ?_ ?_
                  · intro hje; rw [hje] at hjRr; exact hni_Rr hjRr
                  · intro hje; rw [hje] at hjRr
                    exact hcpnot (List.mem_append.2 (Or.inr
                      (List.mem_cons_of_mem _ (List.mem_append.2 (Or.inr
                        (List.mem_append.2 (Or.inl hjRr)))))))
                  · rw [hdropchild]
                    intro hmem
                    exact hM_Rr _ (hdropsubM j hmem) hjRr
          · intro d hd
            rcases List.mem_append.1 hd with hd | hd
            · have hjQ : d.rootId ∈ (c.ls.map Skel.idsOf).flatten :=
                List.mem_flatten.2 ⟨d.idsOf, List.mem_map.2 ⟨d, hd, rfl⟩,
                  Skel.rootId_mem_idsOf d⟩
              rw [hNother _ (hQ_lt _ hjQ)
                (by intro hje; rw [hje] at hjQ; exact hni_Q hjQ)
                (by intro hje; rw [hje] at hjQ; exact hcpnot (List.mem_append.2 (Or.inl hjQ)))
                (by rw [hdropchild]; intro hmem; exact hQ_M _ hjQ (hdropsubM _ hmem))]
              exact (hls d hd).2
            · rcases List.mem_cons.1 hd with rfl | hd
              · show (getN N ni).parent = _
                rw [hNni]
              · rcases List.mem_cons.1 hd with rfl | hd
                · show (getN N t.nodes.length).parent = _
                  rw [hNnew]
                · have hjRr : d.rootId ∈ (c.rs.map Skel.idsOf).flatten :=
                    List.mem_flatten.2 ⟨d.idsOf, List.mem_map.2 ⟨d, hd, rfl⟩,
                      Skel.rootId_mem_idsOf d⟩
                  rw [hNother _ (hRr_lt _ hjRr)
                    (by intro hje; rw [hje] at hjRr; exact hni_Rr hjRr)
                    (by intro hje; rw [hje] at hjRr
                        exact hcpnot (List.mem_append.2 (Or.inr
                          (List.mem_cons_of_mem _ (List.mem_append.2 (Or.inr
                            (List.mem_append.2 (Or.inl hjRr))))))))
                    (by rw [hdropchild]; intro hmem; exact hM_Rr _ (hdropsubM _ hmem) hjRr)]
                  exact (hrs d hd).2
        · show CtxOk N rest (h + 1 + 1) _
          simp only [Skel.rootId]
          refine CtxOk_frame rest (h + 1 + 1) c.p hrest (by omega) ?_ ?_
          · intro j hj
            rcases List.mem_append.1 hj with hj | hj
            · obtain ⟨hj1, hj2, hj3⟩ := hP_facts j hj
              refine hNother j (hP_lt j hj) hj2 hj1 ?_
              rw [hdropchild]
              intro hmem
              exact hj3 (hdropsubM j hmem)
            · refine hNother j (hS_lt j hj) ?_ ?_ ?_
              · intro hje; rw [hje] at hj; exact hni_S hj
              · intro hje; rw [hje] at hj; exact hcp_S hj
              · rw [hdropchild]
                intro hmem
                exact hM_S _ (hdropsubM _ hmem) hj
          · rw [hNcp]
        · show ({ t with nodes := N } : BPlusTree K V).root = _
          simp only [Skel.rootId]
          exact hroot
        · show (getN N ({ t with nodes := N } : BPlusTree K V).root).parent = none
          have hrooteq : t.root = ctxRootId rest c.p := hroot
          cases hr0 : rest with
          | nil =>
            have : t.root = c.p := by rw [hrooteq, hr0]; rfl
            show (getN N t.root).parent = none
            rw [this, hNcp]
            show (getN t.nodes c.p).parent = none
            rw [← this]
            exact hrootpar
          | cons d rest' =>
            have hmem : t.root ∈ preIds rest := by
              rw [hrooteq]
              exact ctxRootId_mem_preIds rest c.p (by rw [hr0]; simp)
            obtain ⟨hj1, hj2, hj3⟩ := hP_facts _ hmem
            show (getN N t.root).parent = none
            rw [hNother _ (hP_lt _ hmem) hj2 hj1
              (by rw [hdropchild]; intro hm; exact hj3 (hdropsubM _ hm))]
            exact hrootpar
        · have heq1 : (plugSkel rest (Skel.node c.p (c.ls ++
              Skel.node ni (cs.take (sp + 1)) ::
              Skel.node t.nodes.length (cs.drop (sp + 1)) :: c.rs))).idsOf =
              (preIds rest ++ c.p :: ((c.ls.map Skel.idsOf).flatten ++
                ni :: ((cs.take (sp + 1)).map Skel.idsOf).flatten)) ++
              t.nodes.length :: (((cs.drop (sp + 1)).map Skel.idsOf).flatten ++
                ((c.rs.map Skel.idsOf).flatten ++ postIds rest)) := by
            rw [idsOf_plugSkel]
            simp only [Skel.idsOf_node, List.map_append, List.map_cons,
              List.flatten_append, List.flatten_cons, List.append_assoc,
              List.cons_append]
          have heq2 : (preIds rest ++ c.p :: ((c.ls.map Skel.idsOf).flatten ++
              ni :: ((cs.take (sp + 1)).map Skel.idsOf).flatten)) ++
              (((cs.drop (sp + 1)).map Skel.idsOf).flatten ++
                ((c.rs.map Skel.idsOf).flatten ++ postIds rest)) =
              preIds rest ++ c.p :: ((c.ls.map Skel.idsOf).flatten ++
                ni :: ((cs.map Skel.idsOf).flatten ++
                  ((c.rs.map Skel.idsOf).flatten ++ postIds rest))) := by
            rw [hMsplit]
            simp only [List.append_assoc, List.cons_append]
          rw [heq1]
          refine nodup_insert_of_fresh ?_ ?_
          · rw [heq2]
            exact hndC
          · intro hmem
            have hlt : t.nodes.length < t.nodes.length := by
              rw [heq2] at hmem
              rw [← hcanon] at hmem
              exact hplug_lt _ hmem
            omega
        · have hleq : (plugSkel rest (Skel.node c.p (c.ls ++
              Skel.node ni (cs.take (sp + 1)) ::
              Skel.node t.nodes.length (cs.drop (sp + 1)) :: c.rs))).leavesOf =
              (plugSkel (c :: rest) (Skel.node ni cs)).leavesOf := by
            rw [leavesOf_plugSkel, leavesOf_plugSkel]
            simp only [preLeaves, postLeaves, Skel.leavesOf_node,
              List.map_append, List.map_cons, List.flatten_append,
              List.flatten_cons, List.append_assoc, List.cons_append]
            rw [hLsplit]
            simp only [List.append_assoc]
          rw [hleq]
          have hleaves_sub : ∀ l ∈ (plugSkel (c :: rest) (Skel.node ni cs)).leavesOf,
              l < t.nodes.length := by
            intro l hl
            exact hplug_lt l (List.Sublist.mem hl
              (Skel.leavesOf_sublist_idsOf _))
          refine ChainOf_congr _ ?_ hchain
          intro l hl
          exact (hkeep l (hleaves_sub l hl)).1
      have hleq2 : (plugSkel rest (Skel.node c.p (c.ls ++
          Skel.node ni (cs.take (sp + 1)) ::
          Skel.node t.nodes.length (cs.drop (sp + 1)) :: c.rs))).leavesOf =
          (plugSkel (c :: rest) (Skel.node ni cs)).leavesOf := by
        rw [leavesOf_plugSkel, leavesOf_plugSkel]
        simp only [preLeaves, postLeaves, Skel.leavesOf_node,
          List.map_append, List.map_cons, List.flatten_append,
          List.flatten_cons, List.append_assoc, List.cons_append]
        rw [hLsplit]
        simp only [List.append_assoc]
      have hleaves_sub : ∀ l ∈ (plugSkel (c :: rest) (Skel.node ni cs)).leavesOf,
          l < t.nodes.length := by
        intro l hl
        exact hplug_lt l (List.Sublist.mem hl (Skel.leavesOf_sublist_idsOf _))
      by_cases hovf : (getN t.nodes c.p).keys.length + 1 > t.order - 1
      · rw [if_pos hovf]
        have hK' : 3 ≤ (getN ({ t with nodes := N } : BPlusTree K V).nodes c.p).keys.length := by
          show 3 ≤ (getN N c.p).keys.length
          rw [hNcp]
          show 3 ≤ (insertAt (getN t.nodes c.p).keys c.ls.length
            ((getN t.nodes ni).keys.getD sp default)).length
          rw [insertAt_length_of_le (getN t.nodes c.p).keys c.ls.length ((getN t.nodes ni).keys.getD sp default) (by omega)]
          omega
        obtain ⟨s', h', hg, hlv, hvals, hcnt, hord, hmin⟩ :=
          ih { t with nodes := N } rest c.p _ (h + 1) hz' horder hK'
            (by simp only [List.length_cons] at hfuel; omega)
        refine ⟨s', h', hg, ?_, ?_, ?_, ?_, ?_⟩
        · rw [hlv, hleq2]
        · intro l hl
          rw [hvals l hl]
          show (getN N l).values = _
          rw [hlv, hleq2] at hl
          exact (hkeep l (hleaves_sub l hl)).2
        · rw [hcnt]
        · rw [hord]
        · rw [hmin]
      · rw [if_neg hovf]
        refine ⟨plugSkel rest (Skel.node c.p (c.ls ++
            Skel.node ni (cs.take (sp + 1)) ::
            Skel.node t.nodes.length (cs.drop (sp + 1)) :: c.rs)),
          h + 1 + 1 + rest.length, ZipOk_goodTree hz' horder, hleq2, ?_, rfl, rfl, rfl⟩
        intro l hl
        rw [hleq2] at hl
        exact (hkeep l (hleaves_sub l hl)).2

theorem entriesTotal_congr_len {nodes nodes' : List (TreeNode K V)} (L : List Nat)
    (hsame : ∀ l ∈ L, (getN nodes' l).values.length = (getN nodes l).values.length) :
    entriesTotal nodes' L = entriesTotal nodes L := by
  unfold entriesTotal
  congr 1
  exact List.map_congr_left (fun l hl => by rw [hsame l hl])

theorem entriesTotal_single (nodes : List (TreeNode K V)) (x : Nat) :
    entriesTotal nodes [x] = (getN nodes x).values.length := by
  simp [entriesTotal]

theorem leaves_flatten_sublist :
    ∀ (L : List Skel), List.Sublist ((L.map Skel.leavesOf).flatten)
      ((L.map Skel.idsOf).flatten) := by
  intro L
  induction L with
  | nil => simp
  | cons a L' ih =>
    simp only [List.map_cons, List.flatten_cons]
    exact List.Sublist.append (Skel.leavesOf_sublist_idsOf a) ih

theorem preLeaves_sublist_preIds :
    ∀ (crumbs : List Crumb), List.Sublist (preLeaves crumbs) (preIds crumbs) := by
  intro crumbs
  induction crumbs with
  | nil => simp [preLeaves, preIds]
  | cons c rest ih =>
    show List.Sublist (preLeaves rest ++ (c.ls.map Skel.leavesOf).flatten)
      (preIds rest ++ c.p :: (c.ls.map Skel.idsOf).flatten)
    exact List.Sublist.append ih (List.Sublist.cons _ (leaves_flatten_sublist c.ls))

theorem postLeaves_sublist_postIds :
    ∀ (crumbs : List Crumb), List.Sublist (postLeaves crumbs) (postIds crumbs) := by
  intro crumbs
  induction crumbs with
  | nil => simp [postLeaves, postIds]
  | cons c rest ih =>
    show List.Sublist ((c.rs.map Skel.leavesOf).flatten ++ postLeaves rest)
      ((c.rs.map Skel.idsOf).flatten ++ postIds rest)
    exact List.Sublist.append (leaves_flatten_sublist c.rs) ih

theorem entriesTotal_cons (nodes : List (TreeNode K V)) (x : Nat) (L : List Nat) :
    entriesTotal nodes (x :: L) = (getN nodes x).values.length + entriesTotal nodes L := by
  simp [entriesTotal]

theorem entriesTotal_one_mid (nodes : List (TreeNode K V)) (A : List Nat)
    (x : Nat) (B : List Nat) :
    entriesTotal nodes (A ++ x :: B) = entriesTotal nodes A +
      ((getN nodes x).values.length + entriesTotal nodes B) := by
  rw [entriesTotal_append, entriesTotal_cons]

theorem entriesTotal_two_mid (nodes : List (TreeNode K V)) (A : List Nat)
    (x y : Nat) (B : List Nat) :
    entriesTotal nodes (A ++ x :: y :: B) = entriesTotal nodes A +
      ((getN nodes x).values.length + ((getN nodes y).values.length +
        entriesTotal nodes B)) := by
  rw [entriesTotal_append, entriesTotal_cons, entriesTotal_cons]

theorem splitLeaf_ok {cmp : K → K → Int} [Inhabited K] :
    ∀ (fuel : Nat) (t : BPlusTree K V) (crumbs : List Crumb) (li : Nat),
      ZipOk t crumbs (.leaf li) 1 →
      3 ≤ t.order →
      crumbs.length ≤ fuel →
      ∃ (s' : Skel) (h' : Nat),
        GoodTree (splitLeafNode cmp fuel t li) s' h' ∧
        entriesTotal (splitLeafNode cmp fuel t li).nodes s'.leavesOf =
          entriesTotal t.nodes (plugSkel crumbs (.leaf li)).leavesOf ∧
        (splitLeafNode cmp fuel t li).count = t.count ∧
        (splitLeafNode cmp fuel t li).order = t.order ∧
        (splitLeafNode cmp fuel t li).minKeys = t.minKeys := by
  intro fuel t crumbs li hz horder hfuel
  obtain ⟨hf, hctx, hroot, hrootpar, hnd, hchain⟩ := hz
  have hf0 := hf
  cases hf with
  | leaf h1 h2 h3 h4 =>
  obtain ⟨sp, hsp⟩ : ∃ x, (getN t.nodes li).keys.length / 2 = x := ⟨_, rfl⟩
  have hli_lt : li < t.nodes.length := h1
  have hplugfits := Fits_plugSkel crumbs _ 1 hctx hf0
  have hplug_lt : ∀ j ∈ (plugSkel crumbs (Skel.leaf li)).idsOf,
      j < t.nodes.length := hplugfits.ids_lt
  have hids_expand := idsOf_plugSkel crumbs (Skel.leaf li)
  cases crumbs with
  | nil =>
    have hrootli : t.root = li := hroot
    have hparEq : (getN t.nodes li).parent = none := by
      rw [← hrootli]; exact hrootpar
    have hnext0 : (getN t.nodes li).next = none := by
      have := hchain
      simp only [plugSkel, Skel.leavesOf_leaf] at this
      exact this
    have hblock : ∃ N : List (TreeNode K V),
        splitLeafNode cmp fuel t li =
          { t with nodes := N, root := t.nodes.length + 1 } ∧
        N.length = t.nodes.length + 2 ∧
        getN N li = ⟨List.take sp (getN t.nodes li).keys,
          List.take sp (getN t.nodes li).values,
          (getN t.nodes li).children,
          (getN t.nodes li).isLeaf,
          some t.nodes.length,
          some (t.nodes.length + 1)⟩ ∧
        getN N t.nodes.length = ⟨List.drop sp (getN t.nodes li).keys,
          List.drop sp (getN t.nodes li).values,
          [], true, (getN t.nodes li).next,
          some (t.nodes.length + 1)⟩ ∧
        getN N (t.nodes.length + 1) =
          ⟨[(List.drop sp (getN t.nodes li).keys).headD default],
            [], [li, t.nodes.length],
            false, none, none⟩ ∧
        (∀ j : Nat, j < t.nodes.length → j ≠ li →
          getN N j = getN t.nodes j) := by
      simp only [splitLeafNode, hparEq]
      rw [hsp]
      set nL : TreeNode K V := ⟨List.take sp (getN t.nodes li).keys,
        List.take sp (getN t.nodes li).values,
        (getN t.nodes li).children,
        (getN t.nodes li).isLeaf,
        some t.nodes.length,
        none⟩ with hnL
      set nR : TreeNode K V := ⟨List.drop sp (getN t.nodes li).keys,
        List.drop sp (getN t.nodes li).values,
        ([] : List Nat), true, (getN t.nodes li).next, none⟩ with hnR
      set N1 := setN t.nodes li nL ++ [nR] with hN1
      set rootRec : TreeNode K V :=
        ⟨[(List.drop sp (getN t.nodes li).keys).headD default],
          ([] : List (KeyValue K V)),
          [li, t.nodes.length],
          false, none, none⟩ with hRR
      set N2 := N1 ++ [rootRec] with hN2
      set N3 := setN N2 li ⟨(getN N2 li).keys,
        (getN N2 li).values, (getN N2 li).children,
        (getN N2 li).isLeaf, (getN N2 li).next,
        some N1.length⟩ with hN3
      set N4 := setN N3 t.nodes.length ⟨(getN N3 t.nodes.length).keys,
        (getN N3 t.nodes.length).values,
        (getN N3 t.nodes.length).children,
        (getN N3 t.nodes.length).isLeaf,
        (getN N3 t.nodes.length).next,
        some N1.length⟩ with hN4
      have hlen1 : N1.length = t.nodes.length + 1 := by
        rw [hN1, List.length_append, length_setN]; rfl
      have hlen2 : N2.length = t.nodes.length + 2 := by
        rw [hN2, List.length_append, hlen1]; rfl
      have hlen3 : N3.length = t.nodes.length + 2 := by
        rw [hN3, length_setN, hlen2]
      have hlen4 : N4.length = t.nodes.length + 2 := by
        rw [hN4, length_setN, hlen3]
      have hg1li : getN N1 li = nL := by
        rw [hN1, getN_append_lt _ (by rw [length_setN]; exact hli_lt),
          getN_setN_self _ hli_lt]
      have hg1new : getN N1 t.nodes.length = nR := by
        rw [hN1, ← length_setN t.nodes li nL]
        exact getN_append_self nR
      have hg2li : getN N2 li = nL := by
        rw [hN2, getN_append_lt _ (by omega), hg1li]
      have hg2new : getN N2 t.nodes.length = nR := by
        rw [hN2, getN_append_lt _ (by omega), hg1new]
      rw [hlen1]
      refine ⟨N4, rfl, hlen4, ?_, ?_, ?_, ?_⟩
      · rw [hN4, getN_setN_ne _ (Nat.ne_of_gt hli_lt), hN3,
          getN_setN_self _ (by omega), hg2li, hlen1, hnL]
      · rw [hN4, getN_setN_self _ (by omega), hN3,
          getN_setN_ne _ (Nat.ne_of_lt hli_lt), hg2new, hlen1, hnR]
      · rw [hN4, getN_setN_ne _ (by omega), hN3, getN_setN_ne _ (by omega),
          hN2, ← hlen1]
        rw [getN_append_self, hRR]
      · intro j hj hjli
        rw [hN4, getN_setN_ne _ (Nat.ne_of_gt hj), hN3,
          getN_setN_ne _ (Ne.symm hjli), hN2, getN_append_lt _ (by omega),
          hN1, getN_append_lt _ (by rw [length_setN]; exact hj),
          getN_setN_ne _ (Ne.symm hjli)]
    obtain ⟨N, heq, hNlen, hNli, hNnew, hNroot, hNother⟩ := hblock
    rw [heq]
    refine ⟨Skel.node (t.nodes.length + 1)
      [Skel.leaf li, Skel.leaf t.nodes.length], 2, ?_, ?_, rfl, rfl, rfl⟩
    · refine ⟨?_, rfl, ?_, ?_, ?_, by exact horder⟩
      · show Fits N (Skel.node (t.nodes.length + 1)
          [Skel.leaf li, Skel.leaf t.nodes.length]) 2
        refine Fits.node (by omega) ?_ ?_ ?_ ?_ ?_ ?_
        · show (getN N (t.nodes.length + 1)).isLeaf = false
          rw [hNroot]
        · show (getN N (t.nodes.length + 1)).children = _
          rw [hNroot]
          rfl
        · show (getN N (t.nodes.length + 1)).keys.length + 1 = 2
          rw [hNroot]
          rfl
        · show 1 ≤ (getN N (t.nodes.length + 1)).keys.length
          rw [hNroot]
          rfl
        · intro d hd
          rcases List.mem_cons.1 hd with rfl | hd
          · refine Fits.leaf (by omega) ?_ ?_ ?_
            · show (getN N li).isLeaf = true
              rw [hNli]
              exact h2
            · show (getN N li).children = []
              rw [hNli]
              exact h3
            · show (getN N li).values.length = (getN N li).keys.length
              rw [hNli]
              show (List.take sp (getN t.nodes li).values).length =
                (List.take sp (getN t.nodes li).keys).length
              rw [List.length_take, List.length_take, h4]
          · rcases List.mem_cons.1 hd with rfl | hd
            · refine Fits.leaf (by omega) ?_ ?_ ?_
              · show (getN N t.nodes.length).isLeaf = true
                rw [hNnew]
              · show (getN N t.nodes.length).children = []
                rw [hNnew]
              · show (getN N t.nodes.length).values.length =
                  (getN N t.nodes.length).keys.length
                rw [hNnew]
                show (List.drop sp (getN t.nodes li).values).length =
                  (List.drop sp (getN t.nodes li).keys).length
                rw [List.length_drop, List.length_drop, h4]
            · simp at hd
        · intro d hd
          rcases List.mem_cons.1 hd with rfl | hd
          · show (getN N li).parent = _
            rw [hNli]
          · rcases List.mem_cons.1 hd with rfl | hd
            · show (getN N t.nodes.length).parent = _
              rw [hNnew]
            · simp at hd
      · show (getN N (t.nodes.length + 1)).parent = none
        rw [hNroot]
      · rw [Skel.idsOf_node]
        simp only [List.map_cons, List.map_nil, List.flatten_cons,
          List.flatten_nil, List.append_nil, Skel.idsOf_leaf,
          List.cons_append, List.nil_append]
        refine List.nodup_cons.2 ⟨?_, ?_⟩
        · intro hmem
          rcases List.mem_cons.1 hmem with hje | hmem
          · omega
          · rcases List.mem_cons.1 hmem with hje | hmem
            · omega
            · simp at hmem
        · refine List.nodup_cons.2 ⟨?_, ?_⟩
          · intro hmem
            rcases List.mem_cons.1 hmem with hje | hmem
            · omega
            · simp at hmem
          · exact List.nodup_singleton _
      · show ChainOf N _
        rw [Skel.leavesOf_node]
        simp only [List.map_cons, List.map_nil, List.flatten_cons,
          List.flatten_nil, List.append_nil, Skel.leavesOf_leaf,
          List.cons_append, List.nil_append]
        refine ⟨?_, ?_⟩
        · show (getN N li).next = some t.nodes.length
          rw [hNli]
        · show (getN N t.nodes.length).next = none
          rw [hNnew]
          exact hnext0
    · rw [Skel.leavesOf_node]
      simp only [plugSkel, List.map_cons, List.map_nil, List.flatten_cons,
        List.flatten_nil, List.append_nil, Skel.leavesOf_leaf,
        List.cons_append, List.nil_append]
      show entriesTotal N [li, t.nodes.length] = entriesTotal t.nodes [li]
      rw [entriesTotal_cons, entriesTotal_cons, entriesTotal_cons, hNli, hNnew]
      show (List.take sp (getN t.nodes li).values).length +
        ((List.drop sp (getN t.nodes li).values).length + entriesTotal N []) =
        (getN t.nodes li).values.length + entriesTotal t.nodes []
      simp only [entriesTotal, List.map_nil, List.sum_nil]
      rw [List.length_take, List.length_drop]
      omega
  | cons c rest =>
    have hctx0 := hctx
    obtain ⟨hcp_lt, hcpleaf, hcpchild, hcpklen, hcpkpos, hparx, hls, hrs, hrest⟩ := hctx
    have hcpchild' : (getN t.nodes c.p).children =
        c.ls.map Skel.rootId ++ li :: c.rs.map Skel.rootId := by
      simpa [Skel.rootId] using hcpchild
    have hparEq : (getN t.nodes li).parent = some c.p := by
      simpa [Skel.rootId] using hparx
    have hcanon : (plugSkel (c :: rest) (Skel.leaf li)).idsOf =
        preIds rest ++ c.p :: ((c.ls.map Skel.idsOf).flatten ++
          li :: ((c.rs.map Skel.idsOf).flatten ++ postIds rest)) := by
      rw [hids_expand]
      simp only [preIds, postIds, Skel.idsOf_leaf, List.append_assoc,
        List.cons_append, List.singleton_append, List.nil_append]
    have hndC : (preIds rest ++ c.p :: ((c.ls.map Skel.idsOf).flatten ++
        li :: ((c.rs.map Skel.idsOf).flatten ++ postIds rest))).Nodup := by
      rw [← hcanon]
      exact hnd
    obtain ⟨hndP, hndT1, hdisjP⟩ := List.nodup_append.1 hndC
    obtain ⟨hcpnot, hndT2⟩ := List.nodup_cons.1 hndT1
    obtain ⟨hndQ, hndT3, hdisjQ⟩ := List.nodup_append.1 hndT2
    obtain ⟨hlinot, hndT4⟩ := List.nodup_cons.1 hndT3
    have hcp_ne_li : c.p ≠ li := by
      intro he
      exact hcpnot (List.mem_append.2 (Or.inr (by rw [he]; exact List.mem_cons_self _ _)))
    have hli_Q : li ∉ (c.ls.map Skel.idsOf).flatten := by
      intro hm
      exact hdisjQ hm (List.mem_cons_self _ _)
    have hli_Rr : li ∉ (c.rs.map Skel.idsOf).flatten := by
      intro hm
      exact hlinot (List.mem_append.2 (Or.inl hm))
    have hli_S : li ∉ postIds rest := by
      intro hm
      exact hlinot (List.mem_append.2 (Or.inr hm))
    have hcp_Q : c.p ∉ (c.ls.map Skel.idsOf).flatten := by
      intro hm
      exact hcpnot (List.mem_append.2 (Or.inl hm))
    have hcp_Rr : c.p ∉ (c.rs.map Skel.idsOf).flatten := by
      intro hm
      exact hcpnot (List.mem_append.2 (Or.inr (List.mem_cons_of_mem _
        (List.mem_append.2 (Or.inl hm)))))
    have hcp_S : c.p ∉ postIds rest := by
      intro hm
      exact hcpnot (List.mem_append.2 (Or.inr (List.mem_cons_of_mem _
        (List.mem_append.2 (Or.inr hm)))))
    have hP_facts : ∀ p ∈ preIds rest, p ≠ c.p ∧ p ≠ li := by
      intro p hp
      refine ⟨?_, ?_⟩
      · intro he
        exact hdisjP hp (by rw [he]; exact List.mem_cons_self _ _)
      · intro he
        exact hdisjP hp (by
          rw [he]
          exact List.mem_cons_of_mem _ (List.mem_append.2
            (Or.inr (List.mem_cons_self _ _))))
    have hPS_lt : ∀ j ∈ preIds (c :: rest) ++ postIds (c :: rest),
        j < t.nodes.length := ctx_ids_lt (c :: rest) 1 _ hctx0
    have hP_lt : ∀ j ∈ preIds rest, j < t.nodes.length := by
      intro j hj
      refine hPS_lt j (List.mem_append.2 (Or.inl ?_))
      simp only [preIds]
      exact List.mem_append.2 (Or.inl hj)
    have hS_lt : ∀ j ∈ postIds rest, j < t.nodes.length := by
      intro j hj
      refine hPS_lt j (List.mem_append.2 (Or.inr ?_))
      simp only [postIds]
      exact List.mem_append.2 (Or.inr hj)
    have hQ_lt : ∀ j ∈ (c.ls.map Skel.idsOf).flatten, j < t.nodes.length := by
      intro j hj
      refine hPS_lt j (List.mem_append.2 (Or.inl ?_))
      simp only [preIds]
      exact List.mem_append.2 (Or.inr (List.mem_cons_of_mem _ hj))
    have hRr_lt : ∀ j ∈ (c.rs.map Skel.idsOf).flatten, j < t.nodes.length := by
      intro j hj
      refine hPS_lt j (List.mem_append.2 (Or.inr ?_))
      simp only [postIds]
      exact List.mem_append.2 (Or.inl hj)
    have hli_lsroots : li ∉ c.ls.map Skel.rootId := by
      intro hm
      exact hli_Q (mem_flatten_of_mem_roots hm)
    have hblock : ∃ N : List (TreeNode K V),
        splitLeafNode cmp fuel t li =
          (if (getN t.nodes c.p).keys.length + 1 > t.order - 1
            then splitInternalNode cmp fuel { t with nodes := N } c.p
            else { t with nodes := N }) ∧
        N.length = t.nodes.length + 1 ∧
        getN N li = ⟨List.take sp (getN t.nodes li).keys,
          List.take sp (getN t.nodes li).values,
          (getN t.nodes li).children,
          (getN t.nodes li).isLeaf,
          some t.nodes.length,
          some c.p⟩ ∧
        getN N t.nodes.length = ⟨List.drop sp (getN t.nodes li).keys,
          List.drop sp (getN t.nodes li).values,
          [], true, (getN t.nodes li).next, some c.p⟩ ∧
        getN N c.p = ⟨insertAt (getN t.nodes c.p).keys c.ls.length
            ((List.drop sp (getN t.nodes li).keys).headD default),
          (getN t.nodes c.p).values,
          insertAt (getN t.nodes c.p).children (c.ls.length + 1) t.nodes.length,
          (getN t.nodes c.p).isLeaf,
          (getN t.nodes c.p).next,
          (getN t.nodes c.p).parent⟩ ∧
        (∀ j : Nat, j < t.nodes.length → j ≠ li → j ≠ c.p →
          getN N j = getN t.nodes j) := by
      simp only [splitLeafNode, hparEq]
      rw [hsp]
      set nL : TreeNode K V := ⟨List.take sp (getN t.nodes li).keys,
        List.take sp (getN t.nodes li).values,
        (getN t.nodes li).children,
        (getN t.nodes li).isLeaf,
        some t.nodes.length,
        some c.p⟩ with hnL
      set nR : TreeNode K V := ⟨List.drop sp (getN t.nodes li).keys,
        List.drop sp (getN t.nodes li).values,
        ([] : List Nat), true, (getN t.nodes li).next, some c.p⟩ with hnR
      set N1 := setN t.nodes li nL ++ [nR] with hN1
      have hlen1 : N1.length = t.nodes.length + 1 := by
        rw [hN1, List.length_append, length_setN]; rfl
      have hg1li : getN N1 li = nL := by
        rw [hN1, getN_append_lt _ (by rw [length_setN]; exact hli_lt),
          getN_setN_self _ hli_lt]
      have hg1new : getN N1 t.nodes.length = nR := by
        rw [hN1, ← length_setN t.nodes li nL]
        exact getN_append_self nR
      have hg1cp : getN N1 c.p = getN t.nodes c.p := by
        rw [hN1, getN_append_lt _ (by rw [length_setN]; exact hcp_lt),
          getN_setN_ne _ (Ne.symm hcp_ne_li)]
      rw [hg1cp]
      have hfind : (getN t.nodes c.p).children.findIdx? (· = li) =
          some c.ls.length := by
        rw [hcpchild', findIdx_append_self _ _ _ hli_lsroots, List.length_map]
      simp only [hfind]
      have hinslen : (insertAt (getN t.nodes c.p).keys c.ls.length
          ((List.drop sp (getN t.nodes li).keys).headD default)).length =
          (getN t.nodes c.p).keys.length + 1 :=
        insertAt_length_of_le _ _ _ (by omega)
      rw [hinslen]
      set pRec : TreeNode K V := ⟨insertAt (getN t.nodes c.p).keys c.ls.length
          ((List.drop sp (getN t.nodes li).keys).headD default),
        (getN t.nodes c.p).values,
        insertAt (getN t.nodes c.p).children (c.ls.length + 1) t.nodes.length,
        (getN t.nodes c.p).isLeaf,
        (getN t.nodes c.p).next,
        (getN t.nodes c.p).parent⟩ with hpRec
      set N2 := setN N1 c.p pRec with hN2
      set N3 := setN N2 t.nodes.length ⟨(getN N2 t.nodes.length).keys,
        (getN N2 t.nodes.length).values,
        (getN N2 t.nodes.length).children,
        (getN N2 t.nodes.length).isLeaf,
        (getN N2 t.nodes.length).next,
        some c.p⟩ with hN3
      have hlen2 : N2.length = t.nodes.length + 1 := by
        rw [hN2, length_setN, hlen1]
      have hlen3 : N3.length = t.nodes.length + 1 := by
        rw [hN3, length_setN, hlen2]
      have hg2new : getN N2 t.nodes.length = nR := by
        rw [hN2, getN_setN_ne _ (Nat.ne_of_lt hcp_lt), hg1new]
      refine ⟨N3, rfl, hlen3, ?_, ?_, ?_, ?_⟩
      · rw [hN3, getN_setN_ne _ (Nat.ne_of_gt hli_lt), hN2,
          getN_setN_ne _ hcp_ne_li, hg1li, hnL]
      · rw [hN3, getN_setN_self _ (by omega), hg2new, hnR]
      · rw [hN3, getN_setN_ne _ (Nat.ne_of_gt hcp_lt), hN2,
          getN_setN_self _ (by omega), hpRec]
      · intro j hj hjli hjcp
        rw [hN3, getN_setN_ne _ (Nat.ne_of_gt hj), hN2,
          getN_setN_ne _ (Ne.symm hjcp), hN1,
          getN_append_lt _ (by rw [length_setN]; exact hj),
          getN_setN_ne _ (Ne.symm hjli)]
    obtain ⟨N, heq, hNlen, hNli, hNnew, hNcp, hNother⟩ := hblock
    rw [heq]
    have hcpkeyslen : (getN t.nodes c.p).keys.length = c.ls.length + c.rs.length := by
      omega
    have hkeep : ∀ l, l < t.nodes.length → l ≠ li →
        (getN N l).next = (getN t.nodes l).next ∧
        (getN N l).values = (getN t.nodes l).values := by
      intro l hl hlli
      by_cases hlcp : l = c.p
      · rw [hlcp, hNcp]; exact ⟨rfl, rfl⟩
      · rw [hNother l hl hlli hlcp]; exact ⟨rfl, rfl⟩
    have hchildeq : insertAt (getN t.nodes c.p).children (c.ls.length + 1)
        t.nodes.length = c.ls.map Skel.rootId ++ li :: t.nodes.length ::
          c.rs.map Skel.rootId := by
      rw [hcpchild', ← List.length_map c.ls Skel.rootId]
      exact insertAt_at_middle _ _ _ _
    have hfitsli : Fits N (Skel.leaf li) 1 := by
      refine Fits.leaf (by omega) ?_ ?_ ?_
      · show (getN N li).isLeaf = true
        rw [hNli]
        exact h2
      · show (getN N li).children = []
        rw [hNli]
        exact h3
      · show (getN N li).values.length = (getN N li).keys.length
        rw [hNli]
        show (List.take sp (getN t.nodes li).values).length =
          (List.take sp (getN t.nodes li).keys).length
        rw [List.length_take, List.length_take, h4]
    have hfitsnew : Fits N (Skel.leaf t.nodes.length) 1 := by
      refine Fits.leaf (by omega) ?_ ?_ ?_
      · show (getN N t.nodes.length).isLeaf = true
        rw [hNnew]
      · show (getN N t.nodes.length).children = []
        rw [hNnew]
      · show (getN N t.nodes.length).values.length =
          (getN N t.nodes.length).keys.length
        rw [hNnew]
        show (List.drop sp (getN t.nodes li).values).length =
          (List.drop sp (getN t.nodes li).keys).length
        rw [List.length_drop, List.length_drop, h4]
    have hAfacts : ∀ l ∈ preLeaves rest ++ (c.ls.map Skel.leavesOf).flatten,
        l < t.nodes.length ∧ l ≠ li := by
      intro l hl
      rcases List.mem_append.1 hl with hl | hl
      · have hlP : l ∈ preIds rest :=
          List.Sublist.mem hl (preLeaves_sublist_preIds rest)
        exact ⟨hP_lt l hlP, (hP_facts l hlP).2⟩
      · have hlQ : l ∈ (c.ls.map Skel.idsOf).flatten :=
          List.Sublist.mem hl (leaves_flatten_sublist c.ls)
        refine ⟨hQ_lt l hlQ, ?_⟩
        intro he; rw [he] at hlQ; exact hli_Q hlQ
    have hBfacts : ∀ l ∈ (c.rs.map Skel.leavesOf).flatten ++ postLeaves rest,
        l < t.nodes.length ∧ l ≠ li := by
      intro l hl
      rcases List.mem_append.1 hl with hl | hl
      · have hlRr : l ∈ (c.rs.map Skel.idsOf).flatten :=
          List.Sublist.mem hl (leaves_flatten_sublist c.rs)
        refine ⟨hRr_lt l hlRr, ?_⟩
        intro he; rw [he] at hlRr; exact hli_Rr hlRr
      · have hlS : l ∈ postIds rest :=
          List.Sublist.mem hl (postLeaves_sublist_postIds rest)
        refine ⟨hS_lt l hlS, ?_⟩
        intro he; rw [he] at hlS; exact hli_S hlS
    have hleqold : (plugSkel (c :: rest) (Skel.leaf li)).leavesOf =
        (preLeaves rest ++ (c.ls.map Skel.leavesOf).flatten) ++
          li :: ((c.rs.map Skel.leavesOf).flatten ++ postLeaves rest) := by
      rw [leavesOf_plugSkel]
      simp only [preLeaves, postLeaves, Skel.leavesOf_leaf,
        List.append_assoc, List.cons_append, List.singleton_append,
        List.nil_append]
    have hleqnew : (plugSkel rest (Skel.node c.p (c.ls ++ Skel.leaf li ::
        Skel.leaf t.nodes.length :: c.rs))).leavesOf =
        (preLeaves rest ++ (c.ls.map Skel.leavesOf).flatten) ++
          li :: t.nodes.length ::
          ((c.rs.map Skel.leavesOf).flatten ++ postLeaves rest) := by
      rw [leavesOf_plugSkel]
      simp only [Skel.leavesOf_node, Skel.leavesOf_leaf, List.map_append,
        List.map_cons, List.flatten_append, List.flatten_cons,
        List.append_assoc, List.cons_append, List.singleton_append,
        List.nil_append]
    have hz' : ZipOk { t with nodes := N } rest
        (Skel.node c.p (c.ls ++ Skel.leaf li ::
          Skel.leaf t.nodes.length :: c.rs)) (1 + 1) := by
      refine ⟨?_, ?_, ?_, ?_, ?_, ?_⟩
      · show Fits N (Skel.node c.p (c.ls ++ Skel.leaf li ::
          Skel.leaf t.nodes.length :: c.rs)) (1 + 1)
        refine Fits.node (by omega) ?_ ?_ ?_ ?_ ?_ ?_
        · show (getN N c.p).isLeaf = false
          rw [hNcp]
          exact hcpleaf
        · show (getN N c.p).children = _
          rw [hNcp]
          show insertAt (getN t.nodes c.p).children (c.ls.length + 1)
            t.nodes.length = _
          rw [hchildeq]
          simp [Skel.rootId]
        · show (getN N c.p).keys.length + 1 = _
          rw [hNcp]
          show (insertAt (getN t.nodes c.p).keys c.ls.length
            ((List.drop sp (getN t.nodes li).keys).headD default)).length + 1 = _
          rw [insertAt_length_of_le (getN t.nodes c.p).keys c.ls.length ((List.drop sp (getN t.nodes li).keys).headD default) (by omega)]
          simp only [List.length_append, List.length_cons]
          omega
        · show 1 ≤ (getN N c.p).keys.length
          rw [hNcp]
          show 1 ≤ (insertAt (getN t.nodes c.p).keys c.ls.length
            ((List.drop sp (getN t.nodes li).keys).headD default)).length
          rw [insertAt_length_of_le (getN t.nodes c.p).keys c.ls.length ((List.drop sp (getN t.nodes li).keys).headD default) (by omega)]
          omega
        · intro d hd
          rcases List.mem_append.1 hd with hd | hd
          · refine Fits_frame (hls d hd).1 (by omega) ?_
            intro j hj
            have hjQ : j ∈ (c.ls.map Skel.idsOf).flatten :=
              List.mem_flatten.2 ⟨d.idsOf, List.mem_map.2 ⟨d, hd, rfl⟩, hj⟩
            refine hNother j (hQ_lt j hjQ) ?_ ?_
            · intro hje; rw [hje] at hjQ; exact hli_Q hjQ
            · intro hje; rw [hje] at hjQ; exact hcp_Q hjQ
          · rcases List.mem_cons.1 hd with rfl | hd
            · exact hfitsli
            · rcases List.mem_cons.1 hd with rfl | hd
              · exact hfitsnew
              · refine Fits_frame (hrs d hd).1 (by omega) ?_
                intro j hj
                have hjRr : j ∈ (c.rs.map Skel.idsOf).flatten :=
                  List.mem_flatten.2 ⟨d.idsOf, List.mem_map.2 ⟨d, hd, rfl⟩, hj⟩
                refine hNother j (hRr_lt j hjRr) ?_ ?_
                · intro hje; rw [hje] at hjRr; exact hli_Rr hjRr
                · intro hje; rw [hje] at hjRr; exact hcp_Rr hjRr
        · intro d hd
          rcases List.mem_append.1 hd with hd | hd
          · have hjQ : d.rootId ∈ (c.ls.map Skel.idsOf).flatten :=
              List.mem_flatten.2 ⟨d.idsOf, List.mem_map.2 ⟨d, hd, rfl⟩,
                Skel.rootId_mem_idsOf d⟩
            rw [hNother _ (hQ_lt _ hjQ)
              (by intro hje; rw [hje] at hjQ; exact hli_Q hjQ)
              (by intro hje; rw [hje] at hjQ; exact hcp_Q hjQ)]
            exact (hls d hd).2
          · rcases List.mem_cons.1 hd with rfl | hd
            · show (getN N li).parent = _
              rw [hNli]
            · rcases List.mem_cons.1 hd with rfl | hd
              · show (getN N t.nodes.length).parent = _
                rw [hNnew]
              · have hjRr : d.rootId ∈ (c.rs.map Skel.idsOf).flatten :=
                  List.mem_flatten.2 ⟨d.idsOf, List.mem_map.2 ⟨d, hd, rfl⟩,
                    Skel.rootId_mem_idsOf d⟩
                rw [hNother _ (hRr_lt _ hjRr)
                  (by intro hje; rw [hje] at hjRr; exact hli_Rr hjRr)
                  (by intro hje; rw [hje] at hjRr; exact hcp_Rr hjRr)]
                exact (hrs d hd).2
      · show CtxOk N rest (1 + 1) _
        simp only [Skel.rootId]
        refine CtxOk_frame rest (1 + 1) c.p hrest (by omega) ?_ ?_
        · intro j hj
          rcases List.mem_append.1 hj with hj | hj
          · obtain ⟨hj1, hj2⟩ := hP_facts j hj
            exact hNother j (hP_lt j hj) hj2 hj1
          · refine hNother j (hS_lt j hj) ?_ ?_
            · intro hje; rw [hje] at hj; exact hli_S hj
            · intro hje; rw [hje] at hj; exact hcp_S hj
        · rw [hNcp]
      · show ({ t with nodes := N } : BPlusTree K V).root = _
        simp only [Skel.rootId]
        exact hroot
      · show (getN N ({ t with nodes := N } : BPlusTree K V).root).parent = none
        have hrooteq : t.root = ctxRootId rest c.p := hroot
        cases hr0 : rest with
        | nil =>
          have hreq : t.root = c.p := by rw [hrooteq, hr0]; rfl
          show (getN N t.root).parent = none
          rw [hreq, hNcp]
          show (getN t.nodes c.p).parent = none
          rw [← hreq]
          exact hrootpar
        | cons d rest' =>
          have hmem : t.root ∈ preIds rest := by
            rw [hrooteq]
            exact ctxRootId_mem_preIds rest c.p (by rw [hr0]; simp)
          obtain ⟨hj1, hj2⟩ := hP_facts _ hmem
          show (getN N t.root).parent = none
          rw [hNother _ (hP_lt _ hmem) hj2 hj1]
          exact hrootpar
      · have heq1 : (plugSkel rest (Skel.node c.p (c.ls ++ Skel.leaf li ::
            Skel.leaf t.nodes.length :: c.rs))).idsOf =
            (preIds rest ++ c.p :: ((c.ls.map Skel.idsOf).flatten ++ [li])) ++
            t.nodes.length :: ((c.rs.map Skel.idsOf).flatten ++ postIds rest) := by
          rw [idsOf_plugSkel]
          simp only [Skel.idsOf_node, Skel.idsOf_leaf, List.map_append,
            List.map_cons, List.flatten_append, List.flatten_cons,
            List.append_assoc, List.cons_append, List.singleton_append,
            List.nil_append]
        have heq2 : (preIds rest ++ c.p :: ((c.ls.map Skel.idsOf).flatten ++ [li])) ++
            ((c.rs.map Skel.idsOf).flatten ++ postIds rest) =
            preIds rest ++ c.p :: ((c.ls.map Skel.idsOf).flatten ++
              li :: ((c.rs.map Skel.idsOf).flatten ++ postIds rest)) := by
          simp only [List.append_assoc, List.cons_append, List.singleton_append,
            List.nil_append]
        rw [heq1]
        refine nodup_insert_of_fresh ?_ ?_
        · rw [heq2]
          exact hndC
        · intro hmem
          have hlt : t.nodes.length < t.nodes.length := by
            rw [heq2] at hmem
            rw [← hcanon] at hmem
            exact hplug_lt _ hmem
          omega
      · show ChainOf N _
        rw [hleqnew]
        have holdchain : ChainOf t.nodes
            ((preLeaves rest ++ (c.ls.map Skel.leavesOf).flatten) ++
              li :: ((c.rs.map Skel.leavesOf).flatten ++ postLeaves rest)) := by
          rw [← hleqold]
          exact hchain
        refine chain_insert_after _ li t.nodes.length _ holdchain ?_ ?_ ?_ ?_
        · show (getN N li).next = some t.nodes.length
          rw [hNli]
        · show (getN N t.nodes.length).next = (getN t.nodes li).next
          rw [hNnew]
        · intro l hl
          exact (hkeep l (hAfacts l hl).1 (hAfacts l hl).2).1
        · intro l hl
          exact (hkeep l (hBfacts l hl).1 (hBfacts l hl).2).1
    have hEfinal : entriesTotal N ((plugSkel rest (Skel.node c.p (c.ls ++
        Skel.leaf li :: Skel.leaf t.nodes.length :: c.rs))).leavesOf) =
        entriesTotal t.nodes ((plugSkel (c :: rest) (Skel.leaf li)).leavesOf) := by
      rw [hleqnew, hleqold, entriesTotal_two_mid, entriesTotal_one_mid,
        hNli, hNnew]
      have hEA : entriesTotal N (preLeaves rest ++ (c.ls.map Skel.leavesOf).flatten) =
          entriesTotal t.nodes (preLeaves rest ++ (c.ls.map Skel.leavesOf).flatten) :=
        entriesTotal_congr _ (fun l hl => (hkeep l (hAfacts l hl).1 (hAfacts l hl).2).2)
      have hEB : entriesTotal N ((c.rs.map Skel.leavesOf).flatten ++ postLeaves rest) =
          entriesTotal t.nodes ((c.rs.map Skel.leavesOf).flatten ++ postLeaves rest) :=
        entriesTotal_congr _ (fun l hl => (hkeep l (hBfacts l hl).1 (hBfacts l hl).2).2)
      rw [hEA, hEB]
      show _ + ((List.take sp (getN t.nodes li).values).length +
        ((List.drop sp (getN t.nodes li).values).length + _)) = _
      rw [List.length_take, List.length_drop]
      omega
    by_cases hovf : (getN t.nodes c.p).keys.length + 1 > t.order - 1
    · rw [if_pos hovf]
      have hK' : 3 ≤ (getN ({ t with nodes := N } : BPlusTree K V).nodes c.p).keys.length := by
        show 3 ≤ (getN N c.p).keys.length
        rw [hNcp]
        show 3 ≤ (insertAt (getN t.nodes c.p).keys c.ls.length
          ((List.drop sp (getN t.nodes li).keys).headD default)).length
        rw [insertAt_length_of_le (getN t.nodes c.p).keys c.ls.length ((List.drop sp (getN t.nodes li).keys).headD default) (by omega)]
        omega
      obtain ⟨s', h', hg, hlv, hvals, hcnt, hord, hmin⟩ :=
        splitInternal_ok fuel { t with nodes := N } rest c.p
          (c.ls ++ Skel.leaf li :: Skel.leaf t.nodes.length :: c.rs) 1 hz'
          horder hK' (by simp only [List.length_cons] at hfuel; omega)
      refine ⟨s', h', hg, ?_, ?_, ?_, ?_⟩
      · rw [hlv]
        have hcongr : entriesTotal (splitInternalNode cmp fuel
            { t with nodes := N } c.p).nodes
            ((plugSkel rest (Skel.node c.p (c.ls ++ Skel.leaf li ::
              Skel.leaf t.nodes.length :: c.rs))).leavesOf) =
            entriesTotal N ((plugSkel rest (Skel.node c.p (c.ls ++ Skel.leaf li ::
              Skel.leaf t.nodes.length :: c.rs))).leavesOf) := by
          refine entriesTotal_congr _ ?_
          intro l hl
          exact hvals l (by rw [hlv]; exact hl)
        rw [hcongr, hEfinal]
      · rw [hcnt]
      · rw [hord]
      · rw [hmin]
    · rw [if_neg hovf]
      refine ⟨plugSkel rest (Skel.node c.p (c.ls ++ Skel.leaf li ::
          Skel.leaf t.nodes.length :: c.rs)),
        1 + 1 + rest.length, ZipOk_goodTree hz' horder, ?_, rfl, rfl, rfl⟩
      exact hEfinal

theorem insertPos_le {cmp : K → K → Int} {key : K} :
    ∀ (ks : List K), insertPos cmp key ks ≤ ks.length := by
  intro ks
  induction ks with
  | nil => simp [insertPos]
  | cons k ks ih =>
    rw [insertPos]
    split
    · simp only [List.length_cons]; omega
    · omega

theorem insertIntoLeaf_ok {cmp : K → K → Int} [Inhabited K] :
    ∀ (fuel : Nat) (t : BPlusTree K V) (crumbs : List Crumb) (li : Nat)
      (key : K) (value : V),
      ZipOk t crumbs (.leaf li) 1 →
      3 ≤ t.order →
      crumbs.length ≤ fuel →
      ∃ (s' : Skel) (h' : Nat),
        GoodTree (insertIntoLeaf cmp fuel t li key value) s' h' ∧
        entriesTotal (insertIntoLeaf cmp fuel t li key value).nodes s'.leavesOf =
          entriesTotal t.nodes (plugSkel crumbs (.leaf li)).leavesOf + 1 ∧
        (insertIntoLeaf cmp fuel t li key value).count = t.count ∧
        (insertIntoLeaf cmp fuel t li key value).order = t.order ∧
        (insertIntoLeaf cmp fuel t li key value).minKeys = t.minKeys := by
  intro fuel t crumbs li key value hz horder hfuel
  obtain ⟨hf, hctx, hroot, hrootpar, hnd, hchain⟩ := hz
  have hf0 := hf
  cases hf with
  | leaf h1 h2 h3 h4 =>
  have hli_lt : li < t.nodes.length := h1
  obtain ⟨pos, hpos⟩ : ∃ x, insertPos cmp key (getN t.nodes li).keys = x := ⟨_, rfl⟩
  have hposle : pos ≤ (getN t.nodes li).keys.length := by
    rw [← hpos]; exact insertPos_le _
  have hids_expand := idsOf_plugSkel crumbs (Skel.leaf li)
  have hndE : (preIds crumbs ++ [li] ++ postIds crumbs).Nodup := by
    rw [← Skel.idsOf_leaf li, ← hids_expand]
    exact hnd
  obtain ⟨hndPL, hndS2, hdisj2⟩ := List.nodup_append.1 hndE
  obtain ⟨hndP2, hndL2, hdisjPL⟩ := List.nodup_append.1 hndPL
  have hctxne : ∀ j ∈ preIds crumbs ++ postIds crumbs, j ≠ li := by
    intro j hj he
    rcases List.mem_append.1 hj with hj | hj
    · exact hdisjPL hj (by rw [he]; exact List.mem_singleton.2 rfl)
    · exact hdisj2 (List.mem_append.2 (Or.inr (List.mem_singleton.2 rfl)))
        (by rw [← he]; exact hj)
  simp only [insertIntoLeaf]
  rw [hpos]
  set LF : TreeNode K V := ⟨insertAt (getN t.nodes li).keys pos key,
    insertAt (getN t.nodes li).values pos ⟨key, value⟩,
    (getN t.nodes li).children,
    (getN t.nodes li).isLeaf,
    (getN t.nodes li).next,
    (getN t.nodes li).parent⟩ with hLF
  set NT := setN t.nodes li LF with hNT
  have hlenNT : NT.length = t.nodes.length := by
    rw [hNT, length_setN]
  have hgli : getN NT li = LF := by
    rw [hNT, getN_setN_self _ hli_lt]
  have hgother : ∀ j : Nat, j ≠ li → getN NT j = getN t.nodes j := by
    intro j hj
    rw [hNT, getN_setN_ne _ (Ne.symm hj)]
  have hkeylen : (insertAt (getN t.nodes li).keys pos key).length =
      (getN t.nodes li).keys.length + 1 :=
    insertAt_length_of_le _ _ _ hposle
  have hvallen : (insertAt (getN t.nodes li).values pos ⟨key, value⟩).length =
      (getN t.nodes li).values.length + 1 :=
    insertAt_length_of_le _ _ _ (by omega)
  have hz1 : ZipOk { t with nodes := NT } crumbs (Skel.leaf li) 1 := by
    refine ⟨?_, ?_, ?_, ?_, ?_, ?_⟩
    · show Fits NT (Skel.leaf li) 1
      refine Fits.leaf (by omega) ?_ ?_ ?_
      · show (getN NT li).isLeaf = true
        rw [hgli]
        exact h2
      · show (getN NT li).children = []
        rw [hgli]
        exact h3
      · show (getN NT li).values.length = (getN NT li).keys.length
        rw [hgli]
        show (insertAt (getN t.nodes li).values pos ⟨key, value⟩).length =
          (insertAt (getN t.nodes li).keys pos key).length
        rw [hkeylen, hvallen, h4]
    · show CtxOk NT crumbs 1 _
      simp only [Skel.rootId]
      refine CtxOk_frame crumbs 1 li hctx (by omega) ?_ ?_
      · intro j hj
        exact hgother j (hctxne j hj)
      · rw [hgli]
    · exact hroot
    · show (getN NT ({ t with nodes := NT } : BPlusTree K V).root).parent = none
      by_cases hr : t.root = li
      · show (getN NT t.root).parent = none
        rw [hr, hgli]
        show (getN t.nodes li).parent = none
        rw [← hr]
        exact hrootpar
      · show (getN NT t.root).parent = none
        rw [hgother _ hr]
        exact hrootpar
    · exact hnd
    · show ChainOf NT _
      refine ChainOf_congr _ ?_ hchain
      intro l hl
      by_cases hlli : l = li
      · rw [hlli, hgli]
      · rw [hgother _ hlli]
  have hleqL : (plugSkel crumbs (Skel.leaf li)).leavesOf =
      preLeaves crumbs ++ li :: postLeaves crumbs := by
    rw [leavesOf_plugSkel]
    simp only [Skel.leavesOf_leaf, List.append_assoc, List.singleton_append]
  have hE1 : entriesTotal NT (plugSkel crumbs (Skel.leaf li)).leavesOf =
      entriesTotal t.nodes (plugSkel crumbs (Skel.leaf li)).leavesOf + 1 := by
    rw [hleqL, entriesTotal_one_mid, entriesTotal_one_mid, hgli]
    have hEA : entriesTotal NT (preLeaves crumbs) =
        entriesTotal t.nodes (preLeaves crumbs) := by
      refine entriesTotal_congr _ ?_
      intro l hl
      rw [hgother l (hctxne l (List.mem_append.2 (Or.inl
        (List.Sublist.mem hl (preLeaves_sublist_preIds crumbs)))))]
    have hEB : entriesTotal NT (postLeaves crumbs) =
        entriesTotal t.nodes (postLeaves crumbs) := by
      refine entriesTotal_congr _ ?_
      intro l hl
      rw [hgother l (hctxne l (List.mem_append.2 (Or.inr
        (List.Sublist.mem hl (postLeaves_sublist_postIds crumbs)))))]
    rw [hEA, hEB]
    show _ + ((insertAt (getN t.nodes li).values pos ⟨key, value⟩).length + _) = _
    rw [hvallen]
    omega
  rw [hkeylen]
  by_cases hovf : (getN t.nodes li).keys.length + 1 > t.order - 1
  · rw [if_pos hovf]
    obtain ⟨s', h', hg, hE, hcnt, hord, hmin⟩ :=
      splitLeaf_ok fuel { t with nodes := NT } crumbs li hz1 horder hfuel
    refine ⟨s', h', hg, ?_, ?_, ?_, ?_⟩
    · rw [hE]
      show entriesTotal NT _ = _
      rw [hE1]
    · rw [hcnt]
    · rw [hord]
    · rw [hmin]
  · rw [if_neg hovf]
    refine ⟨plugSkel crumbs (Skel.leaf li), 1 + crumbs.length,
      ZipOk_goodTree hz1 horder, ?_, rfl, rfl, rfl⟩
    exact hE1

theorem Insert_inv {cmp : K → K → Int} [Inhabited K] (t : BPlusTree K V)
    (k : K) (v : V) (hinv : Inv t) : Inv (Insert cmp t (some k) v).1 := by
  obtain ⟨s, h, hg, hcount⟩ := hinv
  obtain ⟨hf, hrootid, hrootpar, hnd, hchain, horder⟩ := hg
  have hidslen : s.idsOf.length ≤ t.nodes.length :=
    nodup_bounded_length_le hnd hf.ids_lt
  have hfuelOK : h ≤ t.nodes.length + 1 := by
    have := hf.height_le_ids
    omega
  obtain ⟨li, crumbs, hloop, hfl, hcx, hplug⟩ :=
    @findLeaf_descend K V t.nodes cmp k s h hf (t.nodes.length + 1) []
      (by omega) (by trivial)
  simp only [plugSkel] at hplug
  have hfln : findLeafNode cmp t k = li := by
    rw [findLeafNode, ← hrootid]
    exact hloop
  have hzroot : t.root = ctxRootId crumbs li := by
    have := rootId_plugSkel crumbs (Skel.leaf li)
    rw [hplug] at this
    rw [← hrootid, this]
    rfl
  have hzip : ZipOk t crumbs (Skel.leaf li) 1 := by
    refine ⟨hfl, hcx, hzroot, hrootpar, ?_, ?_⟩
    · rw [hplug]; exact hnd
    · rw [hplug]; exact hchain
  have hplugfits := Fits_plugSkel crumbs (Skel.leaf li) 1 hcx hfl
  have hcrumbslen : 1 + crumbs.length ≤ t.nodes.length := by
    have h5 := hplugfits.height_le_ids
    rw [hplug] at h5
    omega
  have hli_lt : li < t.nodes.length := hfl.rootId_lt
  have hvklen : (getN t.nodes li).values.length = (getN t.nodes li).keys.length := by
    cases hfl with
    | leaf _ _ _ h4 => exact h4
  cases hfe : findEq cmp k (getN t.nodes li).keys with
  | some i =>
    simp only [Insert, hfln, hfe]
    set LF : TreeNode K V := ⟨(getN t.nodes li).keys,
      setValueAt (getN t.nodes li).values i v,
      (getN t.nodes li).children,
      (getN t.nodes li).isLeaf,
      (getN t.nodes li).next,
      (getN t.nodes li).parent⟩ with hLF
    set NT := setN t.nodes li LF with hNT
    have hlenNT : NT.length = t.nodes.length := by
      rw [hNT, length_setN]
    have hgli : getN NT li = LF := by
      rw [hNT, getN_setN_self _ hli_lt]
    have hgother : ∀ j : Nat, j ≠ li → getN NT j = getN t.nodes j := by
      intro j hj
      rw [hNT, getN_setN_ne _ (Ne.symm hj)]
    have hids_expand := idsOf_plugSkel crumbs (Skel.leaf li)
    have hndE : (preIds crumbs ++ [li] ++ postIds crumbs).Nodup := by
      rw [← Skel.idsOf_leaf li, ← hids_expand, hplug]
      exact hnd
    obtain ⟨hndPL, hndS2, hdisj2⟩ := List.nodup_append.1 hndE
    obtain ⟨hndP2, hndL2, hdisjPL⟩ := List.nodup_append.1 hndPL
    have hctxne : ∀ j ∈ preIds crumbs ++ postIds crumbs, j ≠ li := by
      intro j hj he
      rcases List.mem_append.1 hj with hj | hj
      · exact hdisjPL hj (by rw [he]; exact List.mem_singleton.2 rfl)
      · exact hdisj2 (List.mem_append.2 (Or.inr (List.mem_singleton.2 rfl)))
          (by rw [← he]; exact hj)
    have hz2 : ZipOk { t with nodes := NT } crumbs (Skel.leaf li) 1 := by
      refine ⟨?_, ?_, ?_, ?_, ?_, ?_⟩
      · show Fits NT (Skel.leaf li) 1
        refine Fits.leaf (by omega) ?_ ?_ ?_
        · show (getN NT li).isLeaf = true
          rw [hgli]
          cases hfl with
          | leaf _ h2 _ _ => exact h2
        · show (getN NT li).children = []
          rw [hgli]
          cases hfl with
          | leaf _ _ h3 _ => exact h3
        · show (getN NT li).values.length = (getN NT li).keys.length
          rw [hgli]
          show (setValueAt (getN t.nodes li).values i v).length =
            (getN t.nodes li).keys.length
          rw [setValueAt_length, hvklen]
      · show CtxOk NT crumbs 1 _
        simp only [Skel.rootId]
        refine CtxOk_frame crumbs 1 li hcx (by omega) ?_ ?_
        · intro j hj
          exact hgother j (hctxne j hj)
        · rw [hgli]
      · exact hzroot
      · show (getN NT ({ t with nodes := NT } : BPlusTree K V).root).parent = none
        by_cases hr : t.root = li
        · show (getN NT t.root).parent = none
          rw [hr, hgli]
          show (getN t.nodes li).parent = none
          rw [← hr]
          exact hrootpar
        · show (getN NT t.root).parent = none
          rw [hgother _ hr]
          exact hrootpar
      · rw [hplug]; exact hnd
      · show ChainOf NT _
        rw [hplug]
        refine ChainOf_congr _ ?_ hchain
        intro l hl
        by_cases hlli : l = li
        · rw [hlli, hgli]
        · rw [hgother _ hlli]
    refine ⟨plugSkel crumbs (Skel.leaf li), 1 + crumbs.length,
      ZipOk_goodTree hz2 horder, ?_⟩
    show t.count = (entriesTotal NT (plugSkel crumbs (Skel.leaf li)).leavesOf : Int)
    rw [hplug, hcount]
    congr 1
    refine (entriesTotal_congr_len _ ?_).symm
    intro l hl
    by_cases hlli : l = li
    · rw [hlli, hgli]
      show (setValueAt (getN t.nodes li).values i v).length = _
      rw [setValueAt_length]
    · rw [hgother _ hlli]
  | none =>
    simp only [Insert, hfln, hfe]
    obtain ⟨s', h', hg', hE, hcnt, hord, hmin⟩ :=
      insertIntoLeaf_ok (t.nodes.length + 1) t crumbs li k v hzip horder (by omega)
    refine ⟨s', h', ?_, ?_⟩
    · exact hg'
    · show (insertIntoLeaf cmp (t.nodes.length + 1) t li k v).count + 1 =
        (entriesTotal (insertIntoLeaf cmp (t.nodes.length + 1) t li k v).nodes
          s'.leavesOf : Int)
      rw [hcnt, hE, hplug, hcount]
      push_cast
      ring

theorem eraseIdx_at_middle {α : Type} :
    ∀ (A : List α) (x : α) (B : List α),
      (A ++ x :: B).eraseIdx A.length = A ++ B := by
  intro A
  induction A with
  | nil => intro x B; rfl
  | cons a A' ih =>
    intro x B
    show a :: (A' ++ x :: B).eraseIdx A'.length = _
    rw [ih]
    rfl

theorem getD_at_middle {α : Type} :
    ∀ (A : List α) (x : α) (B : List α) (d : α),
      (A ++ x :: B).getD A.length d = x := by
  intro A
  induction A with
  | nil => intro x B d; rfl
  | cons a A' ih =>
    intro x B d
    show (A' ++ x :: B).getD A'.length d = x
    exact ih x B d

theorem Fits_leaf_height {nodes : List (TreeNode K V)} {i h' : Nat}
    (hf : Fits nodes (.leaf i) h') : h' = 1 := by
  cases hf
  rfl

theorem Fits_node_of_big {nodes : List (TreeNode K V)} {s : Skel} {h : Nat}
    (hf : Fits nodes s (h + 2)) : ∃ i cs0, s = Skel.node i cs0 := by
  cases s with
  | leaf i =>
    have := Fits_leaf_height hf
    omega
  | node i cs0 => exact ⟨i, cs0, rfl⟩

theorem Fits_two_height_le {nodes : List (TreeNode K V)} {s : Skel} {h : Nat}
    (hf : Fits nodes s h) : 2 * h ≤ s.idsOf.length + 1 := by
  induction hf with
  | leaf _ _ _ _ => simp [Skel.idsOf_leaf]
  | @node i cs h _ _ _ hlen hpos hall hpar ih =>
    rw [Skel.idsOf_node]
    cases cs with
    | nil => simp at hlen
    | cons c1 cs' =>
      cases cs' with
      | nil =>
        exfalso
        simp only [List.length_cons, List.length_nil] at hlen
        omega
      | cons c2 cs'' =>
        have i1 := ih c1 (by simp)
        have i2 := ih c2 (by simp)
        simp only [List.map_cons, List.flatten_cons, List.length_cons,
          List.length_append]
        omega

theorem mem_flatten_ids {L : List Skel} {d : Skel} {j : Nat} (hd : d ∈ L)
    (hj : j ∈ d.idsOf) : j ∈ (L.map Skel.idsOf).flatten :=
  List.mem_flatten.2 ⟨d.idsOf, List.mem_map.2 ⟨d, hd, rfl⟩, hj⟩

theorem Fits_one_le {nodes : List (TreeNode K V)} {s : Skel} {h : Nat}
    (hf : Fits nodes s h) : 1 ≤ h := by
  cases hf with
  | leaf _ _ _ _ => omega
  | node _ _ _ _ _ _ _ => omega

end BPlus
